import Mathlib

/-!
# news-api: aggregation service and TTL cache

A shallow embedding of `internal/news` (model.go, errors.go), of
`internal/news/cache/cache.go`, of `internal/news/service` (service.go,
option.go), of `internal/news/handler/http/handler.go` and of `toFeed` of
`internal/provider/sky/model.go` and `internal/provider/bbc/model.go`, followed
by the properties proved about them.

Conventions.

* Go `int` is the 64-bit two's-complement integer of the targets the server is
  built for.  Values are `Int`; the one addition of `paginate` is wrapped with
  `wrapInt`.
* A Go panic is made explicit: `paginate` returns `none`, the exported service
  methods return `Result.panic`.
* The service holds a pointer to its cache; here the cache is passed in and the
  cache after the call is returned, together with the calls made on the cache
  and on the providers (`Event`), in order.
* `for k := range m` visits the keys of a Go map in an unspecified order that
  may differ from one loop to the next.  The order used by each loop of a call
  is an explicit argument (`Ranges`).
* `time.Time` values are instants, `Int` nanoseconds; `t.After(u)` is `u < t`.
-/

namespace News

/-! ## internal/news/model.go -/

abbrev Provider := String
abbrev Category := String

def ProviderAll : Provider := ""
def ProviderBBC : Provider := "bbc"
def ProviderSky : Provider := "sky"

def CategoryUK : Category := "uk"
def CategoryTechnology : Category := "technology"

structure Item where
  Category : Category
  Provider : Provider
  Title : String
  Link : String
  Description : String
  Thumbnail : String
  DateTime : Int
  deriving DecidableEq, Repr

structure Feed where
  Title : String
  Description : String
  Link : String
  Language : String
  Copyright : String
  DateTime : Int
  TTL : Int
  Items : List Item
  deriving DecidableEq, Repr

structure FeedResponse where
  Category : Category
  Provider : Provider
  Items : List Item
  Limit : Int
  Offset : Int
  deriving DecidableEq, Repr

/-! ## internal/news/errors.go and the Go error values the service handles -/

/-- Go error values.  `ErrProviderNotFound` and `ErrCategoryNotFound` are the two
sentinels of errors.go, `InvalidParameterError` its struct error, `upstream` any
other comparable error value (told apart by `id`), and `wrapError` the value
built by `fmt.Errorf` with a `%w` verb: its message and the error it wraps. -/
inductive GoError where
  | ErrProviderNotFound : GoError
  | ErrCategoryNotFound : GoError
  | InvalidParameterError (Parameter : String) : GoError
  | upstream (id : Nat) (msg : String) : GoError
  | wrapError (msg : String) (err : GoError) : GoError
  deriving DecidableEq, Repr

/-- The `Error()` method. -/
def GoError.Error : GoError → String
  | .ErrProviderNotFound => "provider not found"
  | .ErrCategoryNotFound => "category not found"
  | .InvalidParameterError p => "invalid parameter: " ++ p
  | .upstream _ msg => msg
  | .wrapError msg _ => msg

/-- The `Unwrap()` method: only `fmt.Errorf` values wrap something. -/
def GoError.Unwrap : GoError → Option GoError
  | .wrapError _ err => some err
  | _ => none

/-- `errors.Is(err, target)` on comparable values: `err` or an error of its
`Unwrap` chain equals `target`. -/
def errorsIs : GoError → GoError → Bool
  | .wrapError msg err, target =>
      decide (GoError.wrapError msg err = target) || errorsIs err target
  | e, target => decide (e = target)

/-- `fmt.Errorf("failed to get %s feed from %s: %w", category, provider, err)`. -/
def errorfGetFeed (category : Category) (provider : Provider) (err : GoError) : GoError :=
  .wrapError ("failed to get " ++ category ++ " feed from " ++ provider ++ ": " ++ err.Error) err

/-! ## Machine integers -/

def MaxInt : Int := 9223372036854775807
def MinInt : Int := -9223372036854775808
def MaxInt32 : Int := 2147483647

/-- The value of a 64-bit two's-complement result whose exact value is `x`. -/
def wrapInt (x : Int) : Int := (x + 9223372036854775808) % 18446744073709551616 - 9223372036854775808

/-- Whether `x` is a value of Go `int`. -/
def isInt (x : Int) : Prop := MinInt ≤ x ∧ x ≤ MaxInt

instance (x : Int) : Decidable (isInt x) := by unfold isInt; infer_instance

/-- The slice expression `s[low:high]`: it panics (`none`) unless
`0 <= low <= high <= cap(s)`.  `paginate` only takes `high <= len(s)`, so the
length stands for the capacity. -/
def sliceExpr {α : Type} (s : List α) (low high : Int) : Option (List α) :=
  if 0 ≤ low ∧ low ≤ high ∧ high ≤ (s.length : Int) then
    some ((s.drop low.toNat).take (high.toNat - low.toNat))
  else none

/-! ## internal/news/cache/cache.go -/

/-- `time.Minute`, in nanoseconds. -/
def Minute : Int := 60000000000

/-- The cache: the reading of its clock (nanoseconds), the `feeds` map, and one
entry per `invalidateAfterTTL` goroutine still waiting: the instant its timer
fires and the key it will delete. -/
structure cache where
  clock : Int
  feeds : String → Option Feed
  timers : List (Int × String)

/-- `fmt.Sprintf("%s-%s", provider, category)`. -/
def cache.hash (provider : Provider) (category : Category) : String :=
  provider ++ "-" ++ category

def cache.Get (c : cache) (provider : Provider) (category : Category) : Option Feed :=
  c.feeds (cache.hash provider category)

def cache.put (c : cache) (hash : String) (feed : Feed) : cache :=
  { c with feeds := fun h => if h = hash then some feed else c.feeds h }

/-- `go c.invalidateAfterTTL(hash, ttl)` up to its wait on
`c.clock.After(time.Minute * time.Duration(ttl))`; the product is an int64. -/
def cache.invalidateAfterTTL (c : cache) (hash : String) (ttl : Int) : cache :=
  { c with timers := c.timers ++ [(c.clock + wrapInt (Minute * ttl), hash)] }

def cache.Store (c : cache) (provider : Provider) (category : Category) (feed : Feed) : cache :=
  let hash := cache.hash provider category
  (c.put hash feed).invalidateAfterTTL hash feed.TTL

/-- An empty cache at clock reading 0. -/
def cache.empty : cache := { clock := 0, feeds := fun _ => none, timers := [] }

/-- `New(clock)`: the clock is an interface value, `none` when nil, otherwise
given by its reading. -/
def cache.New (clock : Option Int) : Except GoError cache :=
  match clock with
  | none => .error (.InvalidParameterError "clock")
  | some t => .ok { clock := t, feeds := fun _ => none, timers := [] }

/-- The fake clock's `Advance(d)`. -/
def cache.Advance (c : cache) (d : Int) : cache :=
  { c with clock := c.clock + d }

/-- Whether a waiting timer has fired at the current clock reading. -/
def cache.due (c : cache) (t : Int × String) : Bool := decide (t.1 ≤ c.clock)

/-- The rest of `invalidateAfterTTL` for every goroutine whose timer has fired:
`delete(c.feeds, hash)`, whatever was stored under the key since. -/
def cache.expire (c : cache) : cache :=
  { c with
    feeds := fun h => if h ∈ (c.timers.filter c.due).map Prod.snd then none else c.feeds h
    timers := c.timers.filter (fun t => !c.due t) }

/-- The clock is advanced by `d` and the expiry actions then due have run. -/
def cache.elapse (c : cache) (d : Int) : cache := (c.Advance d).expire

/-- What happens to a cache: a `Store`, a `Get`, or time passing. -/
inductive cacheOp where
  | store (provider : Provider) (category : Category) (feed : Feed) : cacheOp
  | get (provider : Provider) (category : Category) : cacheOp
  | elapse (d : Int) : cacheOp

/-- The cache after an operation.  `Get` only reads `c.feeds`. -/
def cacheOp.apply (c : cache) : cacheOp → cache
  | .store provider category feed => c.Store provider category feed
  | .get _ _ => c
  | .elapse d => c.elapse d

/-- The cache after a sequence of operations. -/
def cache.run (c : cache) (ops : List cacheOp) : cache := ops.foldl cacheOp.apply c

/-- The key written by an operation, if it is a `Store`. -/
def cacheOp.key : cacheOp → Option String
  | .store provider category _ => some (cache.hash provider category)
  | .get _ _ => none
  | .elapse _ => none

/-! ## internal/news/service/service.go -/

/-- The `Provider` interface: the outcome of `GetFeed(ctx, category)` during the
call under study. -/
abbrev ProviderFn := Category → Except GoError Feed

/-- The registry of a service: the entries of the `providers` map and the keys
of the `categories` map. -/
structure service where
  providers : List (Provider × ProviderFn)
  categories : List Category

/-- The orders in which the `range` loops of one call visit the two maps: the
categories (loop of `GetFeed`) and, for each category, the providers (loop of
`getAllFeedsForCategory`). -/
structure Ranges where
  categories : List Category
  providers : Category → List Provider

/-- The orders visit exactly the registered keys. -/
def Ranges.valid (r : Ranges) (s : service) : Prop :=
  r.categories.Perm s.categories ∧
    ∀ c, (r.providers c).Perm (s.providers.map Prod.fst)

/-- A call on a collaborator of the service. -/
inductive Event where
  | cacheGet (provider : Provider) (category : Category) : Event
  | cacheStore (provider : Provider) (category : Category) (feed : Feed) : Event
  | providerGetFeed (provider : Provider) (category : Category) (err : Option GoError) : Event
  deriving DecidableEq, Repr

/-- What a call returns: a value, an error, or a panic. -/
inductive Result (α : Type) where
  | ok (a : α) : Result α
  | error (err : GoError) : Result α
  | panic : Result α
  deriving Repr

/-- A finished call: what it returned, the cache it left, the calls it made. -/
structure Ran (α : Type) where
  ret : Result α
  cache : cache
  events : List Event

/-- The contract of `sort.Slice` on a slice of items: the slice is permuted, and
when `less` is a strict weak ordering, no later element is `less` than an
earlier one.  Ties may come out in any order. -/
structure SliceSorter where
  sort : (Item → Item → Bool) → List Item → List Item
  perm : ∀ less l, (sort less l).Perm l
  sorted : ∀ less : Item → Item → Bool,
    (∀ a, less a a = false) →
    (∀ a b c, less a b = true → less b c = true → less a c = true) →
    (∀ a b c, less a b = false → less b c = false → less a c = false) →
    ∀ l, (sort less l).Pairwise (fun a b => less b a = false)

/-- The comparison passed to `sort.Slice`:
`items[i].DateTime.After(items[j].DateTime)`. -/
def lessAfter (a b : Item) : Bool := decide (b.DateTime < a.DateTime)

def service.paginate (items : List Item) (offset limit : Int) : Option (List Item) :=
  let offset := if offset > (items.length : Int) then (items.length : Int) else offset
  let limit := if limit = 0 then MaxInt32 else limit
  let end_ := wrapInt (offset + limit)
  let end_ := if end_ > (items.length : Int) then (items.length : Int) else end_
  sliceExpr items offset end_

def service.getFeed (s : service) (k : cache) (provider : Provider) (category : Category) :
    Ran Feed :=
  match s.providers.lookup provider with
  | none => ⟨.error .ErrProviderNotFound, k, []⟩
  | some newsProvider =>
    match k.Get provider category with
    | some feed => ⟨.ok feed, k, [.cacheGet provider category]⟩
    | none =>
      match newsProvider category with
      | .error err =>
        ⟨.error (errorfGetFeed category provider err), k,
          [.cacheGet provider category, .providerGetFeed provider category (some err)]⟩
      | .ok feed =>
        ⟨.ok feed, k.Store provider category feed,
          [.cacheGet provider category, .providerGetFeed provider category none,
            .cacheStore provider category feed]⟩

/-- The loop of `getAllFeedsForCategory` over the providers still to visit. -/
def service.getAllFeedsForCategory.loop (s : service) (category : Category) :
    List Provider → cache → List Item → Ran (List Item)
  | [], k, items => ⟨.ok items, k, []⟩
  | p :: ps, k, items =>
    let r := s.getFeed k p category
    match r.ret with
    | .ok feed =>
      let r2 := service.getAllFeedsForCategory.loop s category ps r.cache (items ++ feed.Items)
      ⟨r2.ret, r2.cache, r.events ++ r2.events⟩
    | .error err => ⟨.error err, r.cache, r.events⟩
    | .panic => ⟨.panic, r.cache, r.events⟩

def service.getAllFeedsForCategory (s : service) (o : Ranges) (k : cache) (category : Category) :
    Ran (List Item) :=
  service.getAllFeedsForCategory.loop s category (o.providers category) k []

def service.getFeeds (s : service) (o : Ranges) (k : cache) (provider : Provider)
    (category : Category) : Ran (List Item) :=
  if provider = ProviderAll then
    s.getAllFeedsForCategory o k category
  else
    let r := s.getFeed k provider category
    match r.ret with
    | .ok feed => ⟨.ok feed.Items, r.cache, r.events⟩
    | .error err => ⟨.error err, r.cache, r.events⟩
    | .panic => ⟨.panic, r.cache, r.events⟩

/-- The effect of sorting in place a slice that is the `Items` of the feed held
under `(provider, category)`: the cached feed shares the backing array, so its
items are seen in the sorted order. -/
def cache.sortShared (c : cache) (provider : Provider) (category : Category)
    (sorted : List Item) : cache :=
  { c with feeds := fun h =>
      if h = cache.hash provider category then
        (c.feeds h).map (fun f => { f with Items := sorted })
      else c.feeds h }

def service.GetFeedByCategory (S : SliceSorter) (s : service) (o : Ranges) (k : cache)
    (provider : Provider) (category : Category) (offset limit : Int) : Ran FeedResponse :=
  if ¬ category ∈ s.categories then
    ⟨.error .ErrCategoryNotFound, k, []⟩
  else
    let r := s.getFeeds o k provider category
    match r.ret with
    | .error err => ⟨.error err, r.cache, r.events⟩
    | .panic => ⟨.panic, r.cache, r.events⟩
    | .ok items =>
      let sorted := S.sort lessAfter items
      -- for a single provider `items` is `feed.Items` itself, not a copy
      let k2 := if provider = ProviderAll then r.cache
        else r.cache.sortShared provider category sorted
      match service.paginate sorted offset limit with
      | none => ⟨.panic, k2, r.events⟩
      | some page =>
        ⟨.ok { Category := category, Provider := provider, Items := page,
               Limit := limit, Offset := offset }, k2, r.events⟩

/-- The loop of `GetFeed` over the categories still to visit. -/
def service.GetFeed.loop (s : service) (o : Ranges) (provider : Provider) :
    List Category → cache → List Item → Ran (List Item)
  | [], k, items => ⟨.ok items, k, []⟩
  | c :: cs, k, items =>
    let r := s.getFeeds o k provider c
    match r.ret with
    | .ok feed =>
      let r2 := service.GetFeed.loop s o provider cs r.cache (items ++ feed)
      ⟨r2.ret, r2.cache, r.events ++ r2.events⟩
    | .error err => ⟨.error err, r.cache, r.events⟩
    | .panic => ⟨.panic, r.cache, r.events⟩

def service.GetFeed (S : SliceSorter) (s : service) (o : Ranges) (k : cache)
    (provider : Provider) (offset limit : Int) : Ran FeedResponse :=
  let r := service.GetFeed.loop s o provider o.categories k []
  match r.ret with
  | .error err => ⟨.error err, r.cache, r.events⟩
  | .panic => ⟨.panic, r.cache, r.events⟩
  | .ok items =>
    let sorted := S.sort lessAfter items
    match service.paginate sorted offset limit with
    | none => ⟨.panic, r.cache, r.events⟩
    | some page =>
      ⟨.ok { Category := "", Provider := provider, Items := page,
             Limit := limit, Offset := offset }, r.cache, r.events⟩

/-! ## internal/news/service/option.go and `New` -/

/-- The values of type `option`: the results of `WithProvider` and of
`WithCategory`, the two functions that build one. -/
inductive option where
  | WithProvider (key : Provider) (provider : ProviderFn) : option
  | WithCategory (category : Category) : option

/-- The call `opt(s)`: `s.providers[key] = provider`, or
`s.categories[category] = struct{}{}`. -/
def option.apply (s : service) : option → service
  | .WithProvider key provider =>
    { s with providers := (key, provider) :: s.providers.filter (fun q => q.1 != key) }
  | .WithCategory category =>
    { s with categories :=
        if category ∈ s.categories then s.categories else category :: s.categories }

/-- `New(cache, opts...)`: the cache is an interface value, `none` when nil.  The
service is returned with the cache it holds. -/
def service.New (k : Option cache) (opts : List option) : Except GoError (service × cache) :=
  match k with
  | none => .error (.InvalidParameterError "cache")
  | some k => .ok (opts.foldl option.apply { providers := [], categories := [] }, k)

/-! ## Reading the calls made -/

/-- The pair an event is about. -/
def Event.pair : Event → Provider × Category
  | .cacheGet p c => (p, c)
  | .cacheStore p c _ => (p, c)
  | .providerGetFeed p c _ => (p, c)

/-- Whether the event is a cache lookup. -/
def Event.isCacheGet : Event → Bool
  | .cacheGet _ _ => true
  | _ => false

/-- Whether the event is a call of the `GetFeed` of `p` with category `c`. -/
def Event.isFetchOf (p : Provider) (c : Category) : Event → Bool
  | .providerGetFeed q d _ => decide (q = p ∧ d = c)
  | _ => false

/-- The pairs looked up in the cache, in the order of the lookups. -/
def lookedUp (events : List Event) : List (Provider × Category) :=
  (events.filter Event.isCacheGet).map Event.pair

/-- The calls are about the pairs `vs`, each looked up once, in that order. -/
def VisitedAll (events : List Event) (vs : List (Provider × Category)) : Prop :=
  lookedUp events = vs ∧ ∀ x ∈ events, x.pair ∈ vs

/-- The calls are about the pairs of `all` up to and including an occurrence
of `pc`, each looked up once, in that order; the pairs after it are left out. -/
def VisitedUpTo (events : List Event) (all : List (Provider × Category))
    (pc : Provider × Category) : Prop :=
  ∃ before after, all = before ++ pc :: after ∧ lookedUp events = before ++ [pc] ∧
    (∀ x ∈ events, x.pair ∈ before ++ [pc]) ∧
    (all.Nodup → ∀ q ∈ after, ∀ x ∈ events, x.pair ≠ q)

/-- The effect of an event on the cache: only a `Store` has one. -/
def Event.apply (k : cache) : Event → cache
  | .cacheStore p c feed => k.Store p c feed
  | _ => k

/-- The cache after the stores among the events, in order. -/
def cache.replay (k : cache) (events : List Event) : cache := events.foldl Event.apply k

/-- The pairs a wildcard `GetFeed` resolves, in the order of the loops. -/
def Ranges.pairs (o : Ranges) : List (Provider × Category) :=
  o.categories.flatMap (fun c => (o.providers c).map (fun p => (p, c)))

/-- The pairs a wildcard `GetFeedByCategory` resolves, in the order of the loop. -/
def Ranges.pairsOf (o : Ranges) (category : Category) : List (Provider × Category) :=
  (o.providers category).map (fun p => (p, category))

/-- An item published at instant `t`, all other fields fixed. -/
def itemAt (t : Int) : Item :=
  { Category := "uk", Provider := "bbc", Title := "title", Link := "link",
    Description := "description", Thumbnail := "thumbnail", DateTime := t }

/-- A feed with the given TTL and items, all other fields fixed. -/
def feedOf (ttl : Int) (items : List Item) : Feed :=
  { Title := "feed", Description := "", Link := "", Language := "en", Copyright := "",
    DateTime := 0, TTL := ttl, Items := items }

/-- One implementation of the `sort.Slice` contract: insertion sort, which puts
an element after the elements that are not `less` than it. -/
def insertionSorter : SliceSorter where
  sort := fun less l => l.insertionSort (fun a b => less b a = false)
  perm := fun less l => List.perm_insertionSort (fun a b => less b a = false) l
  sorted := by
    intro less hirr htr hneg l
    have hasym : ∀ a b, less a b = true → less b a = false := by
      intro a b hab
      cases hba : less b a
      · rfl
      · have := htr a b a hab hba
        rw [hirr a] at this
        exact absurd this (by decide)
    haveI : IsTotal Item (fun a b => less b a = false) := ⟨fun a b => by
      cases hba : less b a
      · exact Or.inl rfl
      · exact Or.inr (hasym b a hba)⟩
    haveI : IsTrans Item (fun a b => less b a = false) :=
      ⟨fun a b c hab hbc => hneg c b a hbc hab⟩
    exact List.sorted_insertionSort (fun a b => less b a = false) l

/-- A registry with two providers and one category: "bbc" answers with two
items, "sky" fails. -/
def demoService : service :=
  { providers := [("bbc", fun _ => .ok (feedOf 15 [itemAt 1, itemAt 5])),
                  ("sky", fun _ => .error (.upstream 0 "sky is down"))],
    categories := ["uk"] }

/-- An iteration order of `demoService`. -/
def demoRanges : Ranges :=
  { categories := ["uk"], providers := fun _ => ["bbc", "sky"] }

/-- A registry without providers or categories, and its iteration order. -/
def emptyService : service := { providers := [], categories := [] }

def emptyRanges : Ranges := { categories := [], providers := fun _ => [] }

/-- A cache holding a feed for ("bbc", "uk") and one for ("sky", "uk"). -/
def demoCache : cache :=
  (cache.empty.Store "bbc" "uk" (feedOf 15 [itemAt 5])).Store "sky" "uk" (feedOf 15 [itemAt 3])

/-- The items of the feeds the cache holds for the providers `ps` and the
category, in the order of `ps`. -/
def cache.itemsOf (c : cache) (category : Category) (ps : List Provider) : List Item :=
  ps.flatMap (fun p => match c.Get p category with
    | some feed => feed.Items
    | none => [])

/-- Whether the event is a call of a provider's `GetFeed`. -/
def Event.isFetch : Event → Bool
  | .providerGetFeed _ _ _ => true
  | _ => false

/-- The error of a fetch outcome, if it failed. -/
def fetchError : Except GoError Feed → Option GoError
  | .ok _ => none
  | .error err => some err

/-- Whether `provider` is a key of the `providers` map. -/
def service.registered (s : service) (provider : Provider) : Prop :=
  provider ∈ s.providers.map Prod.fst

instance (s : service) (provider : Provider) : Decidable (s.registered provider) := by
  unfold service.registered
  infer_instance

/-- An iteration order of `demoService` that visits "sky" first. -/
def demoRangesSkyFirst : Ranges :=
  { categories := ["uk"], providers := fun _ => ["sky", "bbc"] }

/-- The cache key of a pair. -/
def hashPair (pc : Provider × Category) : String := cache.hash pc.1 pc.2

/-- The items of the feed a pair resolves to on cache `k`: those of the cached
feed if there is one, otherwise those of the feed the registered provider
returns. -/
def service.resolvedItems (s : service) (k : cache) (pc : Provider × Category) : List Item :=
  match k.Get pc.1 pc.2 with
  | some feed => feed.Items
  | none =>
    match s.providers.lookup pc.1 with
    | none => []
    | some newsProvider =>
      match newsProvider pc.2 with
      | .ok feed => feed.Items
      | .error _ => []

/-- The pairs resolved for one category: every provider of the order for the
wildcard, otherwise the one provider. -/
def Ranges.resolvedFor (o : Ranges) (provider : Provider) (category : Category) :
    List (Provider × Category) :=
  if provider = ProviderAll then o.pairsOf category else [(provider, category)]

/-- The pairs resolved by a query over the categories `cs`, in order. -/
def Ranges.resolved (o : Ranges) (provider : Provider) (cs : List Category) :
    List (Provider × Category) :=
  cs.flatMap (o.resolvedFor provider)

/-- A sequence of 2147483648 items. -/
@[irreducible]
def manyItems : List Item := List.replicate 2147483648 (itemAt 0)

/-- A registry whose one provider answers with `manyItems`. -/
def bigService : service :=
  { providers := [("bbc", fun _ => .ok (feedOf 15 manyItems))], categories := ["uk"] }

/-- What the calls made by a part of the service, started on cache `k`, satisfy.
The cache left is `k` after the stores made; a recorded fetch is a call of the
registered provider, with its outcome; a store stores the feed of a successful
fetch and every successful fetch is stored; a failed fetch is the last call and
the only failed one; and nothing failed when a value is returned. -/
structure Traced (s : service) (k : cache) {α : Type} (r : Ran α) : Prop where
  cache_eq : r.cache = k.replay r.events
  fetch_outcome : ∀ q d err, Event.providerGetFeed q d err ∈ r.events →
    ∃ np, s.providers.lookup q = some np ∧ fetchError (np d) = err
  store_fetched : ∀ q d f, Event.cacheStore q d f ∈ r.events →
    ∃ np, s.providers.lookup q = some np ∧ np d = .ok f ∧
      Event.providerGetFeed q d none ∈ r.events
  fetched_stored : ∀ q d, Event.providerGetFeed q d none ∈ r.events →
    ∃ f, Event.cacheStore q d f ∈ r.events
  failed_last : ∀ q d e, Event.providerGetFeed q d (some e) ∈ r.events →
    ∃ pre, r.events = pre ++ [Event.providerGetFeed q d (some e)] ∧
      ∀ x ∈ pre, ∀ q2 d2 e2, x ≠ Event.providerGetFeed q2 d2 (some e2)
  ok_no_failed : ∀ a, r.ret = .ok a →
    ∀ q d e, Event.providerGetFeed q d (some e) ∉ r.events

/-- The bounds `offset` and `end` of the slice expression of `paginate`. -/
def service.paginateBounds (items : List Item) (offset limit : Int) : Int × Int :=
  let offset := if offset > (items.length : Int) then (items.length : Int) else offset
  let limit := if limit = 0 then MaxInt32 else limit
  let end_ := wrapInt (offset + limit)
  let end_ := if end_ > (items.length : Int) then (items.length : Int) else end_
  (offset, end_)

/-- The limit `paginate` works with: `math.MaxInt32` in place of 0. -/
def service.effectiveLimit (limit : Int) : Int := if limit = 0 then MaxInt32 else limit

/-! ## internal/provider/sky/model.go and internal/provider/bbc/model.go

`resTime` is a `time.Time`, an instant. -/

structure sky.Image where
  Text : String
  Title : String
  URL : String
  Link : String

structure sky.Enclosure where
  Text : String
  URL : String
  Length : Int
  Type_ : String

structure sky.Thumbnail where
  Text : String
  URL : String
  Width : Int
  Height : Int

structure sky.Content where
  Text : String
  Type_ : String
  URL : String

structure sky.Item where
  Title : String
  Link : String
  Description : String
  PubDate : Int
  Guid : String
  Enclosure : sky.Enclosure
  Thumbnail : sky.Thumbnail
  Content : sky.Content

structure sky.Channel where
  Text : String
  Link : String
  Title : String
  Image : sky.Image
  Description : String
  Language : String
  Copyright : String
  LastBuildDate : Int
  Category : String
  TTL : Int
  Items : List sky.Item

structure sky.Response where
  Text : String
  Atom : String
  Media : String
  Version : String
  Channel : sky.Channel

/-- The loop of `toFeed`: one `append` per upstream item. -/
def sky.toFeedLoop (category : Category) : List sky.Item → List News.Item → List News.Item
  | [], items => items
  | i :: rest, items =>
    sky.toFeedLoop category rest
      (items ++ [{ Category := category, Provider := ProviderSky, Title := i.Title,
                   Link := i.Link, Description := i.Description,
                   Thumbnail := i.Thumbnail.URL, DateTime := i.PubDate }])

def sky.Response.toFeed (r : sky.Response) (category : Category) : Feed :=
  { Title := r.Channel.Title, Description := r.Channel.Description, Link := r.Channel.Link,
    Language := r.Channel.Language, Copyright := r.Channel.Copyright,
    DateTime := r.Channel.LastBuildDate, TTL := r.Channel.TTL,
    Items := sky.toFeedLoop category r.Channel.Items [] }

structure bbc.Image where
  Text : String
  URL : String
  Title : String
  Link : String

structure bbc.Guid where
  Text : String
  IsPermaLink : String

structure bbc.Item where
  Text : String
  Title : String
  Description : String
  Link : String
  Guid : bbc.Guid
  PubDate : Int

structure bbc.Channel where
  Text : String
  Title : String
  Description : String
  Link : String
  Image : bbc.Image
  Generator : String
  LastBuildDate : Int
  Copyright : String
  Language : String
  TTL : Int
  Items : List bbc.Item

structure bbc.Response where
  Text : String
  Dc : String
  Content : String
  Atom : String
  Version : String
  Media : String
  Channel : bbc.Channel

/-- The loop of `toFeed`: one `append` per upstream item; the thumbnail is the
channel image. -/
def bbc.toFeedLoop (r : bbc.Response) (category : Category) :
    List bbc.Item → List News.Item → List News.Item
  | [], items => items
  | i :: rest, items =>
    bbc.toFeedLoop r category rest
      (items ++ [{ Category := category, Provider := ProviderBBC, Title := i.Title,
                   Link := i.Link, Description := i.Description,
                   Thumbnail := r.Channel.Image.URL, DateTime := i.PubDate }])

def bbc.Response.toFeed (r : bbc.Response) (category : Category) : Feed :=
  { Title := r.Channel.Title, Description := r.Channel.Description, Link := r.Channel.Link,
    Language := r.Channel.Language, Copyright := r.Channel.Copyright,
    DateTime := r.Channel.LastBuildDate, TTL := r.Channel.TTL,
    Items := bbc.toFeedLoop r category r.Channel.Items [] }

/-! ## internal/news/handler/http/handler.go -/

/-- The value of a run of decimal digits. -/
def digitsValue (ds : List Char) : Nat :=
  ds.foldl (fun n c => 10 * n + (c.toNat - 48)) 0

/-- Whether a run of characters is one or more ASCII digits. -/
def isDigits (ds : List Char) : Bool := !ds.isEmpty && ds.all Char.isDigit

/-- Whether the string is a decimal integer: an optional sign followed by one or
more ASCII digits. -/
def isDecimalInteger (s : String) : Bool :=
  match s.toList with
  | '+' :: ds => isDigits ds
  | '-' :: ds => isDigits ds
  | ds => isDigits ds

/-- The integer a decimal integer denotes. -/
def decimalValue (s : String) : Int :=
  match s.toList with
  | '+' :: ds => (digitsValue ds : Int)
  | '-' :: ds => -(digitsValue ds : Int)
  | ds => (digitsValue ds : Int)

/-- `strconv.Atoi`: the value of a decimal integer within the range of `int`, and
a `*strconv.NumError` for anything else. -/
def Atoi (s : String) : Except GoError Int :=
  if isDecimalInteger s then
    if MinInt ≤ decimalValue s ∧ decimalValue s ≤ MaxInt then .ok (decimalValue s)
    else .error (.upstream 0 ("strconv.Atoi: parsing " ++ s.quote ++ ": value out of range"))
  else .error (.upstream 0 ("strconv.Atoi: parsing " ++ s.quote ++ ": invalid syntax"))

/-- What the handlers read of a request: the `category` route variable
(`mux.Vars(r)["category"]`), if set, and the query parameters in order. -/
structure Request where
  category : Option String
  query : List (String × String)

/-- `r.URL.Query().Get(key)`: the first value of the key, or "". -/
def Request.queryGet (r : Request) (key : String) : String :=
  (r.query.lookup key).getD ""

/-- The `NewsService` interface: what each method returns for its arguments (a
nil response with a nil error is `ok none`), or that it panics. -/
structure NewsService where
  GetFeedByCategory : Provider → Category → Int → Int → Result (Option FeedResponse)
  GetFeed : Provider → Int → Int → Result (Option FeedResponse)

structure handler where
  newsService : NewsService

/-- A call of the handler on its service. -/
inductive ServiceCall where
  | GetFeed (provider : Provider) (offset limit : Int) : ServiceCall
  | GetFeedByCategory (provider : Provider) (category : Category) (offset limit : Int) :
      ServiceCall
  deriving DecidableEq, Repr

/-- What is written as the body: the encoded response, a `serverError` with
its message, or nothing. -/
inductive Body where
  | feed (res : Option FeedResponse) : Body
  | serverError (Message : String) : Body
  | nothing : Body
  deriving DecidableEq, Repr

structure HTTPResponse where
  status : Nat
  body : Body
  deriving DecidableEq, Repr

/-- A handled request: the answer, `none` when the service panicked, and the
calls made on the service. -/
structure Handled where
  response : Option HTTPResponse
  calls : List ServiceCall
  deriving DecidableEq, Repr

def handler.intParam (r : Request) (key : String) : Except GoError Int :=
  let param := r.queryGet key
  if param = "" then .ok 0
  else
    match Atoi param with
    | .error err => .error err
    | .ok n => .ok n

def handler.errorResponse (status : Nat) (message : String) : HTTPResponse :=
  { status := status, body := .serverError message }

/-- `sendResponse`.  `encodes res` tells whether `json.NewEncoder(w).Encode(res)`
succeeds; a response encoded without an explicit status has status 200. -/
def handler.sendResponse (encodes : Option FeedResponse → Bool) (res : Option FeedResponse)
    (err : Option GoError) : HTTPResponse :=
  match err with
  | none =>
    if encodes res then { status := 200, body := .feed res }
    else { status := 500, body := .nothing }
  | some err =>
    if errorsIs err .ErrCategoryNotFound || errorsIs err .ErrProviderNotFound then
      handler.errorResponse 404 err.Error
    else
      handler.errorResponse 500 "could not get news feed"

def handler.getFeed (h : handler) (encodes : Option FeedResponse → Bool) (r : Request) :
    Handled :=
  let provider := if r.queryGet "provider" = "" then ProviderAll else r.queryGet "provider"
  match handler.intParam r "limit" with
  | .error _ => ⟨some (handler.errorResponse 400 "limit is invalid"), []⟩
  | .ok limit =>
    match handler.intParam r "offset" with
    | .error _ => ⟨some (handler.errorResponse 400 "offset is invalid"), []⟩
    | .ok offset =>
      match h.newsService.GetFeed provider offset limit with
      | .panic => ⟨none, [.GetFeed provider offset limit]⟩
      | .ok res =>
        ⟨some (handler.sendResponse encodes res none), [.GetFeed provider offset limit]⟩
      | .error err =>
        ⟨some (handler.sendResponse encodes none (some err)),
          [.GetFeed provider offset limit]⟩

def handler.getFeedByCategory (h : handler) (encodes : Option FeedResponse → Bool)
    (r : Request) : Handled :=
  match r.category with
  | none => ⟨some (handler.errorResponse 400 "category not specified"), []⟩
  | some category =>
    match handler.intParam r "limit" with
    | .error _ => ⟨some (handler.errorResponse 400 "limit is invalid"), []⟩
    | .ok limit =>
      match handler.intParam r "offset" with
      | .error _ => ⟨some (handler.errorResponse 400 "offset is invalid"), []⟩
      | .ok offset =>
        let provider :=
          if r.queryGet "provider" = "" then ProviderAll else r.queryGet "provider"
        match h.newsService.GetFeedByCategory provider category offset limit with
        | .panic => ⟨none, [.GetFeedByCategory provider category offset limit]⟩
        | .ok res =>
          ⟨some (handler.sendResponse encodes res none),
            [.GetFeedByCategory provider category offset limit]⟩
        | .error err =>
          ⟨some (handler.sendResponse encodes none (some err)),
            [.GetFeedByCategory provider category offset limit]⟩

/-- What a method of the service returns to the handler. -/
def Result.toHandler : Result FeedResponse → Result (Option FeedResponse)
  | .ok res => .ok (some res)
  | .error err => .error err
  | .panic => .panic

/-- The service as the handler sees it, on a given cache and iteration order. -/
def service.asNewsService (S : SliceSorter) (s : service) (o : Ranges) (k : cache) :
    NewsService :=
  { GetFeedByCategory := fun provider category offset limit =>
      (service.GetFeedByCategory S s o k provider category offset limit).ret.toHandler
    GetFeed := fun provider offset limit =>
      (service.GetFeed S s o k provider offset limit).ret.toHandler }

/-- The handler of `demoService` on an empty cache. -/
def demoHandler : handler :=
  { newsService := service.asNewsService insertionSorter demoService demoRanges cache.empty }

/-- An item with a title, published at instant `t`. -/
def titledItem (title : String) (t : Int) : Item :=
  { Category := "uk", Provider := "", Title := title, Link := "link",
    Description := "description", Thumbnail := "thumbnail", DateTime := t }

/-- A registry whose two providers each answer with one item, both published at
the same instant. -/
def tieService : service :=
  { providers := [("bbc", fun _ => .ok (feedOf 15 [titledItem "from bbc" 7])),
                  ("sky", fun _ => .ok (feedOf 15 [titledItem "from sky" 7]))],
    categories := ["uk"] }

/-- A registry whose two providers answer with items published at distinct
instants. -/
def pairService : service :=
  { providers := [("bbc", fun _ => .ok (feedOf 15 [itemAt 1, itemAt 5])),
                  ("sky", fun _ => .ok (feedOf 15 [itemAt 3]))],
    categories := ["uk"] }

/-! ## Pagination -/

theorem wrapInt_of_isInt (x : Int) (h : isInt x) : wrapInt x = x := by
  unfold isInt MinInt MaxInt at h
  unfold wrapInt
  omega

/-- A slice expression within bounds is a `drop` followed by a `take`. -/
theorem sliceExpr_of_bounds {α : Type} (s : List α) (low high : Int)
    (h0 : 0 ≤ low) (h1 : low ≤ high) (h2 : high ≤ (s.length : Int)) :
    sliceExpr s low high = some ((s.drop low.toNat).take (high.toNat - low.toNat)) := by
  unfold sliceExpr
  rw [if_pos ⟨h0, h1, h2⟩]

/-- Without overflow of `offset + limit`, `paginate` is the slice
`items[o : min(o+limit, N)]` with `o = min(offset, N)`, for a non-negative
offset and a positive limit. -/
theorem paginate_eq_slice (items : List Item) (offset limit : Int)
    (h0 : 0 ≤ offset) (hl : 0 < limit)
    (hov : min offset (items.length : Int) + limit ≤ MaxInt) :
    service.paginate items offset limit =
      sliceExpr items (min offset (items.length : Int))
        (min (min offset (items.length : Int) + limit) (items.length : Int)) := by
  have hmin : (if offset > (items.length : Int) then (items.length : Int) else offset)
      = min offset (items.length : Int) := by
    split
    · omega
    · omega
  have hw : wrapInt (min offset (items.length : Int) + limit)
      = min offset (items.length : Int) + limit := by
    apply wrapInt_of_isInt
    unfold isInt MinInt
    unfold MaxInt at hov
    constructor
    · omega
    · exact hov
  unfold service.paginate
  simp only [hmin, hw, if_neg (ne_of_gt hl)]
  congr 1
  split
  · omega
  · omega

/-- With a limit of 0 and without overflow of `offset + math.MaxInt32`,
`paginate` is the slice `items[offset : min(offset + math.MaxInt32, N)]`. -/
theorem paginate_zero_eq_slice (items : List Item) (offset : Int)
    (h0 : 0 ≤ offset) (hN : offset ≤ (items.length : Int))
    (hov : offset + MaxInt32 ≤ MaxInt) :
    service.paginate items offset 0 =
      sliceExpr items offset (min (offset + MaxInt32) (items.length : Int)) := by
  have hmin : (if offset > (items.length : Int) then (items.length : Int) else offset)
      = offset := by
    rw [if_neg (by omega)]
  have hw : wrapInt (offset + MaxInt32) = offset + MaxInt32 := by
    apply wrapInt_of_isInt
    unfold isInt MinInt
    unfold MaxInt32 at *
    unfold MaxInt at *
    constructor
    · omega
    · exact hov
  unfold service.paginate
  simp only [hmin, hw, if_true]
  congr 1
  split
  · omega
  · omega

/-- Without overflow of `N + limit`, an offset at or beyond the end yields the
empty page. -/
theorem paginate_offset_beyond_end (items : List Item) (offset limit : Int)
    (hoff : (items.length : Int) ≤ offset) (hl : 0 ≤ limit)
    (hov : (items.length : Int) + (if limit = 0 then MaxInt32 else limit) ≤ MaxInt) :
    service.paginate items offset limit = some [] := by
  have hmin : (if offset > (items.length : Int) then (items.length : Int) else offset)
      = (items.length : Int) := by
    split
    · rfl
    · omega
  have hlim : 0 < (if limit = 0 then MaxInt32 else limit) := by
    split
    · decide
    · omega
  have hw : wrapInt ((items.length : Int) + (if limit = 0 then MaxInt32 else limit))
      = (items.length : Int) + (if limit = 0 then MaxInt32 else limit) := by
    apply wrapInt_of_isInt
    unfold isInt MinInt
    constructor
    · omega
    · exact hov
  unfold service.paginate
  simp only [hmin, hw]
  rw [if_pos (by omega), sliceExpr_of_bounds _ _ _ (by omega) (le_refl _) (le_refl _)]
  simp

/-- The page of a sequence of equal items, limit 0, offset 0: at most
`math.MaxInt32` items come back. -/
theorem paginate_replicate_zero (n : Nat) (x : Item) :
    service.paginate (List.replicate n x) 0 0 =
      some (List.replicate (min 2147483647 n) x) := by
  have h := paginate_zero_eq_slice (List.replicate n x) 0 (le_refl 0)
    (by simp) (by unfold MaxInt32 MaxInt; omega)
  rw [h, sliceExpr_of_bounds _ _ _ (le_refl 0) (by unfold MaxInt32; omega) (by omega)]
  simp only [List.length_replicate, Int.toNat_zero, List.drop_zero, Nat.sub_zero,
    List.take_replicate]
  have e : min (min (0 + MaxInt32) (n : Int)).toNat n = min 2147483647 n := by
    unfold MaxInt32
    omega
  rw [e]

/-- C1 (code defect): on the one-item sequence with offset 1 and limit
9223372036854775807 the sum `offset + limit` wraps to a negative `end`, which the
clamp `end > len(items)` lets through, and the slice expression panics; the
slice `items[o : min(o+limit, N)]` of the claim is the empty sequence there. -/
theorem paginate_limit_overflow_panics :
    service.paginate [itemAt 0] 1 9223372036854775807 = none ∧
      sliceExpr [itemAt 0] (min 1 1) (min (min 1 1 + 9223372036854775807) 1) = some [] := by
  decide

/-- C2 (code defect): with an offset beyond the end of a one-item sequence and
limit 9223372036854775807, the clamped offset 1 plus the limit wraps to a
negative `end` and the slice expression panics instead of yielding the empty
sequence. -/
theorem paginate_offset_beyond_end_panics :
    service.paginate [itemAt 0] 5 9223372036854775807 = none ∧
      wrapInt (1 + 9223372036854775807) = -9223372036854775808 := by
  decide

/-- C3 (as stated, refuted): for a sequence of 2147483648 items, offset 0 and
limit 0, `paginate` does not return the whole tail `items[0:N]`. -/
theorem paginate_zero_limit_truncates :
    service.paginate (List.replicate 2147483648 (itemAt 0)) 0 0 ≠
      sliceExpr (List.replicate 2147483648 (itemAt 0)) 0 2147483648 := by
  rw [paginate_replicate_zero 2147483648 (itemAt 0)]
  rw [sliceExpr_of_bounds _ _ _ (le_refl 0) (by omega)
    (by rw [List.length_replicate]; omega)]
  intro h
  have hlen := congrArg (fun o => (o.map List.length)) h
  simp only [Option.map_some', List.length_replicate, List.length_take, List.length_drop,
    Int.toNat_zero, Nat.sub_zero, Option.some.injEq] at hlen
  omega

/-- C3 (amended): for `0 <= offset <= N` with at most `math.MaxInt32` items
left after the offset, and `offset + math.MaxInt32` representable,
`paginate(items, offset, 0)` is the whole remaining tail `items[offset:N]`. -/
theorem paginate_zero_limit_tail (items : List Item) (offset : Int)
    (h0 : 0 ≤ offset) (hN : offset ≤ (items.length : Int))
    (hcap : (items.length : Int) - offset ≤ MaxInt32)
    (hov : offset + MaxInt32 ≤ MaxInt) :
    service.paginate items offset 0 = sliceExpr items offset (items.length : Int) ∧
      service.paginate items offset 0 = some (items.drop offset.toNat) := by
  have h := paginate_zero_eq_slice items offset h0 hN hov
  have hmin : min (offset + MaxInt32) (items.length : Int) = (items.length : Int) := by
    omega
  rw [hmin] at h
  refine ⟨h, ?_⟩
  rw [h, sliceExpr_of_bounds _ _ _ h0 hN (le_refl _)]
  congr 1
  apply List.take_of_length_le
  rw [List.length_drop]
  omega

theorem paginate_zero_limit_tail_witness :
    service.paginate [itemAt 3, itemAt 2, itemAt 1] 1 0 =
        sliceExpr [itemAt 3, itemAt 2, itemAt 1] 1 3 ∧
      service.paginate [itemAt 3, itemAt 2, itemAt 1] 1 0 = some [itemAt 2, itemAt 1] :=
  paginate_zero_limit_tail [itemAt 3, itemAt 2, itemAt 1] 1 (by decide) (by decide)
    (by decide) (by decide)

/-! ## Ordering of the returned items -/

/-- A slice is a sublist of the sliced sequence. -/
theorem sliceExpr_sublist {α : Type} (s page : List α) (low high : Int)
    (h : sliceExpr s low high = some page) : page.Sublist s := by
  unfold sliceExpr at h
  by_cases hc : 0 ≤ low ∧ low ≤ high ∧ high ≤ (s.length : Int)
  · rw [if_pos hc] at h
    cases h
    exact (List.take_sublist _ _).trans (List.drop_sublist _ _)
  · rw [if_neg hc] at h
    cases h

/-- A page is a sublist of the paginated sequence. -/
theorem paginate_sublist (items page : List Item) (offset limit : Int)
    (h : service.paginate items offset limit = some page) : page.Sublist items := by
  unfold service.paginate at h
  exact sliceExpr_sublist _ _ _ _ h

/-- What `sort.Slice` with `lessAfter` leaves: most recent first. -/
theorem sort_lessAfter_pairwise (S : SliceSorter) (l : List Item) :
    (S.sort lessAfter l).Pairwise (fun a b => b.DateTime ≤ a.DateTime) := by
  have h := S.sorted lessAfter
    (by intro a; simp [lessAfter])
    (by intro a b c; simp only [lessAfter, decide_eq_true_eq]; omega)
    (by intro a b c; simp only [lessAfter, decide_eq_false_iff_not]; omega) l
  refine h.imp ?_
  intro a b hab
  simp only [lessAfter, decide_eq_false_iff_not] at hab
  omega

theorem GetFeed_ok_items (S : SliceSorter) (s : service) (o : Ranges) (k : cache)
    (provider : Provider) (offset limit : Int) (resp : FeedResponse)
    (h : (service.GetFeed S s o k provider offset limit).ret = .ok resp) :
    ∃ items, service.paginate (S.sort lessAfter items) offset limit = some resp.Items := by
  unfold service.GetFeed at h
  simp only at h
  split at h
  · cases h
  · cases h
  · rename_i items _
    split at h
    · cases h
    · rename_i page hp
      simp only [Result.ok.injEq] at h
      subst h
      exact ⟨items, hp⟩

theorem GetFeedByCategory_ok_items (S : SliceSorter) (s : service) (o : Ranges) (k : cache)
    (provider : Provider) (category : Category) (offset limit : Int) (resp : FeedResponse)
    (h : (service.GetFeedByCategory S s o k provider category offset limit).ret = .ok resp) :
    ∃ items, service.paginate (S.sort lessAfter items) offset limit = some resp.Items := by
  unfold service.GetFeedByCategory at h
  split at h
  · cases h
  · simp only at h
    split at h
    · cases h
    · cases h
    · rename_i items _
      split at h
      · cases h
      · rename_i page hp
        simp only [Result.ok.injEq] at h
        subst h
        exact ⟨items, hp⟩

/-- C4: whenever `GetFeed` or `GetFeedByCategory` returns a response, its items
are non-increasing by publish instant: for all positions `i < j`,
`Items[i].DateTime` is not earlier than `Items[j].DateTime`. -/
theorem response_items_sorted (S : SliceSorter) (s : service) (o : Ranges) (k : cache)
    (provider : Provider) (category : Category) (offset limit : Int) (resp : FeedResponse)
    (h : (service.GetFeed S s o k provider offset limit).ret = .ok resp ∨
      (service.GetFeedByCategory S s o k provider category offset limit).ret = .ok resp) :
    ∀ (i j : Nat) (hi : i < resp.Items.length) (hj : j < resp.Items.length), i < j →
      ¬ (resp.Items[i].DateTime < resp.Items[j].DateTime) := by
  have hpage : ∃ items, service.paginate (S.sort lessAfter items) offset limit
      = some resp.Items := by
    rcases h with h | h
    · exact GetFeed_ok_items S s o k provider offset limit resp h
    · exact GetFeedByCategory_ok_items S s o k provider category offset limit resp h
  obtain ⟨items, hp⟩ := hpage
  have hsorted := (sort_lessAfter_pairwise S items).sublist (paginate_sublist _ _ _ _ hp)
  intro i j hi hj hij
  have := (List.pairwise_iff_getElem.mp hsorted) i j hi hj hij
  omega

theorem response_items_sorted_witness :
    (service.GetFeed insertionSorter demoService demoRanges cache.empty "bbc" 0 0).ret =
        .ok { Category := "", Provider := "bbc", Items := [itemAt 5, itemAt 1],
              Limit := 0, Offset := 0 } ∧
      ¬ ((itemAt 5).DateTime < (itemAt 1).DateTime) :=
  ⟨rfl, response_items_sorted insertionSorter demoService demoRanges cache.empty "bbc" "uk" 0 0
    { Category := "", Provider := "bbc", Items := [itemAt 5, itemAt 1], Limit := 0, Offset := 0 }
    (Or.inl rfl) 0 1 (by decide) (by decide) (by decide)⟩

/-! ## Lookup validation -/

theorem lookup_none_of_not_registered (s : service) (provider : Provider)
    (h : ¬ s.registered provider) : s.providers.lookup provider = none := by
  rw [List.lookup_eq_none_iff]
  intro q hq
  simp only [bne_iff_ne, ne_eq]
  intro he
  apply h
  unfold service.registered
  rw [he]
  exact List.mem_map_of_mem Prod.fst hq

theorem lookup_some_of_registered (s : service) (provider : Provider)
    (h : s.registered provider) : ∃ newsProvider, s.providers.lookup provider = some newsProvider := by
  cases hl : s.providers.lookup provider with
  | some np => exact ⟨np, rfl⟩
  | none =>
    exfalso
    rw [List.lookup_eq_none_iff] at hl
    unfold service.registered at h
    obtain ⟨q, hq, rfl⟩ := List.mem_map.mp h
    have := hl q hq
    simp at this

/-- An unregistered provider is rejected before the cache is consulted. -/
theorem getFeed_not_registered (s : service) (k : cache) (provider : Provider)
    (category : Category) (h : ¬ s.registered provider) :
    s.getFeed k provider category = ⟨.error .ErrProviderNotFound, k, []⟩ := by
  unfold service.getFeed
  rw [lookup_none_of_not_registered s provider h]

theorem getFeeds_not_registered (s : service) (o : Ranges) (k : cache) (provider : Provider)
    (category : Category) (hw : provider ≠ ProviderAll) (h : ¬ s.registered provider) :
    s.getFeeds o k provider category = ⟨.error .ErrProviderNotFound, k, []⟩ := by
  unfold service.getFeeds
  rw [if_neg hw, getFeed_not_registered s k provider category h]

/-- C5: for a category outside the registered set, `GetFeedByCategory` returns
`ErrCategoryNotFound` and no response, whatever the provider argument, makes no
call on the cache or on a provider and leaves the cache as it was. -/
theorem GetFeedByCategory_category_not_found (S : SliceSorter) (s : service) (o : Ranges)
    (k : cache) (provider : Provider) (category : Category) (offset limit : Int)
    (h : ¬ category ∈ s.categories) :
    (service.GetFeedByCategory S s o k provider category offset limit).ret
        = .error .ErrCategoryNotFound ∧
      (service.GetFeedByCategory S s o k provider category offset limit).events = [] ∧
      (service.GetFeedByCategory S s o k provider category offset limit).cache = k := by
  unfold service.GetFeedByCategory
  rw [if_pos h]
  exact ⟨rfl, rfl, rfl⟩

theorem GetFeedByCategory_category_not_found_witness :
    (service.GetFeedByCategory insertionSorter demoService demoRanges cache.empty "bbc"
        "technology" 0 0).ret = .error .ErrCategoryNotFound ∧
      (service.GetFeedByCategory insertionSorter demoService demoRanges cache.empty "bbc"
        "technology" 0 0).events = [] ∧
      (service.GetFeedByCategory insertionSorter demoService demoRanges cache.empty "bbc"
        "technology" 0 0).cache = cache.empty :=
  GetFeedByCategory_category_not_found insertionSorter demoService demoRanges cache.empty "bbc"
    "technology" 0 0 (by decide)

/-- C6: for a registered category and a provider that is neither the wildcard
nor registered, `GetFeedByCategory` returns `ErrProviderNotFound` and no
response, makes no cache lookup, no cache store and no provider fetch, and leaves
the cache as it was. -/
theorem GetFeedByCategory_provider_not_found (S : SliceSorter) (s : service) (o : Ranges)
    (k : cache) (provider : Provider) (category : Category) (offset limit : Int)
    (hc : category ∈ s.categories) (hw : provider ≠ ProviderAll)
    (hp : ¬ s.registered provider) :
    (service.GetFeedByCategory S s o k provider category offset limit).ret
        = .error .ErrProviderNotFound ∧
      (service.GetFeedByCategory S s o k provider category offset limit).events = [] ∧
      (service.GetFeedByCategory S s o k provider category offset limit).cache = k := by
  unfold service.GetFeedByCategory
  rw [if_neg (not_not.mpr hc), getFeeds_not_registered s o k provider category hw hp]
  exact ⟨rfl, rfl, rfl⟩

theorem GetFeedByCategory_provider_not_found_witness :
    (service.GetFeedByCategory insertionSorter demoService demoRanges cache.empty "itv"
        "uk" 0 0).ret = .error .ErrProviderNotFound ∧
      (service.GetFeedByCategory insertionSorter demoService demoRanges cache.empty "itv"
        "uk" 0 0).events = [] ∧
      (service.GetFeedByCategory insertionSorter demoService demoRanges cache.empty "itv"
        "uk" 0 0).cache = cache.empty :=
  GetFeedByCategory_provider_not_found insertionSorter demoService demoRanges cache.empty "itv"
    "uk" 0 0 (by decide) (by decide) (by decide)

/-- C7 (as stated, refuted): with no category registered, `GetFeed` with an
unregistered, non-wildcard provider returns a response with no items, not
`ErrProviderNotFound`. -/
theorem GetFeed_no_category_succeeds :
    (service.GetFeed insertionSorter emptyService emptyRanges cache.empty "itv" 0 0).ret
      = .ok { Category := "", Provider := "itv", Items := [], Limit := 0, Offset := 0 } ∧
    (service.GetFeed insertionSorter emptyService emptyRanges cache.empty "itv" 0 0).ret
      ≠ .error .ErrProviderNotFound := by
  constructor
  · rfl
  · intro h
    cases h

/-- C7 (amended): for a service with at least one registered category and a
provider that is neither the wildcard nor registered, `GetFeed` returns
`ErrProviderNotFound`, in every iteration order of the categories. -/
theorem GetFeed_provider_not_found (S : SliceSorter) (s : service) (o : Ranges) (k : cache)
    (provider : Provider) (offset limit : Int)
    (hv : o.valid s) (hne : s.categories ≠ [])
    (hw : provider ≠ ProviderAll) (hp : ¬ s.registered provider) :
    (service.GetFeed S s o k provider offset limit).ret = .error .ErrProviderNotFound := by
  have hcat : o.categories ≠ [] := by
    intro h0
    have hperm := hv.1
    rw [h0] at hperm
    exact hne (List.nil_perm.mp hperm)
  unfold service.GetFeed
  cases hcs : o.categories with
  | nil => exact absurd hcs hcat
  | cons c cs =>
    simp only [service.GetFeed.loop, getFeeds_not_registered s o k provider c hw hp]

theorem GetFeed_provider_not_found_witness :
    (service.GetFeed insertionSorter demoService demoRanges cache.empty "itv" 0 0).ret
      = .error .ErrProviderNotFound :=
  GetFeed_provider_not_found insertionSorter demoService demoRanges cache.empty "itv" 0 0
    ⟨List.Perm.refl _, fun _ => List.Perm.refl _⟩ (by decide) (by decide) (by decide)

/-! ## Cache hit and cache miss -/

theorem getFeed_hit (s : service) (k : cache) (provider : Provider) (category : Category)
    (feed : Feed) (hreg : s.registered provider) (hhit : k.Get provider category = some feed) :
    s.getFeed k provider category = ⟨.ok feed, k, [.cacheGet provider category]⟩ := by
  obtain ⟨np, hnp⟩ := lookup_some_of_registered s provider hreg
  unfold service.getFeed
  rw [hnp]
  simp only [hhit]

theorem getFeed_miss_ok (s : service) (k : cache) (provider : Provider) (category : Category)
    (newsProvider : ProviderFn) (feed : Feed)
    (hreg : s.providers.lookup provider = some newsProvider)
    (hmiss : k.Get provider category = none) (hok : newsProvider category = .ok feed) :
    s.getFeed k provider category =
      ⟨.ok feed, k.Store provider category feed,
        [.cacheGet provider category, .providerGetFeed provider category none,
          .cacheStore provider category feed]⟩ := by
  unfold service.getFeed
  rw [hreg]
  simp only [hmiss, hok]

theorem getFeed_miss_error (s : service) (k : cache) (provider : Provider) (category : Category)
    (newsProvider : ProviderFn) (err : GoError)
    (hreg : s.providers.lookup provider = some newsProvider)
    (hmiss : k.Get provider category = none) (herr : newsProvider category = .error err) :
    s.getFeed k provider category =
      ⟨.error (errorfGetFeed category provider err), k,
        [.cacheGet provider category, .providerGetFeed provider category (some err)]⟩ := by
  unfold service.getFeed
  rw [hreg]
  simp only [hmiss, herr]

/-- The provider loop over cached pairs: one cache lookup per provider, the
cached items appended, the cache untouched. -/
theorem getAllFeedsForCategory_loop_cached (s : service) (category : Category) :
    ∀ (ps : List Provider) (k : cache) (items : List Item),
      (∀ p ∈ ps, s.registered p ∧ (k.Get p category).isSome) →
      service.getAllFeedsForCategory.loop s category ps k items =
        ⟨.ok (items ++ k.itemsOf category ps), k, ps.map (fun p => .cacheGet p category)⟩ := by
  intro ps
  induction ps with
  | nil =>
    intro k items _
    simp [service.getAllFeedsForCategory.loop, cache.itemsOf]
  | cons p ps ih =>
    intro k items h
    obtain ⟨hreg, hsome⟩ := h p (List.mem_cons_self _ _)
    obtain ⟨feed, hfeed⟩ := Option.isSome_iff_exists.mp hsome
    have hrest : ∀ q ∈ ps, s.registered q ∧ (k.Get q category).isSome :=
      fun q hq => h q (List.mem_cons_of_mem _ hq)
    simp only [service.getAllFeedsForCategory.loop, getFeed_hit s k p category feed hreg hfeed,
      ih k (items ++ feed.Items) hrest]
    simp [cache.itemsOf, hfeed]

/-- The category loop of a wildcard query over cached pairs. -/
theorem GetFeed_loop_cached (s : service) (o : Ranges) :
    ∀ (cs : List Category) (k : cache) (items : List Item),
      (∀ c ∈ cs, ∀ p ∈ o.providers c, s.registered p ∧ (k.Get p c).isSome) →
      service.GetFeed.loop s o ProviderAll cs k items =
        ⟨.ok (items ++ cs.flatMap (fun c => k.itemsOf c (o.providers c))), k,
          cs.flatMap (fun c => (o.providers c).map (fun p => .cacheGet p c))⟩ := by
  intro cs
  induction cs with
  | nil =>
    intro k items _
    simp [service.GetFeed.loop]
  | cons c cs ih =>
    intro k items h
    have hc := h c (List.mem_cons_self _ _)
    have hrest : ∀ c2 ∈ cs, ∀ p ∈ o.providers c2, s.registered p ∧ (k.Get p c2).isSome :=
      fun c2 hc2 => h c2 (List.mem_cons_of_mem _ hc2)
    have hget : s.getFeeds o k ProviderAll c =
        ⟨.ok ([] ++ k.itemsOf c (o.providers c)), k,
          (o.providers c).map (fun p => .cacheGet p c)⟩ := by
      unfold service.getFeeds service.getAllFeedsForCategory
      rw [if_pos rfl]
      exact getAllFeedsForCategory_loop_cached s c (o.providers c) k [] hc
    simp only [service.GetFeed.loop, hget, ih k _ hrest]
    simp

/-- The events and the cache of `GetFeed` are those of its category loop. -/
theorem GetFeed_events_cache (S : SliceSorter) (s : service) (o : Ranges) (k : cache)
    (provider : Provider) (offset limit : Int) :
    (service.GetFeed S s o k provider offset limit).events =
        (service.GetFeed.loop s o provider o.categories k []).events ∧
      (service.GetFeed S s o k provider offset limit).cache =
        (service.GetFeed.loop s o provider o.categories k []).cache := by
  unfold service.GetFeed
  simp only
  split
  · exact ⟨rfl, rfl⟩
  · exact ⟨rfl, rfl⟩
  · split
    · exact ⟨rfl, rfl⟩
    · exact ⟨rfl, rfl⟩

/-- The events of `GetFeedByCategory` on a registered category are those of
`getFeeds`, and so is the cache when the provider is the wildcard. -/
theorem GetFeedByCategory_events_cache (S : SliceSorter) (s : service) (o : Ranges) (k : cache)
    (provider : Provider) (category : Category) (offset limit : Int)
    (hc : category ∈ s.categories) :
    (service.GetFeedByCategory S s o k provider category offset limit).events =
        (s.getFeeds o k provider category).events ∧
      (provider = ProviderAll →
        (service.GetFeedByCategory S s o k provider category offset limit).cache =
          (s.getFeeds o k provider category).cache) := by
  unfold service.GetFeedByCategory
  rw [if_neg (not_not.mpr hc)]
  simp only
  split
  · exact ⟨rfl, fun _ => rfl⟩
  · exact ⟨rfl, fun _ => rfl⟩
  · split
    · exact ⟨rfl, fun hp => by simp [hp]⟩
    · exact ⟨rfl, fun hp => by simp [hp]⟩

theorem registered_of_valid (s : service) (o : Ranges) (hv : o.valid s) (c : Category)
    (p : Provider) (hp : p ∈ o.providers c) : s.registered p :=
  (hv.2 c).subset hp

/-- C8: cache hit path.  For a registered provider `p` and a category `c` for
which the cache holds feed `f`, resolving `(p, c)` returns `f` (so `f`'s items),
does one cache lookup, no provider fetch and no store, and leaves the cache as
it was.  When every pair visited by a wildcard query is cached, `GetFeed` and
`GetFeedByCategory` only do cache lookups, one per pair: no provider is fetched. -/
theorem cache_hit_path (S : SliceSorter) (s : service) (o : Ranges) (k : cache) :
    (∀ p c f, s.registered p → k.Get p c = some f →
      s.getFeed k p c = ⟨.ok f, k, [.cacheGet p c]⟩ ∧
      (p ≠ ProviderAll → s.getFeeds o k p c = ⟨.ok f.Items, k, [.cacheGet p c]⟩)) ∧
    (o.valid s → (∀ c ∈ o.categories, ∀ p ∈ o.providers c, (k.Get p c).isSome) →
      ∀ offset limit,
        (service.GetFeed S s o k ProviderAll offset limit).events =
            o.categories.flatMap (fun c => (o.providers c).map (fun p => .cacheGet p c)) ∧
          (service.GetFeed S s o k ProviderAll offset limit).cache = k ∧
          ∀ e ∈ (service.GetFeed S s o k ProviderAll offset limit).events,
            e.isFetch = false) ∧
    (o.valid s → ∀ c ∈ s.categories, (∀ p ∈ o.providers c, (k.Get p c).isSome) →
      ∀ offset limit,
        (service.GetFeedByCategory S s o k ProviderAll c offset limit).events =
            (o.providers c).map (fun p => .cacheGet p c) ∧
          (service.GetFeedByCategory S s o k ProviderAll c offset limit).cache = k ∧
          ∀ e ∈ (service.GetFeedByCategory S s o k ProviderAll c offset limit).events,
            e.isFetch = false) := by
  refine ⟨?_, ?_, ?_⟩
  · intro p c f hreg hhit
    have h := getFeed_hit s k p c f hreg hhit
    refine ⟨h, fun hw => ?_⟩
    unfold service.getFeeds
    rw [if_neg hw, h]
  · intro hv hall offset limit
    have hloop := GetFeed_loop_cached s o o.categories k []
      (fun c hc p hp => ⟨registered_of_valid s o hv c p hp, hall c hc p hp⟩)
    obtain ⟨hev, hca⟩ := GetFeed_events_cache S s o k ProviderAll offset limit
    rw [hloop] at hev hca
    refine ⟨hev, hca, ?_⟩
    rw [hev]
    intro e he
    simp only [List.mem_flatMap, List.mem_map] at he
    obtain ⟨c, _, p, _, rfl⟩ := he
    rfl
  · intro hv c hc hall offset limit
    have hget : s.getFeeds o k ProviderAll c =
        ⟨.ok ([] ++ k.itemsOf c (o.providers c)), k,
          (o.providers c).map (fun p => .cacheGet p c)⟩ := by
      unfold service.getFeeds service.getAllFeedsForCategory
      rw [if_pos rfl]
      exact getAllFeedsForCategory_loop_cached s c (o.providers c) k []
        (fun p hp => ⟨registered_of_valid s o hv c p hp, hall p hp⟩)
    obtain ⟨hev, hca⟩ := GetFeedByCategory_events_cache S s o k ProviderAll c offset limit hc
    rw [hget] at hev hca
    refine ⟨hev, hca rfl, ?_⟩
    rw [hev]
    intro e he
    simp only [List.mem_map] at he
    obtain ⟨p, _, rfl⟩ := he
    rfl

theorem cache_hit_path_witness :
    demoService.getFeed demoCache "sky" "uk" =
        ⟨.ok (feedOf 15 [itemAt 3]), demoCache, [.cacheGet "sky" "uk"]⟩ ∧
      (service.GetFeed insertionSorter demoService demoRanges demoCache ProviderAll 0 0).events =
        [.cacheGet "bbc" "uk", .cacheGet "sky" "uk"] ∧
      (service.GetFeedByCategory insertionSorter demoService demoRanges demoCache ProviderAll
        "uk" 0 0).events = [.cacheGet "bbc" "uk", .cacheGet "sky" "uk"] :=
  ⟨((cache_hit_path insertionSorter demoService demoRanges demoCache).1 "sky" "uk"
      (feedOf 15 [itemAt 3]) (by decide) (by decide)).1,
    ((cache_hit_path insertionSorter demoService demoRanges demoCache).2.1
      ⟨List.Perm.refl _, fun _ => List.Perm.refl _⟩ (by decide) 0 0).1,
    ((cache_hit_path insertionSorter demoService demoRanges demoCache).2.2
      ⟨List.Perm.refl _, fun _ => List.Perm.refl _⟩ "uk" (by decide) (by decide) 0 0).1⟩

/-- C9: cache miss path.  For a registered provider `p` with fetch capability
`newsProvider` and a category `c` without cache entry, resolving `(p, c)` calls
the provider's `GetFeed` exactly once, with category `c`; when that call
succeeds with feed `f`, `f` is stored under `(p, c)` (after which the cache
holds `f` there) and `f`, so `f`'s items, is returned. -/
theorem cache_miss_path (s : service) (o : Ranges) (k : cache) (p : Provider) (c : Category)
    (newsProvider : ProviderFn)
    (hreg : s.providers.lookup p = some newsProvider) (hmiss : k.Get p c = none) :
    (s.getFeed k p c).events.filter Event.isFetch =
        [.providerGetFeed p c (fetchError (newsProvider c))] ∧
      ∀ f, newsProvider c = .ok f →
        s.getFeed k p c =
            ⟨.ok f, k.Store p c f,
              [.cacheGet p c, .providerGetFeed p c none, .cacheStore p c f]⟩ ∧
          (k.Store p c f).Get p c = some f ∧
          (p ≠ ProviderAll → (s.getFeeds o k p c).ret = .ok f.Items) := by
  constructor
  · cases hr : newsProvider c with
    | ok f =>
      rw [getFeed_miss_ok s k p c newsProvider f hreg hmiss hr]
      rfl
    | error err =>
      rw [getFeed_miss_error s k p c newsProvider err hreg hmiss hr]
      rfl
  · intro f hr
    have h := getFeed_miss_ok s k p c newsProvider f hreg hmiss hr
    refine ⟨h, ?_, fun hw => ?_⟩
    · simp [cache.Store, cache.Get, cache.put, cache.invalidateAfterTTL]
    · unfold service.getFeeds
      rw [if_neg hw, h]

theorem cache_miss_path_witness :
    (demoService.getFeed cache.empty "bbc" "uk").events.filter Event.isFetch =
        [.providerGetFeed "bbc" "uk" none] ∧
      demoService.getFeed cache.empty "bbc" "uk" =
        ⟨.ok (feedOf 15 [itemAt 1, itemAt 5]),
          cache.empty.Store "bbc" "uk" (feedOf 15 [itemAt 1, itemAt 5]),
          [.cacheGet "bbc" "uk", .providerGetFeed "bbc" "uk" none,
            .cacheStore "bbc" "uk" (feedOf 15 [itemAt 1, itemAt 5])]⟩ ∧
      (cache.empty.Store "bbc" "uk" (feedOf 15 [itemAt 1, itemAt 5])).Get "bbc" "uk" =
        some (feedOf 15 [itemAt 1, itemAt 5]) :=
  ⟨(cache_miss_path demoService demoRanges cache.empty "bbc" "uk"
      (fun _ => .ok (feedOf 15 [itemAt 1, itemAt 5])) rfl rfl).1,
    ((cache_miss_path demoService demoRanges cache.empty "bbc" "uk"
      (fun _ => .ok (feedOf 15 [itemAt 1, itemAt 5])) rfl rfl).2
        (feedOf 15 [itemAt 1, itemAt 5]) rfl).1,
    ((cache_miss_path demoService demoRanges cache.empty "bbc" "uk"
      (fun _ => .ok (feedOf 15 [itemAt 1, itemAt 5])) rfl rfl).2
        (feedOf 15 [itemAt 1, itemAt 5]) rfl).2.1⟩

/-! ## Failed fetches -/

/-- A failed fetch recorded by `getFeed` is the call it made, and its error is
returned wrapped. -/
theorem getFeed_failed_fetch (s : service) (k : cache) (q : Provider) (d : Category)
    (p : Provider) (c : Category) (e : GoError)
    (h : Event.providerGetFeed p c (some e) ∈ (s.getFeed k q d).events) :
    (s.getFeed k q d).ret = .error (errorfGetFeed c p e) := by
  unfold service.getFeed at h ⊢
  cases hl : s.providers.lookup q with
  | none => simp [hl] at h
  | some np =>
    cases hg : k.Get q d with
    | some feed => simp [hl, hg] at h
    | none =>
      cases hr : np d with
      | ok feed => simp [hl, hg, hr] at h
      | error err =>
        simp only [hl, hg, hr, List.mem_cons, Event.providerGetFeed.injEq,
          Option.some.injEq, List.mem_singleton, List.not_mem_nil, or_false, false_or,
          reduceCtorEq] at h
        obtain ⟨rfl, rfl, rfl⟩ := h
        simp only [hl, hg, hr]

theorem getAllFeedsForCategory_loop_failed_fetch (s : service) (category : Category)
    (p : Provider) (c : Category) (e : GoError) :
    ∀ (ps : List Provider) (k : cache) (items : List Item),
      Event.providerGetFeed p c (some e) ∈
          (service.getAllFeedsForCategory.loop s category ps k items).events →
        (service.getAllFeedsForCategory.loop s category ps k items).ret =
          .error (errorfGetFeed c p e) := by
  intro ps
  induction ps with
  | nil =>
    intro k items h
    simp [service.getAllFeedsForCategory.loop] at h
  | cons q ps ih =>
    intro k items h
    have hq := getFeed_failed_fetch s k q category p c e
    simp only [service.getAllFeedsForCategory.loop] at h ⊢
    cases hr : (s.getFeed k q category).ret with
    | ok feed =>
      rw [hr] at hq
      simp only [hr, List.mem_append] at h ⊢
      rcases h with h | h
      · exact absurd (hq h) (by simp)
      · exact ih _ _ h
    | error err =>
      rw [hr] at hq
      simp only [hr] at h ⊢
      have h2 := hq h
      simp only [Result.error.injEq] at h2
      rw [h2]
    | panic =>
      rw [hr] at hq
      simp only [hr] at h ⊢
      exact absurd (hq h) (by simp)

theorem getFeeds_failed_fetch (s : service) (o : Ranges) (k : cache) (provider : Provider)
    (category : Category) (p : Provider) (c : Category) (e : GoError)
    (h : Event.providerGetFeed p c (some e) ∈ (s.getFeeds o k provider category).events) :
    (s.getFeeds o k provider category).ret = .error (errorfGetFeed c p e) := by
  unfold service.getFeeds at h ⊢
  by_cases hw : provider = ProviderAll
  · rw [if_pos hw] at h ⊢
    exact getAllFeedsForCategory_loop_failed_fetch s category p c e _ _ _ h
  · rw [if_neg hw] at h ⊢
    have hq := getFeed_failed_fetch s k provider category p c e
    cases hr : (s.getFeed k provider category).ret with
    | ok feed =>
      rw [hr] at hq
      simp only [hr] at h ⊢
      exact absurd (hq h) (by simp)
    | error err =>
      rw [hr] at hq
      simp only [hr] at h ⊢
      have h2 := hq h
      simp only [Result.error.injEq] at h2
      rw [h2]
    | panic =>
      rw [hr] at hq
      simp only [hr] at h ⊢
      exact absurd (hq h) (by simp)

theorem GetFeed_loop_failed_fetch (s : service) (o : Ranges) (provider : Provider)
    (p : Provider) (c : Category) (e : GoError) :
    ∀ (cs : List Category) (k : cache) (items : List Item),
      Event.providerGetFeed p c (some e) ∈
          (service.GetFeed.loop s o provider cs k items).events →
        (service.GetFeed.loop s o provider cs k items).ret = .error (errorfGetFeed c p e) := by
  intro cs
  induction cs with
  | nil =>
    intro k items h
    simp [service.GetFeed.loop] at h
  | cons d cs ih =>
    intro k items h
    have hq := getFeeds_failed_fetch s o k provider d p c e
    simp only [service.GetFeed.loop] at h ⊢
    cases hr : (s.getFeeds o k provider d).ret with
    | ok feed =>
      rw [hr] at hq
      simp only [hr, List.mem_append] at h ⊢
      rcases h with h | h
      · exact absurd (hq h) (by simp)
      · exact ih _ _ h
    | error err =>
      rw [hr] at hq
      simp only [hr] at h ⊢
      exact hq h
    | panic =>
      rw [hr] at hq
      simp only [hr] at h ⊢
      exact absurd (hq h) (by simp)

theorem errorsIs_self (e : GoError) : errorsIs e e = true := by
  cases e <;> simp [errorsIs]

theorem errorsIs_errorfGetFeed (c : Category) (p : Provider) (e target : GoError)
    (h : target = .ErrProviderNotFound ∨ target = .ErrCategoryNotFound) :
    errorsIs (errorfGetFeed c p e) target = errorsIs e target := by
  rcases h with rfl | rfl <;> simp [errorfGetFeed, errorsIs]

theorem GetFeed_failed_fetch (S : SliceSorter) (s : service) (o : Ranges) (k : cache)
    (provider : Provider) (offset limit : Int) (p : Provider) (c : Category) (e : GoError)
    (h : Event.providerGetFeed p c (some e) ∈
      (service.GetFeed S s o k provider offset limit).events) :
    (service.GetFeed S s o k provider offset limit).ret = .error (errorfGetFeed c p e) := by
  rw [(GetFeed_events_cache S s o k provider offset limit).1] at h
  have hl := GetFeed_loop_failed_fetch s o provider p c e o.categories k [] h
  unfold service.GetFeed
  simp only [hl]

theorem GetFeedByCategory_failed_fetch (S : SliceSorter) (s : service) (o : Ranges) (k : cache)
    (provider : Provider) (category : Category) (offset limit : Int)
    (p : Provider) (c : Category) (e : GoError)
    (h : Event.providerGetFeed p c (some e) ∈
      (service.GetFeedByCategory S s o k provider category offset limit).events) :
    (service.GetFeedByCategory S s o k provider category offset limit).ret =
      .error (errorfGetFeed c p e) := by
  by_cases hc : category ∈ s.categories
  · rw [(GetFeedByCategory_events_cache S s o k provider category offset limit hc).1] at h
    have hl := getFeeds_failed_fetch s o k provider category p c e h
    unfold service.GetFeedByCategory
    rw [if_neg (not_not.mpr hc)]
    simp only [hl]
  · unfold service.GetFeedByCategory at h
    rw [if_pos hc] at h
    simp at h

/-- C10: when, in a call of `GetFeed` or `GetFeedByCategory`, the fetch of
provider `p` for category `c` fails with error `e`, the call returns no response
but the error built by `fmt.Errorf("failed to get %s feed from %s: %w", c, p, e)`.
That error wraps `e` (`errors.Is` holds, `Unwrap` gives `e`), its message names
`c` and `p`, it is neither lookup sentinel, and `errors.Is` matches a lookup
sentinel exactly when it matches it on `e`. -/
theorem failed_fetch_is_wrapped (S : SliceSorter) (s : service) (o : Ranges) (k : cache)
    (provider : Provider) (category : Category) (offset limit : Int)
    (p : Provider) (c : Category) (e : GoError) :
    (Event.providerGetFeed p c (some e) ∈
          (service.GetFeed S s o k provider offset limit).events →
        (service.GetFeed S s o k provider offset limit).ret
          = .error (errorfGetFeed c p e)) ∧
      (Event.providerGetFeed p c (some e) ∈
          (service.GetFeedByCategory S s o k provider category offset limit).events →
        (service.GetFeedByCategory S s o k provider category offset limit).ret
          = .error (errorfGetFeed c p e)) ∧
      errorsIs (errorfGetFeed c p e) e = true ∧
      (errorfGetFeed c p e).Unwrap = some e ∧
      (errorfGetFeed c p e).Error
        = "failed to get " ++ c ++ " feed from " ++ p ++ ": " ++ e.Error ∧
      errorfGetFeed c p e ≠ .ErrProviderNotFound ∧
      errorfGetFeed c p e ≠ .ErrCategoryNotFound ∧
      errorsIs (errorfGetFeed c p e) .ErrProviderNotFound = errorsIs e .ErrProviderNotFound ∧
      errorsIs (errorfGetFeed c p e) .ErrCategoryNotFound
        = errorsIs e .ErrCategoryNotFound := by
  refine ⟨?_, ?_, ?_, rfl, rfl, ?_, ?_, ?_, ?_⟩
  · exact GetFeed_failed_fetch S s o k provider offset limit p c e
  · exact GetFeedByCategory_failed_fetch S s o k provider category offset limit p c e
  · simp [errorfGetFeed, errorsIs, errorsIs_self]
  · simp [errorfGetFeed]
  · simp [errorfGetFeed]
  · exact errorsIs_errorfGetFeed c p e _ (Or.inl rfl)
  · exact errorsIs_errorfGetFeed c p e _ (Or.inr rfl)

theorem failed_fetch_is_wrapped_witness :
    (service.GetFeed insertionSorter demoService demoRanges cache.empty ProviderAll 0 0).ret
        = .error (.wrapError "failed to get uk feed from sky: sky is down"
            (.upstream 0 "sky is down")) ∧
      (service.GetFeedByCategory insertionSorter demoService demoRanges cache.empty "sky"
          "uk" 0 0).ret
        = .error (.wrapError "failed to get uk feed from sky: sky is down"
            (.upstream 0 "sky is down")) :=
  ⟨(failed_fetch_is_wrapped insertionSorter demoService demoRanges cache.empty ProviderAll
      "uk" 0 0 "sky" "uk" (.upstream 0 "sky is down")).1 (by decide),
    (failed_fetch_is_wrapped insertionSorter demoService demoRanges cache.empty "sky"
      "uk" 0 0 "sky" "uk" (.upstream 0 "sky is down")).2.1 (by decide)⟩

/-! ## The response -/

/-- A response of `GetFeed` is a page of the sorted items of the category loop,
with the request echoed. -/
theorem GetFeed_ok_inv (S : SliceSorter) (s : service) (o : Ranges) (k : cache)
    (provider : Provider) (offset limit : Int) (resp : FeedResponse)
    (h : (service.GetFeed S s o k provider offset limit).ret = .ok resp) :
    ∃ items page,
      (service.GetFeed.loop s o provider o.categories k []).ret = .ok items ∧
      service.paginate (S.sort lessAfter items) offset limit = some page ∧
      resp = { Category := "", Provider := provider, Items := page,
               Limit := limit, Offset := offset } := by
  unfold service.GetFeed at h
  simp only at h
  split at h
  · cases h
  · cases h
  · rename_i items hr
    split at h
    · cases h
    · rename_i page hp
      simp only [Result.ok.injEq] at h
      exact ⟨items, page, hr, hp, h.symm⟩

/-- A response of `GetFeedByCategory` is a page of the sorted items of
`getFeeds`, with the request echoed. -/
theorem GetFeedByCategory_ok_inv (S : SliceSorter) (s : service) (o : Ranges) (k : cache)
    (provider : Provider) (category : Category) (offset limit : Int) (resp : FeedResponse)
    (h : (service.GetFeedByCategory S s o k provider category offset limit).ret = .ok resp) :
    ∃ items page,
      category ∈ s.categories ∧
      (s.getFeeds o k provider category).ret = .ok items ∧
      service.paginate (S.sort lessAfter items) offset limit = some page ∧
      resp = { Category := category, Provider := provider, Items := page,
               Limit := limit, Offset := offset } := by
  unfold service.GetFeedByCategory at h
  split at h
  · cases h
  · rename_i hc
    simp only at h
    split at h
    · cases h
    · cases h
    · rename_i items hr
      split at h
      · cases h
      · rename_i page hp
        simp only [Result.ok.injEq] at h
        exact ⟨items, page, not_not.mp hc, hr, hp, h.symm⟩

/-- C14: a response echoes the request.  `Provider`, `Limit` and `Offset` are the
arguments as given; `GetFeedByCategory` sets `Category` to the requested
category and `GetFeed` leaves it empty. -/
theorem response_echoes_request (S : SliceSorter) (s : service) (o : Ranges) (k : cache)
    (provider : Provider) (category : Category) (offset limit : Int) :
    (∀ resp, (service.GetFeed S s o k provider offset limit).ret = .ok resp →
      resp.Provider = provider ∧ resp.Limit = limit ∧ resp.Offset = offset ∧
        resp.Category = "") ∧
    (∀ resp, (service.GetFeedByCategory S s o k provider category offset limit).ret
        = .ok resp →
      resp.Provider = provider ∧ resp.Limit = limit ∧ resp.Offset = offset ∧
        resp.Category = category) := by
  constructor
  · intro resp h
    obtain ⟨items, page, _, _, rfl⟩ := GetFeed_ok_inv S s o k provider offset limit resp h
    exact ⟨rfl, rfl, rfl, rfl⟩
  · intro resp h
    obtain ⟨items, page, _, _, _, rfl⟩ :=
      GetFeedByCategory_ok_inv S s o k provider category offset limit resp h
    exact ⟨rfl, rfl, rfl, rfl⟩

theorem response_echoes_request_witness :
    (service.GetFeedByCategory insertionSorter demoService demoRanges cache.empty "bbc" "uk"
        5 1).ret =
        .ok { Category := "uk", Provider := "bbc", Items := [], Limit := 1, Offset := 5 } ∧
      ("bbc" = "bbc" ∧ (1 : Int) = 1 ∧ (5 : Int) = 5 ∧ "uk" = "uk") :=
  ⟨rfl, (response_echoes_request insertionSorter demoService demoRanges cache.empty
    "bbc" "uk" 5 1).2
      { Category := "uk", Provider := "bbc", Items := [], Limit := 1, Offset := 5 } rfl⟩

/-! ## Empty registry -/

theorem sort_nil (S : SliceSorter) (less : Item → Item → Bool) : S.sort less [] = [] :=
  (S.perm less []).eq_nil

/-- The page of the empty sequence is empty, for a non-negative offset and a
non-negative limit. -/
theorem paginate_nil (offset limit : Int) (h0 : 0 ≤ offset) (hl : 0 ≤ limit)
    (hm : limit ≤ MaxInt) : service.paginate [] offset limit = some [] := by
  apply paginate_offset_beyond_end [] offset limit h0 hl
  split
  · decide
  · simpa using hm

/-- Without providers to visit, the category loop of a wildcard query makes no
call and collects nothing. -/
theorem GetFeed_loop_no_providers (s : service) (o : Ranges) (h : ∀ c, o.providers c = []) :
    ∀ (cs : List Category) (k : cache) (items : List Item),
      service.GetFeed.loop s o ProviderAll cs k items = ⟨.ok items, k, []⟩ := by
  intro cs
  induction cs with
  | nil =>
    intro k items
    rfl
  | cons c cs ih =>
    intro k items
    have hget : s.getFeeds o k ProviderAll c = ⟨.ok [], k, []⟩ := by
      unfold service.getFeeds service.getAllFeedsForCategory
      rw [if_pos rfl, h c]
      rfl
    simp only [service.GetFeed.loop, hget, ih, List.append_nil, List.nil_append]

/-- C15: an empty registry yields empty results, not errors.  With no provider
registered, the wildcard `GetFeedByCategory` on a registered category and the
wildcard `GetFeed` return a response without items, for every offset `>= 0` and
limit `>= 0`, make no call on the cache and leave it as it was; with no category
registered `GetFeed` returns a response without items for every provider. -/
theorem empty_registry_empty_response (S : SliceSorter) (s : service) (o : Ranges) (k : cache)
    (category : Category) (offset limit : Int)
    (hv : o.valid s) (h0 : 0 ≤ offset) (hl : 0 ≤ limit) (hm : limit ≤ MaxInt) :
    (s.providers = [] → category ∈ s.categories →
      service.GetFeedByCategory S s o k ProviderAll category offset limit =
        ⟨.ok { Category := category, Provider := ProviderAll, Items := [],
               Limit := limit, Offset := offset }, k, []⟩) ∧
    (s.providers = [] →
      service.GetFeed S s o k ProviderAll offset limit =
        ⟨.ok { Category := "", Provider := ProviderAll, Items := [],
               Limit := limit, Offset := offset }, k, []⟩) ∧
    (s.categories = [] → ∀ provider,
      service.GetFeed S s o k provider offset limit =
        ⟨.ok { Category := "", Provider := provider, Items := [],
               Limit := limit, Offset := offset }, k, []⟩) := by
  have hpage := paginate_nil offset limit h0 hl hm
  refine ⟨?_, ?_, ?_⟩
  · intro hp hc
    have hnil : o.providers category = [] := by
      have := hv.2 category
      rw [hp] at this
      exact this.eq_nil
    have hget : s.getFeeds o k ProviderAll category = ⟨.ok [], k, []⟩ := by
      unfold service.getFeeds service.getAllFeedsForCategory
      rw [if_pos rfl, hnil]
      rfl
    unfold service.GetFeedByCategory
    rw [if_neg (not_not.mpr hc)]
    simp only [hget, sort_nil, hpage, if_true]
  · intro hp
    have hnil : ∀ c, o.providers c = [] := by
      intro c
      have := hv.2 c
      rw [hp] at this
      exact this.eq_nil
    unfold service.GetFeed
    simp only [GetFeed_loop_no_providers s o hnil, sort_nil, hpage]
  · intro hc provider
    have hnil : o.categories = [] := by
      have := hv.1
      rw [hc] at this
      exact this.eq_nil
    unfold service.GetFeed
    simp only [hnil, service.GetFeed.loop, sort_nil, hpage]

theorem empty_registry_empty_response_witness :
    service.GetFeed insertionSorter emptyService emptyRanges cache.empty "itv" 3 2 =
      ⟨.ok { Category := "", Provider := "itv", Items := [], Limit := 2, Offset := 3 },
        cache.empty, []⟩ :=
  (empty_registry_empty_response insertionSorter emptyService emptyRanges cache.empty "uk" 3 2
    ⟨List.Perm.refl _, fun _ => List.Perm.refl _⟩ (by decide) (by decide) (by decide)).2.2
    rfl "itv"

/-! ## Construction -/

/-- C16: construction fails exactly when the mandatory dependency is absent.
`cache.New` returns `InvalidParameterError{Parameter: "clock"}` and no cache iff
the clock is nil; `service.New` returns
`InvalidParameterError{Parameter: "cache"}` and no service iff the cache is nil,
and otherwise a service holding that cache, for every list of options. -/
theorem construction_fails_iff_dependency_absent (clock : Option Int) (k : Option cache)
    (opts : List option) :
    (cache.New clock = .error (.InvalidParameterError "clock") ↔ clock = none) ∧
    ((∃ c, cache.New clock = .ok c) ↔ clock ≠ none) ∧
    (service.New k opts = .error (.InvalidParameterError "cache") ↔ k = none) ∧
    ((∃ s k2, service.New k opts = .ok (s, k2)) ↔ k ≠ none) ∧
    (∀ k2, k = some k2 → ∃ s, service.New k opts = .ok (s, k2)) ∧
    (∃ s, service.New (some cache.empty) [] = .ok (s, cache.empty)) := by
  refine ⟨?_, ?_, ?_, ?_, ?_, ?_⟩
  · cases clock <;> simp [cache.New]
  · cases clock <;> simp [cache.New]
  · cases k <;> simp [service.New]
  · cases k <;> simp [service.New]
  · rintro k2 rfl
    exact ⟨_, rfl⟩
  · exact ⟨_, rfl⟩

/-! ## Cache keys -/

/-- C17 (code defect): the pairs ("a-b", "c") and ("a", "b-c") differ but derive
the same key "a-b-c"; on the empty cache `Get("a", "b-c")` finds nothing, and
after `Store("a-b", "c", feed)` it returns that feed. -/
theorem hash_collision_breaks_isolation :
    (("a-b", "c") : Provider × Category) ≠ ("a", "b-c") ∧
      cache.hash "a-b" "c" = cache.hash "a" "b-c" ∧
      cache.empty.Get "a" "b-c" = none ∧
      (cache.empty.Store "a-b" "c" (feedOf 15 [itemAt 1])).Get "a" "b-c" =
        some (feedOf 15 [itemAt 1]) := by
  decide

/-! ## Expiry -/

theorem Store_feeds (k : cache) (p : Provider) (c : Category) (feed : Feed) (h : String) :
    (k.Store p c feed).feeds h = if h = cache.hash p c then some feed else k.feeds h := rfl

theorem Store_timers (k : cache) (p : Provider) (c : Category) (feed : Feed) :
    (k.Store p c feed).timers =
      k.timers ++ [(k.clock + wrapInt (Minute * feed.TTL), cache.hash p c)] := rfl

theorem Store_clock (k : cache) (p : Provider) (c : Category) (feed : Feed) :
    (k.Store p c feed).clock = k.clock := rfl

theorem elapse_clock (k : cache) (d : Int) : (k.elapse d).clock = k.clock + d := rfl

/-- After time has passed, a key is absent when a timer for it has fired, and
otherwise holds what it held. -/
theorem elapse_feeds (k : cache) (d : Int) (h : String) :
    (k.elapse d).feeds h =
      if ∃ t ∈ k.timers, t.1 ≤ k.clock + d ∧ t.2 = h then none else k.feeds h := by
  have hiff : h ∈ ((k.Advance d).timers.filter (k.Advance d).due).map Prod.snd ↔
      ∃ t ∈ k.timers, t.1 ≤ k.clock + d ∧ t.2 = h := by
    simp only [cache.Advance, cache.due, List.mem_map, List.mem_filter, decide_eq_true_eq]
    constructor
    · rintro ⟨t, ⟨ht, hdue⟩, rfl⟩
      exact ⟨t, ht, hdue, rfl⟩
    · rintro ⟨t, ht, hdue, rfl⟩
      exact ⟨t, ⟨ht, hdue⟩, rfl⟩
  show (if h ∈ ((k.Advance d).timers.filter (k.Advance d).due).map Prod.snd then none
    else k.feeds h) = _
  by_cases hc : ∃ t ∈ k.timers, t.1 ≤ k.clock + d ∧ t.2 = h
  · rw [if_pos hc, if_pos (hiff.mpr hc)]
  · rw [if_neg hc, if_neg (mt hiff.mp hc)]

/-- The timers still waiting after time has passed. -/
theorem mem_elapse_timers (k : cache) (d : Int) (t : Int × String) :
    t ∈ (k.elapse d).timers ↔ t ∈ k.timers ∧ k.clock + d < t.1 := by
  simp only [cache.elapse, cache.expire, cache.Advance, cache.due, List.mem_filter,
    Bool.not_eq_true', decide_eq_false_iff_not, not_le]

/-- The delay of an expiry action is the TTL in minutes when that is a value
of `time.Duration`. -/
theorem timer_delay (ttl : Int) (h0 : 0 ≤ ttl) (hmax : ttl ≤ 153722867) :
    wrapInt (Minute * ttl) = Minute * ttl := by
  apply wrapInt_of_isInt
  unfold isInt MinInt MaxInt Minute
  constructor <;> omega

theorem elapse_timers (k : cache) (d : Int) :
    (k.elapse d).timers = k.timers.filter (fun t => decide (k.clock + d < t.1)) := by
  simp only [cache.elapse, cache.expire, cache.Advance, cache.due]
  apply List.filter_congr
  intro t _
  by_cases h : t.1 ≤ k.clock + d
  · simp [h]
  · simp [h, not_le.mp h]

/-- Time passing in two steps is time passing in one. -/
theorem elapse_elapse (k : cache) (d1 d2 : Int) (h2 : 0 ≤ d2) :
    (k.elapse d1).elapse d2 = k.elapse (d1 + d2) := by
  have hclock : ((k.elapse d1).elapse d2).clock = (k.elapse (d1 + d2)).clock := by
    simp only [elapse_clock]
    omega
  have hfeeds : ((k.elapse d1).elapse d2).feeds = (k.elapse (d1 + d2)).feeds := by
    funext h
    rw [elapse_feeds, elapse_feeds, elapse_feeds, elapse_clock]
    by_cases hc : ∃ t ∈ k.timers, t.1 ≤ k.clock + (d1 + d2) ∧ t.2 = h
    · rw [if_pos hc]
      obtain ⟨t, ht, hdue, hh⟩ := hc
      by_cases hsecond : ∃ t ∈ (k.elapse d1).timers, t.1 ≤ k.clock + d1 + d2 ∧ t.2 = h
      · rw [if_pos hsecond]
      · rw [if_neg hsecond, if_pos]
        by_cases hfirst : t.1 ≤ k.clock + d1
        · exact ⟨t, ht, hfirst, hh⟩
        · exact absurd ⟨t, (mem_elapse_timers k d1 t).mpr ⟨ht, not_le.mp hfirst⟩,
            by omega, hh⟩ hsecond
    · rw [if_neg hc]
      have hno1 : ¬ ∃ t ∈ k.timers, t.1 ≤ k.clock + d1 ∧ t.2 = h := by
        rintro ⟨t, ht, hdue, hh⟩
        exact hc ⟨t, ht, by omega, hh⟩
      have hno2 : ¬ ∃ t ∈ (k.elapse d1).timers, t.1 ≤ k.clock + d1 + d2 ∧ t.2 = h := by
        rintro ⟨t, ht, hdue, hh⟩
        exact hc ⟨t, ((mem_elapse_timers k d1 t).mp ht).1, by omega, hh⟩
      rw [if_neg hno2, if_neg hno1]
  have htimers : ((k.elapse d1).elapse d2).timers = (k.elapse (d1 + d2)).timers := by
    rw [elapse_timers, elapse_timers, elapse_timers, elapse_clock, List.filter_filter]
    apply List.filter_congr
    intro t _
    by_cases ha : k.clock + (d1 + d2) < t.1
    · have hb : k.clock + d1 < t.1 := by omega
      have hc : k.clock + d1 + d2 < t.1 := by omega
      simp [ha, hb, hc]
    · have hc : ¬ k.clock + d1 + d2 < t.1 := by omega
      simp [ha, hc]
  cases hx : (k.elapse d1).elapse d2
  cases hy : k.elapse (d1 + d2)
  rw [hx] at hclock hfeeds htimers
  rw [hy] at hclock hfeeds htimers
  simp only at hclock hfeeds htimers
  rw [hclock, hfeeds, htimers]

/-- C18 (as stated, refuted): a feed with TTL 1 is stored, after 30 seconds a
feed with TTL 10 is stored under the same pair, and 30 seconds later the first
store's expiry has fired: `Get` finds nothing although only half a minute of the
ten has elapsed since the second feed was stored. -/
theorem ttl_round_trip_fails_after_overwrite :
    ((((cache.empty.Store "bbc" "uk" (feedOf 1 [])).elapse 30000000000).Store "bbc" "uk"
        (feedOf 10 [itemAt 1])).elapse 30000000000).Get "bbc" "uk" = none ∧
      (30000000000 : Int) < Minute * (feedOf 10 [itemAt 1]).TTL := by
  decide

/-- C18 (amended): a feed with TTL `t`, `0 < t <= 153722867` (so that `t`
minutes is a `time.Duration`), is stored under a pair for whose key no expiry
action is waiting.  While less than `t` minutes have elapsed `Get` returns the
feed unchanged; once `t` minutes have elapsed and the expiry action has run,
`Get` finds nothing. -/
theorem ttl_round_trip (k : cache) (p : Provider) (c : Category) (feed : Feed) (d : Int)
    (ht : 0 < feed.TTL) (hmax : feed.TTL ≤ 153722867)
    (hfree : ∀ t ∈ k.timers, t.2 ≠ cache.hash p c) :
    (d < Minute * feed.TTL → ((k.Store p c feed).elapse d).Get p c = some feed) ∧
      (Minute * feed.TTL ≤ d → ((k.Store p c feed).elapse d).Get p c = none) := by
  have hdelay := timer_delay feed.TTL (le_of_lt ht) hmax
  constructor
  · intro hd
    unfold cache.Get
    rw [elapse_feeds, Store_clock, Store_timers, Store_feeds, if_pos rfl, hdelay]
    rw [if_neg]
    rintro ⟨t, ht, hdue, hh⟩
    rcases List.mem_append.mp ht with ht | ht
    · exact hfree t ht hh
    · rw [List.mem_singleton] at ht
      subst ht
      simp only at hdue
      omega
  · intro hd
    unfold cache.Get
    rw [elapse_feeds, Store_clock, Store_timers, hdelay]
    rw [if_pos]
    refine ⟨(k.clock + Minute * feed.TTL, cache.hash p c), ?_, ?_, rfl⟩
    · exact List.mem_append.mpr (Or.inr (List.mem_singleton.mpr rfl))
    · simp only
      omega

theorem ttl_round_trip_witness :
    ((cache.empty.Store "bbc" "uk" (feedOf 1 [itemAt 1])).elapse 59999999999).Get "bbc" "uk"
        = some (feedOf 1 [itemAt 1]) ∧
      ((cache.empty.Store "bbc" "uk" (feedOf 1 [itemAt 1])).elapse 60000000000).Get "bbc" "uk"
        = none :=
  ⟨(ttl_round_trip cache.empty "bbc" "uk" (feedOf 1 [itemAt 1]) 59999999999 (by decide)
      (by decide) (by decide)).1 (by decide),
    (ttl_round_trip cache.empty "bbc" "uk" (feedOf 1 [itemAt 1]) 60000000000 (by decide)
      (by decide) (by decide)).2 (by decide)⟩

/-- C19: expiry ignores overwrites.  A pair is stored with feed `f1` and stored
again with `f2` while the first store's expiry action is still waiting (before
`f1.TTL` minutes have elapsed); once that action has fired the entry is gone and
`Get` finds nothing, however little time has passed since the second store and
whatever `f2.TTL` is. -/
theorem expiry_ignores_overwrite (k : cache) (p : Provider) (c : Category) (f1 f2 : Feed)
    (d e : Int) (hd : d < wrapInt (Minute * f1.TTL))
    (he : wrapInt (Minute * f1.TTL) ≤ d + e) :
    (((k.Store p c f1).elapse d).Store p c f2).Get p c = some f2 ∧
      ((((k.Store p c f1).elapse d).Store p c f2).elapse e).Get p c = none := by
  constructor
  · unfold cache.Get
    rw [Store_feeds, if_pos rfl]
  · unfold cache.Get
    rw [elapse_feeds, if_pos]
    refine ⟨(k.clock + wrapInt (Minute * f1.TTL), cache.hash p c), ?_, ?_, rfl⟩
    · rw [Store_timers]
      apply List.mem_append.mpr
      left
      rw [mem_elapse_timers, Store_timers, Store_clock]
      refine ⟨List.mem_append.mpr (Or.inr (List.mem_singleton.mpr rfl)), ?_⟩
      simp only
      omega
    · rw [Store_clock, elapse_clock, Store_clock]
      simp only
      omega

theorem expiry_ignores_overwrite_witness :
    ((((cache.empty.Store "bbc" "uk" (feedOf 1 [])).elapse 30000000000).Store "bbc" "uk"
          (feedOf 10 [itemAt 1])).Get "bbc" "uk" = some (feedOf 10 [itemAt 1]) ∧
        ((((cache.empty.Store "bbc" "uk" (feedOf 1 [])).elapse 30000000000).Store "bbc" "uk"
          (feedOf 10 [itemAt 1])).elapse 40000000000).Get "bbc" "uk" = none) ∧
      (40000000000 : Int) < Minute * (feedOf 10 [itemAt 1]).TTL :=
  ⟨expiry_ignores_overwrite cache.empty "bbc" "uk" (feedOf 1 []) (feedOf 10 [itemAt 1])
    30000000000 40000000000 (by decide) (by decide), by decide⟩

/-! ## Store and Get -/

/-- A key that no operation writes stays absent. -/
theorem run_absent (h : String) :
    ∀ (ops : List cacheOp) (k : cache), k.feeds h = none →
      (∀ op ∈ ops, op.key ≠ some h) → (k.run ops).feeds h = none := by
  intro ops
  induction ops with
  | nil =>
    intro k hk _
    exact hk
  | cons op ops ih =>
    intro k hk hops
    have hop := hops op (List.mem_cons_self _ _)
    have hrest : ∀ op2 ∈ ops, op2.key ≠ some h :=
      fun op2 h2 => hops op2 (List.mem_cons_of_mem _ h2)
    show ((cacheOp.apply k op).run ops).feeds h = none
    apply ih _ _ hrest
    cases op with
    | store p c feed =>
      show (k.Store p c feed).feeds h = none
      rw [Store_feeds, if_neg]
      · exact hk
      · intro he
        apply hop
        simp [cacheOp.key, he]
    | get p c => exact hk
    | elapse d =>
      show (k.elapse d).feeds h = none
      rw [elapse_feeds]
      split
      · rfl
      · exact hk

/-- C20: Store/Get round trip.  Whatever the cache held, right after
`Store(p, c, feed)` `Get(p, c)` returns `feed`; on a cache built by `New` and
then used by any sequence of stores, lookups and expiries, `Get(p, c)` finds
nothing when no store wrote the key of `(p, c)`; and `Get` leaves the cache as
it was. -/
theorem store_get_round_trip (k : cache) (p : Provider) (c : Category) (feed : Feed) :
    (k.Store p c feed).Get p c = some feed ∧
      (∀ (clock : Int) (k0 : cache) (ops : List cacheOp),
        cache.New (some clock) = .ok k0 →
        (∀ op ∈ ops, op.key ≠ some (cache.hash p c)) →
        (k0.run ops).Get p c = none) ∧
      cacheOp.apply k (.get p c) = k := by
  refine ⟨?_, ?_, rfl⟩
  · unfold cache.Get
    rw [Store_feeds, if_pos rfl]
  · intro clock k0 ops hnew hops
    simp only [cache.New, Except.ok.injEq] at hnew
    subst hnew
    exact run_absent (cache.hash p c) ops _ rfl hops

theorem store_get_round_trip_witness :
    (demoCache.Store "bbc" "uk" (feedOf 5 [itemAt 9])).Get "bbc" "uk"
        = some (feedOf 5 [itemAt 9]) ∧
      (cache.empty.run [.store "provider" "category" (feedOf 0 []), .elapse 5,
        .get "fake provider" "fake category"]).Get "fake provider" "fake category" = none :=
  ⟨(store_get_round_trip demoCache "bbc" "uk" (feedOf 5 [itemAt 9])).1,
    (store_get_round_trip cache.empty "fake provider" "fake category" (feedOf 0 [])).2.1 0
      cache.empty [.store "provider" "category" (feedOf 0 []), .elapse 5,
        .get "fake provider" "fake category"] rfl (by decide)⟩

/-! ## The calls made by a query -/

/-- The four ways `getFeed` can go. -/
theorem getFeed_cases (s : service) (k : cache) (q : Provider) (d : Category) :
    (s.providers.lookup q = none ∧
        s.getFeed k q d = ⟨.error .ErrProviderNotFound, k, []⟩) ∨
      (∃ np feed, s.providers.lookup q = some np ∧ k.Get q d = some feed ∧
        s.getFeed k q d = ⟨.ok feed, k, [.cacheGet q d]⟩) ∨
      (∃ np feed, s.providers.lookup q = some np ∧ k.Get q d = none ∧ np d = .ok feed ∧
        s.getFeed k q d = ⟨.ok feed, k.Store q d feed,
          [.cacheGet q d, .providerGetFeed q d none, .cacheStore q d feed]⟩) ∨
      (∃ np err, s.providers.lookup q = some np ∧ k.Get q d = none ∧ np d = .error err ∧
        s.getFeed k q d = ⟨.error (errorfGetFeed d q err), k,
          [.cacheGet q d, .providerGetFeed q d (some err)]⟩) := by
  cases hl : s.providers.lookup q with
  | none =>
    left
    refine ⟨rfl, ?_⟩
    unfold service.getFeed
    rw [hl]
  | some np =>
    right
    cases hg : k.Get q d with
    | some feed =>
      left
      refine ⟨np, feed, rfl, rfl, ?_⟩
      unfold service.getFeed
      rw [hl]
      simp only [hg]
    | none =>
      right
      cases hr : np d with
      | ok feed =>
        left
        exact ⟨np, feed, rfl, rfl, hr, getFeed_miss_ok s k q d np feed hl hg hr⟩
      | error err =>
        right
        exact ⟨np, err, rfl, rfl, hr, getFeed_miss_error s k q d np err hl hg hr⟩

theorem getFeed_traced (s : service) (k : cache) (q : Provider) (d : Category) :
    Traced s k (s.getFeed k q d) := by
  rcases getFeed_cases s k q d with ⟨_, h⟩ | ⟨np, feed, hl, _, h⟩ | ⟨np, feed, hl, _, hr, h⟩ |
    ⟨np, err, hl, _, hr, h⟩
  · rw [h]
    exact ⟨rfl, by simp, by simp, by simp, by simp, by simp⟩
  · rw [h]
    exact ⟨rfl, by simp, by simp, by simp, by simp, by simp⟩
  · rw [h]
    refine ⟨rfl, ?_, ?_, ?_, by simp, by simp⟩
    · intro q2 d2 err2 hmem
      simp only [List.mem_cons, Event.providerGetFeed.injEq, List.mem_singleton,
        List.not_mem_nil, or_false, false_or, reduceCtorEq] at hmem
      obtain ⟨rfl, rfl, rfl⟩ := hmem
      exact ⟨np, hl, by rw [hr]; rfl⟩
    · intro q2 d2 f2 hmem
      simp only [List.mem_cons, Event.cacheStore.injEq, List.mem_singleton,
        List.not_mem_nil, or_false, false_or, reduceCtorEq] at hmem
      obtain ⟨rfl, rfl, rfl⟩ := hmem
      exact ⟨np, hl, hr, by simp⟩
    · intro q2 d2 hmem
      simp only [List.mem_cons, Event.providerGetFeed.injEq, List.mem_singleton,
        List.not_mem_nil, or_false, false_or, reduceCtorEq, and_true] at hmem
      obtain ⟨rfl, rfl⟩ := hmem
      exact ⟨feed, by simp⟩
  · rw [h]
    refine ⟨rfl, ?_, by simp, by simp, ?_, by simp⟩
    · intro q2 d2 err2 hmem
      simp only [List.mem_cons, Event.providerGetFeed.injEq, List.mem_singleton,
        List.not_mem_nil, or_false, false_or, reduceCtorEq] at hmem
      obtain ⟨rfl, rfl, rfl⟩ := hmem
      exact ⟨np, hl, by rw [hr]; rfl⟩
    · intro q2 d2 e2 hmem
      simp only [List.mem_cons, Event.providerGetFeed.injEq, Option.some.injEq,
        List.mem_singleton, List.not_mem_nil, or_false, false_or, reduceCtorEq] at hmem
      obtain ⟨rfl, rfl, rfl⟩ := hmem
      exact ⟨[.cacheGet q2 d2], rfl, by simp⟩

theorem replay_append (k : cache) (e1 e2 : List Event) :
    k.replay (e1 ++ e2) = (k.replay e1).replay e2 := by
  unfold cache.replay
  rw [List.foldl_append]

/-- The calls of a part that returned a value, followed by the calls of the
next part. -/
theorem Traced.seq {α β : Type} {s : service} {k : cache} {r1 : Ran α} {r2 : Ran β} (a : α)
    (h1 : Traced s k r1) (hok : r1.ret = .ok a) (h2 : Traced s r1.cache r2) :
    Traced s k (⟨r2.ret, r2.cache, r1.events ++ r2.events⟩ : Ran β) where
  cache_eq := by
    show r2.cache = k.replay (r1.events ++ r2.events)
    rw [replay_append, ← h1.cache_eq, h2.cache_eq]
  fetch_outcome := by
    intro q d err hmem
    rcases List.mem_append.mp hmem with hmem | hmem
    · exact h1.fetch_outcome q d err hmem
    · exact h2.fetch_outcome q d err hmem
  store_fetched := by
    intro q d f hmem
    rcases List.mem_append.mp hmem with hmem | hmem
    · obtain ⟨np, hl, hr, hf⟩ := h1.store_fetched q d f hmem
      exact ⟨np, hl, hr, List.mem_append.mpr (Or.inl hf)⟩
    · obtain ⟨np, hl, hr, hf⟩ := h2.store_fetched q d f hmem
      exact ⟨np, hl, hr, List.mem_append.mpr (Or.inr hf)⟩
  fetched_stored := by
    intro q d hmem
    rcases List.mem_append.mp hmem with hmem | hmem
    · obtain ⟨f, hf⟩ := h1.fetched_stored q d hmem
      exact ⟨f, List.mem_append.mpr (Or.inl hf)⟩
    · obtain ⟨f, hf⟩ := h2.fetched_stored q d hmem
      exact ⟨f, List.mem_append.mpr (Or.inr hf)⟩
  failed_last := by
    intro q d e hmem
    rcases List.mem_append.mp hmem with hmem | hmem
    · exact absurd hmem (h1.ok_no_failed a hok q d e)
    · obtain ⟨pre, hpre, hnone⟩ := h2.failed_last q d e hmem
      refine ⟨r1.events ++ pre, ?_, ?_⟩
      · show r1.events ++ r2.events = _
        rw [hpre, List.append_assoc]
      · intro x hx q2 d2 e2 hxe
        rcases List.mem_append.mp hx with hx | hx
        · rw [hxe] at hx
          exact h1.ok_no_failed a hok q2 d2 e2 hx
        · exact hnone x hx q2 d2 e2 hxe
  ok_no_failed := by
    intro b hb q d e hmem
    rcases List.mem_append.mp hmem with hmem | hmem
    · exact h1.ok_no_failed a hok q d e hmem
    · exact h2.ok_no_failed b hb q d e hmem

/-- The same calls, returned with an error or a panic. -/
theorem Traced.fail {α β : Type} {s : service} {k : cache} {r : Ran α}
    (h : Traced s k r) (ret : Result β) (hret : ∀ b, ret ≠ .ok b) :
    Traced s k (⟨ret, r.cache, r.events⟩ : Ran β) where
  cache_eq := h.cache_eq
  fetch_outcome := h.fetch_outcome
  store_fetched := h.store_fetched
  fetched_stored := h.fetched_stored
  failed_last := h.failed_last
  ok_no_failed := fun b hb => absurd hb (hret b)

/-- The same calls, returned with another value. -/
theorem Traced.value {α β : Type} {s : service} {k : cache} {r : Ran α} (a : α)
    (h : Traced s k r) (hok : r.ret = .ok a) (b : β) :
    Traced s k (⟨.ok b, r.cache, r.events⟩ : Ran β) where
  cache_eq := h.cache_eq
  fetch_outcome := h.fetch_outcome
  store_fetched := h.store_fetched
  fetched_stored := h.fetched_stored
  failed_last := h.failed_last
  ok_no_failed := fun _ _ => h.ok_no_failed a hok

theorem Traced.pure_ok {α : Type} (s : service) (k : cache) (a : α) :
    Traced s k (⟨.ok a, k, []⟩ : Ran α) :=
  ⟨rfl, by simp, by simp, by simp, by simp, by simp⟩

theorem getAllFeedsForCategory_loop_traced (s : service) (category : Category) :
    ∀ (ps : List Provider) (k : cache) (items : List Item),
      Traced s k (service.getAllFeedsForCategory.loop s category ps k items) := by
  intro ps
  induction ps with
  | nil =>
    intro k items
    exact Traced.pure_ok s k items
  | cons q ps ih =>
    intro k items
    have hq := getFeed_traced s k q category
    simp only [service.getAllFeedsForCategory.loop]
    cases hr : (s.getFeed k q category).ret with
    | ok feed =>
      simp only [hr]
      exact Traced.seq feed hq hr (ih _ _)
    | error err =>
      simp only [hr]
      exact hq.fail _ (by simp)
    | panic =>
      simp only [hr]
      exact hq.fail _ (by simp)

theorem getFeeds_traced (s : service) (o : Ranges) (k : cache) (provider : Provider)
    (category : Category) : Traced s k (s.getFeeds o k provider category) := by
  unfold service.getFeeds
  by_cases hw : provider = ProviderAll
  · rw [if_pos hw]
    exact getAllFeedsForCategory_loop_traced s category _ k []
  · rw [if_neg hw]
    have hq := getFeed_traced s k provider category
    cases hr : (s.getFeed k provider category).ret with
    | ok feed =>
      simp only [hr]
      exact hq.value feed hr _
    | error err =>
      simp only [hr]
      exact hq.fail _ (by simp)
    | panic =>
      simp only [hr]
      exact hq.fail _ (by simp)

theorem GetFeed_loop_traced (s : service) (o : Ranges) (provider : Provider) :
    ∀ (cs : List Category) (k : cache) (items : List Item),
      Traced s k (service.GetFeed.loop s o provider cs k items) := by
  intro cs
  induction cs with
  | nil =>
    intro k items
    exact Traced.pure_ok s k items
  | cons d cs ih =>
    intro k items
    have hq := getFeeds_traced s o k provider d
    simp only [service.GetFeed.loop]
    cases hr : (s.getFeeds o k provider d).ret with
    | ok feed =>
      simp only [hr]
      exact Traced.seq feed hq hr (ih _ _)
    | error err =>
      simp only [hr]
      exact hq.fail _ (by simp)
    | panic =>
      simp only [hr]
      exact hq.fail _ (by simp)

theorem GetFeed_traced (S : SliceSorter) (s : service) (o : Ranges) (k : cache)
    (provider : Provider) (offset limit : Int) :
    Traced s k (service.GetFeed S s o k provider offset limit) := by
  have hq := GetFeed_loop_traced s o provider o.categories k []
  unfold service.GetFeed
  simp only
  cases hr : (service.GetFeed.loop s o provider o.categories k []).ret with
  | ok items =>
    simp only [hr]
    cases hp : service.paginate (S.sort lessAfter items) offset limit with
    | none =>
      simp only [hp]
      exact hq.fail _ (by simp)
    | some page =>
      simp only [hp]
      exact hq.value items hr _
  | error err =>
    simp only [hr]
    exact hq.fail _ (by simp)
  | panic =>
    simp only [hr]
    exact hq.fail _ (by simp)

/-- When `getFeeds` fails, `GetFeedByCategory` passes its error, cache and
calls on. -/
theorem GetFeedByCategory_of_error (S : SliceSorter) (s : service) (o : Ranges) (k : cache)
    (provider : Provider) (category : Category) (offset limit : Int) (err : GoError)
    (hc : category ∈ s.categories)
    (h : (s.getFeeds o k provider category).ret = .error err) :
    service.GetFeedByCategory S s o k provider category offset limit =
      ⟨.error err, (s.getFeeds o k provider category).cache,
        (s.getFeeds o k provider category).events⟩ := by
  unfold service.GetFeedByCategory
  rw [if_neg (not_not.mpr hc)]
  simp only [h]

theorem GetFeedByCategory_traced_of_failed (S : SliceSorter) (s : service) (o : Ranges)
    (k : cache) (provider : Provider) (category : Category) (offset limit : Int)
    (p : Provider) (c : Category) (e : GoError)
    (h : Event.providerGetFeed p c (some e) ∈
      (service.GetFeedByCategory S s o k provider category offset limit).events) :
    category ∈ s.categories ∧
      Traced s k (service.GetFeedByCategory S s o k provider category offset limit) := by
  by_cases hc : category ∈ s.categories
  · refine ⟨hc, ?_⟩
    rw [(GetFeedByCategory_events_cache S s o k provider category offset limit hc).1] at h
    have hl := getFeeds_failed_fetch s o k provider category p c e h
    rw [GetFeedByCategory_of_error S s o k provider category offset limit _ hc hl]
    exact (getFeeds_traced s o k provider category).fail _ (by simp)
  · unfold service.GetFeedByCategory at h
    rw [if_pos hc] at h
    simp at h

/-- In traced calls, a failed fetch of `(p, c)` is the only fetch of `(p, c)`,
and nothing is stored for `(p, c)`. -/
theorem Traced.failed_once {α : Type} {s : service} {k : cache} {r : Ran α}
    (h : Traced s k r) (p : Provider) (c : Category) (e : GoError)
    (hmem : Event.providerGetFeed p c (some e) ∈ r.events) :
    r.events.filter (Event.isFetchOf p c) = [Event.providerGetFeed p c (some e)] ∧
      ∀ f, Event.cacheStore p c f ∉ r.events := by
  obtain ⟨np, hl, he⟩ := h.fetch_outcome p c (some e) hmem
  obtain ⟨pre, hpre, hnone⟩ := h.failed_last p c e hmem
  constructor
  · rw [hpre, List.filter_append]
    have hpre_nil : pre.filter (Event.isFetchOf p c) = [] := by
      rw [List.filter_eq_nil_iff]
      intro x hx hfx
      have hxmem : x ∈ r.events := by
        rw [hpre]
        exact List.mem_append.mpr (Or.inl hx)
      cases x with
      | cacheGet q d => simp [Event.isFetchOf] at hfx
      | cacheStore q d f => simp [Event.isFetchOf] at hfx
      | providerGetFeed q d err =>
        simp only [Event.isFetchOf, decide_eq_true_eq] at hfx
        obtain ⟨rfl, rfl⟩ := hfx
        obtain ⟨np2, hl2, he2⟩ := h.fetch_outcome q d err hxmem
        rw [hl] at hl2
        cases hl2
        rw [he] at he2
        exact hnone _ hx q d e (by rw [he2])
    rw [hpre_nil]
    simp [Event.isFetchOf]
  · intro f hf
    obtain ⟨np2, hl2, hr2, _⟩ := h.store_fetched p c f hf
    rw [hl] at hl2
    cases hl2
    rw [hr2] at he
    simp [fetchError] at he

/-- In traced calls, the stores are the feeds of the successful fetches. -/
theorem Traced.store_iff {α : Type} {s : service} {k : cache} {r : Ran α}
    (h : Traced s k r) (q : Provider) (d : Category) (f : Feed) :
    Event.cacheStore q d f ∈ r.events ↔
      Event.providerGetFeed q d none ∈ r.events ∧
        ∃ np, s.providers.lookup q = some np ∧ np d = .ok f := by
  constructor
  · intro hf
    obtain ⟨np, hl, hr, hmem⟩ := h.store_fetched q d f hf
    exact ⟨hmem, np, hl, hr⟩
  · rintro ⟨hmem, np, hl, hr⟩
    obtain ⟨f2, hf2⟩ := h.fetched_stored q d hmem
    obtain ⟨np2, hl2, hr2, _⟩ := h.store_fetched q d f2 hf2
    rw [hl] at hl2
    cases hl2
    rw [hr] at hr2
    cases hr2
    exact hf2

/-- C12: a failed fetch is never cached and never retried.  When, in a call of
`GetFeed` or `GetFeedByCategory`, the fetch of provider `p` for category `c`
fails, it is the only call of `p`'s `GetFeed` with `c`, no store is issued for
`(p, c)`, the stores issued are exactly the feeds of the fetches that
succeeded, and the cache after the call is the cache before it with those
stores applied in order. -/
theorem failed_fetch_not_cached (S : SliceSorter) (s : service) (o : Ranges) (k : cache)
    (provider : Provider) (category : Category) (offset limit : Int)
    (p : Provider) (c : Category) (e : GoError) :
    (Event.providerGetFeed p c (some e) ∈
        (service.GetFeed S s o k provider offset limit).events →
      (service.GetFeed S s o k provider offset limit).events.filter (Event.isFetchOf p c)
          = [Event.providerGetFeed p c (some e)] ∧
        (∀ f, Event.cacheStore p c f ∉
          (service.GetFeed S s o k provider offset limit).events) ∧
        (∀ q d f, Event.cacheStore q d f ∈
            (service.GetFeed S s o k provider offset limit).events ↔
          Event.providerGetFeed q d none ∈
              (service.GetFeed S s o k provider offset limit).events ∧
            ∃ np, s.providers.lookup q = some np ∧ np d = .ok f) ∧
        (service.GetFeed S s o k provider offset limit).cache =
          k.replay (service.GetFeed S s o k provider offset limit).events) ∧
    (Event.providerGetFeed p c (some e) ∈
        (service.GetFeedByCategory S s o k provider category offset limit).events →
      (service.GetFeedByCategory S s o k provider category offset limit).events.filter
          (Event.isFetchOf p c) = [Event.providerGetFeed p c (some e)] ∧
        (∀ f, Event.cacheStore p c f ∉
          (service.GetFeedByCategory S s o k provider category offset limit).events) ∧
        (∀ q d f, Event.cacheStore q d f ∈
            (service.GetFeedByCategory S s o k provider category offset limit).events ↔
          Event.providerGetFeed q d none ∈
              (service.GetFeedByCategory S s o k provider category offset limit).events ∧
            ∃ np, s.providers.lookup q = some np ∧ np d = .ok f) ∧
        (service.GetFeedByCategory S s o k provider category offset limit).cache =
          k.replay (service.GetFeedByCategory S s o k provider category offset limit).events) := by
  constructor
  · intro hmem
    have ht := GetFeed_traced S s o k provider offset limit
    exact ⟨(ht.failed_once p c e hmem).1, (ht.failed_once p c e hmem).2,
      fun q d f => ht.store_iff q d f, ht.cache_eq⟩
  · intro hmem
    have ht := (GetFeedByCategory_traced_of_failed S s o k provider category offset limit
      p c e hmem).2
    exact ⟨(ht.failed_once p c e hmem).1, (ht.failed_once p c e hmem).2,
      fun q d f => ht.store_iff q d f, ht.cache_eq⟩

theorem failed_fetch_not_cached_witness :
    (service.GetFeed insertionSorter demoService demoRanges cache.empty ProviderAll 0 0).events
        = [.cacheGet "bbc" "uk", .providerGetFeed "bbc" "uk" none,
            .cacheStore "bbc" "uk" (feedOf 15 [itemAt 1, itemAt 5]),
            .cacheGet "sky" "uk",
            .providerGetFeed "sky" "uk" (some (.upstream 0 "sky is down"))] ∧
      (service.GetFeed insertionSorter demoService demoRanges cache.empty ProviderAll 0
          0).events.filter (Event.isFetchOf "sky" "uk")
        = [.providerGetFeed "sky" "uk" (some (.upstream 0 "sky is down"))] ∧
      (service.GetFeed insertionSorter demoService demoRanges cache.empty ProviderAll 0 0).cache
        = cache.empty.replay
          (service.GetFeed insertionSorter demoService demoRanges cache.empty ProviderAll 0
            0).events :=
  ⟨rfl,
    ((failed_fetch_not_cached insertionSorter demoService demoRanges cache.empty ProviderAll
      "uk" 0 0 "sky" "uk" (.upstream 0 "sky is down")).1 (by decide)).1,
    ((failed_fetch_not_cached insertionSorter demoService demoRanges cache.empty ProviderAll
      "uk" 0 0 "sky" "uk" (.upstream 0 "sky is down")).1 (by decide)).2.2.2⟩

/-! ## First error aborts -/

theorem lookedUp_append (e1 e2 : List Event) :
    lookedUp (e1 ++ e2) = lookedUp e1 ++ lookedUp e2 := by
  simp [lookedUp]

theorem VisitedAll.append {e1 e2 : List Event} {v1 v2 : List (Provider × Category)}
    (h1 : VisitedAll e1 v1) (h2 : VisitedAll e2 v2) : VisitedAll (e1 ++ e2) (v1 ++ v2) := by
  refine ⟨by rw [lookedUp_append, h1.1, h2.1], ?_⟩
  intro x hx
  rcases List.mem_append.mp hx with hx | hx
  · exact List.mem_append.mpr (Or.inl (h1.2 x hx))
  · exact List.mem_append.mpr (Or.inr (h2.2 x hx))

theorem VisitedAll.no_calls : VisitedAll [] [] := ⟨rfl, by simp⟩

/-- Membership of the pairs before and at the stop excludes, in a list without
duplicates, the pairs after it. -/
theorem upTo_excludes_after {before after : List (Provider × Category)}
    {pc : Provider × Category} {events : List Event}
    (hmem : ∀ x ∈ events, x.pair ∈ before ++ [pc])
    (hnd : (before ++ pc :: after).Nodup) :
    ∀ q ∈ after, ∀ x ∈ events, x.pair ≠ q := by
  intro q hq x hx heq
  have hin := hmem x hx
  rw [heq] at hin
  have hsplit : before ++ pc :: after = (before ++ [pc]) ++ after := by simp
  rw [hsplit] at hnd
  exact (List.nodup_append.mp hnd).2.2 hin hq

theorem VisitedUpTo.after_all {e1 e2 : List Event} {v1 all : List (Provider × Category)}
    {pc : Provider × Category} (h1 : VisitedAll e1 v1) (h2 : VisitedUpTo e2 all pc) :
    VisitedUpTo (e1 ++ e2) (v1 ++ all) pc := by
  obtain ⟨before, after, hall, hlook, hmem, _⟩ := h2
  have hmem2 : ∀ x ∈ e1 ++ e2, x.pair ∈ (v1 ++ before) ++ [pc] := by
    intro x hx
    rcases List.mem_append.mp hx with hx | hx
    · exact List.mem_append.mpr (Or.inl (List.mem_append.mpr (Or.inl (h1.2 x hx))))
    · rcases List.mem_append.mp (hmem x hx) with hb | hb
      · exact List.mem_append.mpr (Or.inl (List.mem_append.mpr (Or.inr hb)))
      · exact List.mem_append.mpr (Or.inr hb)
  have hsplit : v1 ++ all = (v1 ++ before) ++ pc :: after := by
    rw [hall, List.append_assoc]
  refine ⟨v1 ++ before, after, hsplit, ?_, hmem2, ?_⟩
  · rw [lookedUp_append, h1.1, hlook, List.append_assoc]
  · intro hnd
    rw [hsplit] at hnd
    exact upTo_excludes_after hmem2 hnd

theorem VisitedUpTo.before_rest {e : List Event} {all rest : List (Provider × Category)}
    {pc : Provider × Category} (h : VisitedUpTo e all pc) : VisitedUpTo e (all ++ rest) pc := by
  obtain ⟨before, after, hall, hlook, hmem, _⟩ := h
  have hsplit : all ++ rest = before ++ pc :: (after ++ rest) := by
    rw [hall, List.append_assoc, List.cons_append]
  refine ⟨before, after ++ rest, hsplit, hlook, hmem, ?_⟩
  intro hnd
  rw [hsplit] at hnd
  exact upTo_excludes_after hmem hnd

/-- The calls of `getFeed` that returned a feed are about its pair. -/
theorem getFeed_visited_ok (s : service) (k : cache) (q : Provider) (d : Category) (feed : Feed)
    (h : (s.getFeed k q d).ret = .ok feed) :
    VisitedAll (s.getFeed k q d).events [(q, d)] := by
  rcases getFeed_cases s k q d with ⟨_, hg⟩ | ⟨_, _, _, _, hg⟩ | ⟨_, _, _, _, _, hg⟩ |
    ⟨_, _, _, _, _, hg⟩
  · rw [hg] at h
    cases h
  · rw [hg]
    exact ⟨rfl, by simp [Event.pair]⟩
  · rw [hg]
    exact ⟨rfl, by simp [Event.pair]⟩
  · rw [hg] at h
    cases h

/-- The calls of `getFeed` whose fetch failed are about its pair, which is the
pair of the fetch. -/
theorem getFeed_visited_failed (s : service) (k : cache) (q : Provider) (d : Category)
    (p : Provider) (c : Category) (e : GoError)
    (h : Event.providerGetFeed p c (some e) ∈ (s.getFeed k q d).events) :
    (p, c) = (q, d) ∧ VisitedAll (s.getFeed k q d).events [(q, d)] := by
  rcases getFeed_cases s k q d with ⟨_, hg⟩ | ⟨_, _, _, _, hg⟩ | ⟨_, _, _, _, _, hg⟩ |
    ⟨_, _, _, _, _, hg⟩
  · rw [hg] at h
    simp at h
  · rw [hg] at h
    simp at h
  · rw [hg] at h
    simp at h
  · rw [hg] at h ⊢
    simp only [List.mem_cons, Event.providerGetFeed.injEq, Option.some.injEq,
      List.mem_singleton, List.not_mem_nil, or_false, false_or, reduceCtorEq] at h
    obtain ⟨rfl, rfl, rfl⟩ := h
    exact ⟨rfl, rfl, by simp [Event.pair]⟩

theorem VisitedUpTo.first {e : List Event} {pc : Provider × Category}
    (h : VisitedAll e [pc]) (rest : List (Provider × Category)) :
    VisitedUpTo e (pc :: rest) pc := by
  refine ⟨[], rest, rfl, h.1, h.2, ?_⟩
  intro hnd
  exact @upTo_excludes_after [] rest pc e h.2 hnd

/-- The provider loop visits the providers in order: all of them when it
returns items, and those up to the failed fetch otherwise. -/
theorem getAllFeedsForCategory_loop_visited (s : service) (category : Category)
    (p : Provider) (c : Category) (e : GoError) :
    ∀ (ps : List Provider) (k : cache) (items : List Item),
      (∀ its, (service.getAllFeedsForCategory.loop s category ps k items).ret = .ok its →
        VisitedAll (service.getAllFeedsForCategory.loop s category ps k items).events
          (ps.map (fun q => (q, category)))) ∧
      (Event.providerGetFeed p c (some e) ∈
          (service.getAllFeedsForCategory.loop s category ps k items).events →
        VisitedUpTo (service.getAllFeedsForCategory.loop s category ps k items).events
          (ps.map (fun q => (q, category))) (p, c)) := by
  intro ps
  induction ps with
  | nil =>
    intro k items
    constructor
    · intro its _
      exact VisitedAll.no_calls
    · intro h
      simp [service.getAllFeedsForCategory.loop] at h
  | cons q ps ih =>
    intro k items
    simp only [service.getAllFeedsForCategory.loop, List.map_cons]
    cases hr : (s.getFeed k q category).ret with
    | ok feed =>
      simp only [hr]
      have h1 := getFeed_visited_ok s k q category feed hr
      constructor
      · intro its h
        exact VisitedAll.append h1 ((ih _ _).1 its h)
      · intro hmem
        rcases List.mem_append.mp hmem with hmem | hmem
        · have := getFeed_failed_fetch s k q category p c e hmem
          rw [hr] at this
          cases this
        · exact VisitedUpTo.after_all h1 ((ih _ _).2 hmem)
    | error err =>
      simp only [hr]
      constructor
      · intro its h
        cases h
      · intro hmem
        obtain ⟨hpc, hall⟩ := getFeed_visited_failed s k q category p c e hmem
        rw [hpc]
        exact VisitedUpTo.first hall _
    | panic =>
      simp only [hr]
      constructor
      · intro its h
        cases h
      · intro hmem
        obtain ⟨hpc, hall⟩ := getFeed_visited_failed s k q category p c e hmem
        rw [hpc]
        exact VisitedUpTo.first hall _

/-- The category loop of a wildcard query visits the pairs in order: all of
them when it returns items, and those up to the failed fetch otherwise. -/
theorem GetFeed_loop_visited (s : service) (o : Ranges) (p : Provider) (c : Category)
    (e : GoError) :
    ∀ (cs : List Category) (k : cache) (items : List Item),
      (∀ its, (service.GetFeed.loop s o ProviderAll cs k items).ret = .ok its →
        VisitedAll (service.GetFeed.loop s o ProviderAll cs k items).events
          (cs.flatMap (fun d => (o.providers d).map (fun q => (q, d))))) ∧
      (Event.providerGetFeed p c (some e) ∈
          (service.GetFeed.loop s o ProviderAll cs k items).events →
        VisitedUpTo (service.GetFeed.loop s o ProviderAll cs k items).events
          (cs.flatMap (fun d => (o.providers d).map (fun q => (q, d)))) (p, c)) := by
  intro cs
  induction cs with
  | nil =>
    intro k items
    constructor
    · intro its _
      exact VisitedAll.no_calls
    · intro h
      simp [service.GetFeed.loop] at h
  | cons d cs ih =>
    intro k items
    have hget : s.getFeeds o k ProviderAll d =
        service.getAllFeedsForCategory.loop s d (o.providers d) k [] := by
      unfold service.getFeeds service.getAllFeedsForCategory
      rw [if_pos rfl]
    have hv := getAllFeedsForCategory_loop_visited s d p c e (o.providers d) k []
    rw [← hget] at hv
    simp only [service.GetFeed.loop, List.flatMap_cons]
    cases hr : (s.getFeeds o k ProviderAll d).ret with
    | ok feed =>
      simp only [hr]
      have h1 := hv.1 feed hr
      constructor
      · intro its h
        exact VisitedAll.append h1 ((ih _ _).1 its h)
      · intro hmem
        rcases List.mem_append.mp hmem with hmem | hmem
        · have := getFeeds_failed_fetch s o k ProviderAll d p c e hmem
          rw [hr] at this
          cases this
        · exact VisitedUpTo.after_all h1 ((ih _ _).2 hmem)
    | error err =>
      simp only [hr]
      constructor
      · intro its h
        cases h
      · intro hmem
        exact (hv.2 hmem).before_rest
    | panic =>
      simp only [hr]
      constructor
      · intro its h
        cases h
      · intro hmem
        exact (hv.2 hmem).before_rest

/-- C11: first error aborts.  In a wildcard query, in every iteration order,
when the fetch of `(p, c)` fails the call returns the wrapped error and no
response; the failed fetch is the last call made; and the pairs looked up are
those of the order up to and including `(p, c)`, each once, in order: no pair
after it is looked up, fetched or stored. -/
theorem first_error_aborts (S : SliceSorter) (s : service) (o : Ranges) (k : cache)
    (category : Category) (offset limit : Int) (p : Provider) (c : Category) (e : GoError) :
    (Event.providerGetFeed p c (some e) ∈
        (service.GetFeed S s o k ProviderAll offset limit).events →
      (service.GetFeed S s o k ProviderAll offset limit).ret
          = .error (errorfGetFeed c p e) ∧
        (∃ pre, (service.GetFeed S s o k ProviderAll offset limit).events
          = pre ++ [Event.providerGetFeed p c (some e)]) ∧
        ∃ before after, o.pairs = before ++ (p, c) :: after ∧
          lookedUp (service.GetFeed S s o k ProviderAll offset limit).events
            = before ++ [(p, c)] ∧
          (∀ x ∈ (service.GetFeed S s o k ProviderAll offset limit).events,
            x.pair ∈ before ++ [(p, c)]) ∧
          (o.pairs.Nodup → ∀ q ∈ after,
            ∀ x ∈ (service.GetFeed S s o k ProviderAll offset limit).events, x.pair ≠ q)) ∧
    (Event.providerGetFeed p c (some e) ∈
        (service.GetFeedByCategory S s o k ProviderAll category offset limit).events →
      (service.GetFeedByCategory S s o k ProviderAll category offset limit).ret
          = .error (errorfGetFeed c p e) ∧
        (∃ pre, (service.GetFeedByCategory S s o k ProviderAll category offset limit).events
          = pre ++ [Event.providerGetFeed p c (some e)]) ∧
        ∃ before after, o.pairsOf category = before ++ (p, c) :: after ∧
          lookedUp (service.GetFeedByCategory S s o k ProviderAll category offset limit).events
            = before ++ [(p, c)] ∧
          (∀ x ∈ (service.GetFeedByCategory S s o k ProviderAll category offset limit).events,
            x.pair ∈ before ++ [(p, c)]) ∧
          ((o.pairsOf category).Nodup → ∀ q ∈ after,
            ∀ x ∈ (service.GetFeedByCategory S s o k ProviderAll category offset limit).events,
              x.pair ≠ q)) := by
  constructor
  · intro hmem
    refine ⟨GetFeed_failed_fetch S s o k ProviderAll offset limit p c e hmem, ?_, ?_⟩
    · obtain ⟨pre, hpre, _⟩ :=
        (GetFeed_traced S s o k ProviderAll offset limit).failed_last p c e hmem
      exact ⟨pre, hpre⟩
    · have hev := (GetFeed_events_cache S s o k ProviderAll offset limit).1
      rw [hev] at hmem ⊢
      exact (GetFeed_loop_visited s o p c e o.categories k []).2 hmem
  · intro hmem
    obtain ⟨hc, ht⟩ := GetFeedByCategory_traced_of_failed S s o k ProviderAll category
      offset limit p c e hmem
    refine ⟨GetFeedByCategory_failed_fetch S s o k ProviderAll category offset limit p c e
      hmem, ?_, ?_⟩
    · obtain ⟨pre, hpre, _⟩ := ht.failed_last p c e hmem
      exact ⟨pre, hpre⟩
    · have hev := (GetFeedByCategory_events_cache S s o k ProviderAll category offset limit
        hc).1
      rw [hev] at hmem ⊢
      have hget : s.getFeeds o k ProviderAll category =
          service.getAllFeedsForCategory.loop s category (o.providers category) k [] := by
        unfold service.getFeeds service.getAllFeedsForCategory
        rw [if_pos rfl]
      rw [hget] at hmem ⊢
      exact (getAllFeedsForCategory_loop_visited s category p c e _ k []).2 hmem

theorem first_error_aborts_witness :
    (service.GetFeed insertionSorter demoService demoRangesSkyFirst cache.empty ProviderAll 0
        0).events =
        [.cacheGet "sky" "uk",
          .providerGetFeed "sky" "uk" (some (.upstream 0 "sky is down"))] ∧
      (service.GetFeed insertionSorter demoService demoRangesSkyFirst cache.empty ProviderAll 0
          0).ret =
        .error (errorfGetFeed "uk" "sky" (.upstream 0 "sky is down")) ∧
      ∃ pre, (service.GetFeed insertionSorter demoService demoRangesSkyFirst cache.empty
          ProviderAll 0 0).events =
        pre ++ [.providerGetFeed "sky" "uk" (some (.upstream 0 "sky is down"))] :=
  ⟨rfl,
    ((first_error_aborts insertionSorter demoService demoRangesSkyFirst cache.empty "uk" 0 0
      "sky" "uk" (.upstream 0 "sky is down")).1 (by decide)).1,
    ((first_error_aborts insertionSorter demoService demoRangesSkyFirst cache.empty "uk" 0 0
      "sky" "uk" (.upstream 0 "sky is down")).1 (by decide)).2.1⟩

/-! ## Merge completeness -/

/-- With limit 0 and offset 0 the page is the first `math.MaxInt32` items. -/
theorem paginate_zero_zero (items : List Item) :
    service.paginate items 0 0 = some (items.take 2147483647) := by
  rw [paginate_zero_eq_slice items 0 (le_refl 0) (by omega) (by decide),
    sliceExpr_of_bounds _ _ _ (le_refl 0) (by unfold MaxInt32; omega) (by omega)]
  simp only [Int.toNat_zero, List.drop_zero, Nat.sub_zero, Option.some.injEq]
  by_cases hlen : items.length ≤ 2147483647
  · rw [List.take_of_length_le hlen, List.take_of_length_le]
    unfold MaxInt32
    omega
  · congr 1
    unfold MaxInt32
    omega

/-- A feed returned by `getFeed` is the one its pair resolves to on a cache that
holds the same under the pair's key; only that key is written. -/
theorem getFeed_resolved (s : service) (k k2 : cache) (q : Provider) (d : Category)
    (feed : Feed) (hag : k2.feeds (cache.hash q d) = k.feeds (cache.hash q d))
    (hok : (s.getFeed k2 q d).ret = .ok feed) :
    feed.Items = s.resolvedItems k (q, d) ∧
      ∀ h, h ≠ cache.hash q d → (s.getFeed k2 q d).cache.feeds h = k2.feeds h := by
  rcases getFeed_cases s k2 q d with ⟨_, hg⟩ | ⟨np, f, hl, hget, hg⟩ |
    ⟨np, f, hl, hget, hr, hg⟩ | ⟨_, _, _, _, _, hg⟩
  · rw [hg] at hok
    cases hok
  · rw [hg] at hok ⊢
    simp only [Result.ok.injEq] at hok
    subst hok
    have hk : k.Get q d = some f := by
      unfold cache.Get at hget ⊢
      rw [← hag, hget]
    refine ⟨?_, fun h _ => rfl⟩
    simp only [service.resolvedItems, hk]
  · rw [hg] at hok ⊢
    simp only [Result.ok.injEq] at hok
    subst hok
    have hk : k.Get q d = none := by
      unfold cache.Get at hget ⊢
      rw [← hag, hget]
    refine ⟨?_, ?_⟩
    · simp only [service.resolvedItems, hk, hl, hr]
    · intro h hne
      show (k2.Store q d f).feeds h = k2.feeds h
      rw [Store_feeds, if_neg hne]
  · rw [hg] at hok
    cases hok

/-- The items returned by the provider loop, when the pairs have distinct
keys. -/
theorem getAllFeedsForCategory_loop_resolved (s : service) (k : cache) (category : Category) :
    ∀ (ps : List Provider) (k2 : cache) (items its : List Item),
      (∀ q ∈ ps, k2.feeds (cache.hash q category) = k.feeds (cache.hash q category)) →
      (ps.map (fun q => cache.hash q category)).Nodup →
      (service.getAllFeedsForCategory.loop s category ps k2 items).ret = .ok its →
      its = items ++ ps.flatMap (fun q => s.resolvedItems k (q, category)) ∧
        ∀ h, h ∉ ps.map (fun q => cache.hash q category) →
          (service.getAllFeedsForCategory.loop s category ps k2 items).cache.feeds h
            = k2.feeds h := by
  intro ps
  induction ps with
  | nil =>
    intro k2 items its _ _ hok
    simp only [service.getAllFeedsForCategory.loop, Result.ok.injEq] at hok
    subst hok
    exact ⟨by simp, fun h _ => rfl⟩
  | cons q ps ih =>
    intro k2 items its hag hnd hok
    simp only [service.getAllFeedsForCategory.loop] at hok ⊢
    rw [List.map_cons, List.nodup_cons] at hnd
    cases hr : (s.getFeed k2 q category).ret with
    | ok feed =>
      simp only [hr] at hok ⊢
      obtain ⟨hitems, hframe⟩ := getFeed_resolved s k k2 q category feed
        (hag q (List.mem_cons_self _ _)) hr
      have hag2 : ∀ q2 ∈ ps, (s.getFeed k2 q category).cache.feeds (cache.hash q2 category)
          = k.feeds (cache.hash q2 category) := by
        intro q2 hq2
        rw [hframe _ ?_]
        · exact hag q2 (List.mem_cons_of_mem _ hq2)
        · intro heq
          apply hnd.1
          rw [← heq]
          exact List.mem_map_of_mem (fun q => cache.hash q category) hq2
      obtain ⟨hits, hframe2⟩ := ih _ _ its hag2 hnd.2 hok
      refine ⟨?_, ?_⟩
      · rw [hits, hitems, List.flatMap_cons, List.append_assoc]
      · intro h hh
        rw [List.map_cons, List.mem_cons, not_or] at hh
        rw [hframe2 h hh.2, hframe h hh.1]
    | error err =>
      simp only [hr] at hok
      cases hok
    | panic =>
      simp only [hr] at hok
      cases hok

/-- The items returned by `getFeeds` are those its pairs resolve to, when the
pairs have distinct keys; only their keys are written. -/
theorem getFeeds_resolved (s : service) (o : Ranges) (k k2 : cache) (provider : Provider)
    (category : Category) (its : List Item)
    (hag : ∀ pc ∈ o.resolvedFor provider category,
      k2.feeds (hashPair pc) = k.feeds (hashPair pc))
    (hnd : ((o.resolvedFor provider category).map hashPair).Nodup)
    (hok : (s.getFeeds o k2 provider category).ret = .ok its) :
    its = (o.resolvedFor provider category).flatMap (s.resolvedItems k) ∧
      ∀ h, h ∉ (o.resolvedFor provider category).map hashPair →
        (s.getFeeds o k2 provider category).cache.feeds h = k2.feeds h := by
  unfold service.getFeeds at hok ⊢
  unfold Ranges.resolvedFor at hag hnd ⊢
  by_cases hw : provider = ProviderAll
  · simp only [if_pos hw] at hok hag hnd ⊢
    unfold service.getAllFeedsForCategory at hok ⊢
    unfold Ranges.pairsOf at hag hnd ⊢
    have hmap : ((o.providers category).map (fun p => (p, category))).map hashPair =
        (o.providers category).map (fun q => cache.hash q category) := by
      rw [List.map_map]
      rfl
    rw [hmap] at hnd ⊢
    have hag2 : ∀ q ∈ o.providers category,
        k2.feeds (cache.hash q category) = k.feeds (cache.hash q category) :=
      fun q hq => hag (q, category) (List.mem_map_of_mem (fun p => (p, category)) hq)
    obtain ⟨hits, hframe⟩ := getAllFeedsForCategory_loop_resolved s k category _ k2 [] its
      hag2 hnd hok
    refine ⟨?_, hframe⟩
    rw [hits, List.nil_append, List.flatMap_def, List.flatMap_def, List.map_map]
    rfl
  · simp only [if_neg hw] at hok hag hnd ⊢
    cases hr : (s.getFeed k2 provider category).ret with
    | ok feed =>
      simp only [hr, Result.ok.injEq] at hok ⊢
      subst hok
      obtain ⟨hitems, hframe⟩ := getFeed_resolved s k k2 provider category feed
        (hag (provider, category) (List.mem_singleton.mpr rfl)) hr
      refine ⟨?_, ?_⟩
      · rw [hitems]
        simp
      · intro h hh
        apply hframe
        intro heq
        apply hh
        rw [heq]
        simp [hashPair]
    | error err =>
      simp only [hr] at hok
      cases hok
    | panic =>
      simp only [hr] at hok
      cases hok

/-- The items collected by the category loop, when the pairs have distinct
keys. -/
theorem GetFeed_loop_resolved (s : service) (o : Ranges) (k : cache) (provider : Provider) :
    ∀ (cs : List Category) (k2 : cache) (items its : List Item),
      (∀ pc ∈ o.resolved provider cs, k2.feeds (hashPair pc) = k.feeds (hashPair pc)) →
      ((o.resolved provider cs).map hashPair).Nodup →
      (service.GetFeed.loop s o provider cs k2 items).ret = .ok its →
      its = items ++ (o.resolved provider cs).flatMap (s.resolvedItems k) := by
  intro cs
  induction cs with
  | nil =>
    intro k2 items its _ _ hok
    simp only [service.GetFeed.loop, Result.ok.injEq] at hok
    subst hok
    simp [Ranges.resolved]
  | cons d cs ih =>
    intro k2 items its hag hnd hok
    have hres : o.resolved provider (d :: cs) =
        o.resolvedFor provider d ++ o.resolved provider cs := by
      simp [Ranges.resolved]
    rw [hres] at hag hnd ⊢
    rw [List.map_append, List.nodup_append] at hnd
    simp only [service.GetFeed.loop] at hok
    cases hr : (s.getFeeds o k2 provider d).ret with
    | ok feed =>
      simp only [hr] at hok
      obtain ⟨hitems, hframe⟩ := getFeeds_resolved s o k k2 provider d feed
        (fun pc hpc => hag pc (List.mem_append.mpr (Or.inl hpc))) hnd.1 hr
      have hag2 : ∀ pc ∈ o.resolved provider cs,
          (s.getFeeds o k2 provider d).cache.feeds (hashPair pc) = k.feeds (hashPair pc) := by
        intro pc hpc
        rw [hframe _ ?_]
        · exact hag pc (List.mem_append.mpr (Or.inr hpc))
        · intro hin
          exact hnd.2.2 hin (List.mem_map_of_mem hashPair hpc)
      rw [ih _ _ its hag2 hnd.2.1 hok, hitems, List.flatMap_append, List.append_assoc]
    | error err =>
      simp only [hr] at hok
      cases hok
    | panic =>
      simp only [hr] at hok
      cases hok

/-- With limit 0 and offset 0, at most `math.MaxInt32` sorted items come back
whole, as a permutation of what was sorted. -/
theorem paginate_sort_perm (S : SliceSorter) (items page : List Item)
    (hlen : items.length ≤ 2147483647)
    (hp : service.paginate (S.sort lessAfter items) 0 0 = some page) : page.Perm items := by
  rw [paginate_zero_zero, Option.some.injEq] at hp
  rw [← hp, List.take_of_length_le]
  · exact S.perm lessAfter items
  · rw [(S.perm lessAfter items).length_eq]
    exact hlen

/-- The response of `GetFeedByCategory` for a single provider whose feed was
resolved. -/
theorem GetFeedByCategory_of_getFeed_ok (S : SliceSorter) (s : service) (o : Ranges)
    (k : cache) (provider : Provider) (category : Category) (offset limit : Int)
    (feed : Feed) (page : List Item)
    (hc : category ∈ s.categories) (hw : provider ≠ ProviderAll)
    (hg : (s.getFeed k provider category).ret = .ok feed)
    (hp : service.paginate (S.sort lessAfter feed.Items) offset limit = some page) :
    (service.GetFeedByCategory S s o k provider category offset limit).ret =
      .ok { Category := category, Provider := provider, Items := page,
            Limit := limit, Offset := offset } := by
  have hgf : (s.getFeeds o k provider category).ret = .ok feed.Items := by
    unfold service.getFeeds
    simp only [if_neg hw, hg]
  unfold service.GetFeedByCategory
  rw [if_neg (not_not.mpr hc)]
  simp only [hgf, hp]

theorem manyItems_length : manyItems.length = 2147483648 := by
  unfold manyItems
  exact List.length_replicate _ _

/-- C13 (as stated, refuted): the one provider of `bigService` answers with a
feed of 2147483648 items; `GetFeedByCategory` with offset 0 and limit 0 returns a
response whose items are not a permutation of the items of that feed. -/
theorem merge_truncates_many_items :
    ∃ resp, (service.GetFeedByCategory insertionSorter bigService demoRanges cache.empty
        "bbc" "uk" 0 0).ret = .ok resp ∧
      ¬ resp.Items.Perm (feedOf 15 manyItems).Items := by
  have hg : bigService.getFeed cache.empty "bbc" "uk" =
      ⟨.ok (feedOf 15 manyItems), cache.empty.Store "bbc" "uk" (feedOf 15 manyItems),
        [.cacheGet "bbc" "uk", .providerGetFeed "bbc" "uk" none,
          .cacheStore "bbc" "uk" (feedOf 15 manyItems)]⟩ :=
    getFeed_miss_ok bigService cache.empty "bbc" "uk" (fun _ => .ok (feedOf 15 manyItems))
      (feedOf 15 manyItems) rfl rfl rfl
  have hret : (bigService.getFeed cache.empty "bbc" "uk").ret = .ok (feedOf 15 manyItems) := by
    rw [hg]
  refine ⟨_, GetFeedByCategory_of_getFeed_ok insertionSorter bigService demoRanges cache.empty
    "bbc" "uk" 0 0 (feedOf 15 manyItems) _ (List.mem_singleton.mpr rfl) (by decide) hret
    (paginate_zero_zero _), ?_⟩
  intro hperm
  have hlen : (List.take 2147483647
      (insertionSorter.sort lessAfter (feedOf 15 manyItems).Items)).length
        = (feedOf 15 manyItems).Items.length := hperm.length_eq
  have hitems : (feedOf 15 manyItems).Items = manyItems := rfl
  have hle := List.length_take_le 2147483647
    (insertionSorter.sort lessAfter (feedOf 15 manyItems).Items)
  rw [hlen, hitems, manyItems_length] at hle
  omega

/-- C13 (amended): merge completeness.  For a query with offset 0 and limit 0
that returns a response, when the resolved pairs have distinct cache keys and
resolve to at most 2147483647 (`math.MaxInt32`) items in all, the items
returned are a permutation of the concatenation of the items each resolved pair
resolves to: the cached feed's if the cache holds one, the fetched feed's
otherwise.  The pairs are, for `GetFeed`, those of every category of the
order, for `GetFeedByCategory` those of the one category; for the wildcard
those of every provider of the order, otherwise of the one provider. -/
theorem merge_complete (S : SliceSorter) (s : service) (o : Ranges) (k : cache)
    (provider : Provider) (category : Category) :
    (∀ resp, (service.GetFeed S s o k provider 0 0).ret = .ok resp →
      ((o.resolved provider o.categories).map hashPair).Nodup →
      ((o.resolved provider o.categories).flatMap (s.resolvedItems k)).length
        ≤ 2147483647 →
      resp.Items.Perm ((o.resolved provider o.categories).flatMap (s.resolvedItems k))) ∧
    (∀ resp, (service.GetFeedByCategory S s o k provider category 0 0).ret = .ok resp →
      ((o.resolvedFor provider category).map hashPair).Nodup →
      ((o.resolvedFor provider category).flatMap (s.resolvedItems k)).length
        ≤ 2147483647 →
      resp.Items.Perm ((o.resolvedFor provider category).flatMap (s.resolvedItems k))) := by
  constructor
  · intro resp h hnd hlen
    obtain ⟨items, page, hloop, hp, rfl⟩ := GetFeed_ok_inv S s o k provider 0 0 resp h
    have hits := GetFeed_loop_resolved s o k provider o.categories k [] items
      (fun _ _ => rfl) hnd hloop
    rw [List.nil_append] at hits
    rw [← hits] at hlen ⊢
    exact paginate_sort_perm S items page hlen hp
  · intro resp h hnd hlen
    obtain ⟨items, page, _, hget, hp, rfl⟩ :=
      GetFeedByCategory_ok_inv S s o k provider category 0 0 resp h
    have hits := (getFeeds_resolved s o k k provider category items
      (fun _ _ => rfl) hnd hget).1
    rw [← hits] at hlen ⊢
    exact paginate_sort_perm S items page hlen hp

theorem merge_complete_witness :
    (service.GetFeed insertionSorter demoService demoRanges cache.empty "bbc" 0 0).ret =
        .ok { Category := "", Provider := "bbc", Items := [itemAt 5, itemAt 1],
              Limit := 0, Offset := 0 } ∧
      [itemAt 5, itemAt 1].Perm
        ((demoRanges.resolved "bbc" demoRanges.categories).flatMap
          (demoService.resolvedItems cache.empty)) :=
  ⟨rfl, (merge_complete insertionSorter demoService demoRanges cache.empty "bbc" "uk").1
    { Category := "", Provider := "bbc", Items := [itemAt 5, itemAt 1], Limit := 0, Offset := 0 }
    rfl (by decide) (by decide)⟩

/-! ## Bounds of the page -/

theorem paginate_eq_sliceExpr_bounds (items : List Item) (offset limit : Int) :
    service.paginate items offset limit =
      sliceExpr items (service.paginateBounds items offset limit).1
        (service.paginateBounds items offset limit).2 := rfl

/-- Without overflow, the bounds of the page are in range. -/
theorem paginateBounds_in_range (items : List Item) (offset limit : Int)
    (h0 : 0 ≤ offset) (hl : 0 ≤ limit)
    (hov : min offset (items.length : Int) + service.effectiveLimit limit ≤ MaxInt) :
    0 ≤ (service.paginateBounds items offset limit).1 ∧
      (service.paginateBounds items offset limit).1 ≤
        (service.paginateBounds items offset limit).2 ∧
      (service.paginateBounds items offset limit).2 ≤ (items.length : Int) := by
  have hlim : 0 < service.effectiveLimit limit := by
    unfold service.effectiveLimit
    split
    · decide
    · omega
  have hmin : (if offset > (items.length : Int) then (items.length : Int) else offset)
      = min offset (items.length : Int) := by
    split <;> omega
  have hw : wrapInt (min offset (items.length : Int) + service.effectiveLimit limit)
      = min offset (items.length : Int) + service.effectiveLimit limit := by
    apply wrapInt_of_isInt
    unfold isInt MinInt
    constructor
    · omega
    · exact hov
  have hb : service.paginateBounds items offset limit =
      (min offset (items.length : Int),
        if min offset (items.length : Int) + service.effectiveLimit limit >
            (items.length : Int) then (items.length : Int)
          else min offset (items.length : Int) + service.effectiveLimit limit) := by
    unfold service.paginateBounds
    simp only [hmin]
    show (_, if wrapInt (min offset (items.length : Int) + service.effectiveLimit limit)
      > _ then _ else wrapInt (min offset (items.length : Int)
        + service.effectiveLimit limit)) = _
    rw [hw]
  rw [hb]
  simp only
  refine ⟨by omega, ?_, ?_⟩
  · split <;> omega
  · split <;> omega

/-- C26 (code defect): for three items, offset 2 and limit 9223372036854775806
the sum `offset + limit` wraps, the bounds are `start = 2` and
`end = -9223372036854775808`, out of range, and the slice expression panics. -/
theorem paginate_bounds_out_of_range :
    service.paginateBounds [itemAt 3, itemAt 2, itemAt 1] 2 9223372036854775806
        = (2, -9223372036854775808) ∧
      ¬ ((2 : Int) ≤ -9223372036854775808) ∧
      service.paginate [itemAt 3, itemAt 2, itemAt 1] 2 9223372036854775806 = none := by
  decide

/-! ## A TTL of zero -/

/-- Running the expiry actions now is letting no time pass. -/
theorem expire_feeds (k : cache) (h : String) :
    k.expire.feeds h =
      if ∃ t ∈ k.timers, t.1 ≤ k.clock ∧ t.2 = h then none else k.feeds h := by
  have hiff : h ∈ (k.timers.filter k.due).map Prod.snd ↔
      ∃ t ∈ k.timers, t.1 ≤ k.clock ∧ t.2 = h := by
    simp only [cache.due, List.mem_map, List.mem_filter, decide_eq_true_eq]
    constructor
    · rintro ⟨t, ⟨ht, hdue⟩, rfl⟩
      exact ⟨t, ht, hdue, rfl⟩
    · rintro ⟨t, ht, hdue, rfl⟩
      exact ⟨t, ⟨ht, hdue⟩, rfl⟩
  show (if h ∈ (k.timers.filter k.due).map Prod.snd then none else k.feeds h) = _
  by_cases hc : ∃ t ∈ k.timers, t.1 ≤ k.clock ∧ t.2 = h
  · rw [if_pos hc, if_pos (hiff.mpr hc)]
  · rw [if_neg hc, if_neg (mt hiff.mp hc)]

/-- C27: a TTL of 0 means immediate eligibility for removal.  `Store` of a feed
with TTL 0 holds the feed and schedules its expiry action with a delay of zero:
the timer is due at the clock reading of the store, so the action may fire
without any advance of the clock, and once it has fired `Get` finds nothing. -/
theorem ttl_zero_expires_at_once (k : cache) (p : Provider) (c : Category) (feed : Feed)
    (h0 : feed.TTL = 0) :
    (k.Store p c feed).Get p c = some feed ∧
      (k.Store p c feed).timers = k.timers ++ [(k.clock, cache.hash p c)] ∧
      (k.Store p c feed).due (k.clock, cache.hash p c) = true ∧
      (k.Store p c feed).expire.Get p c = none ∧
      ((k.Store p c feed).elapse 0).Get p c = none := by
  have hdelay : wrapInt (Minute * feed.TTL) = 0 := by
    rw [h0]
    decide
  have htimers : (k.Store p c feed).timers = k.timers ++ [(k.clock, cache.hash p c)] := by
    rw [Store_timers, hdelay, Int.add_zero]
  have hmem : (k.clock, cache.hash p c) ∈ (k.Store p c feed).timers := by
    rw [htimers]
    exact List.mem_append.mpr (Or.inr (List.mem_singleton.mpr rfl))
  refine ⟨?_, htimers, ?_, ?_, ?_⟩
  · unfold cache.Get
    rw [Store_feeds, if_pos rfl]
  · simp [cache.due, Store_clock]
  · unfold cache.Get
    rw [expire_feeds, if_pos]
    exact ⟨_, hmem, by rw [Store_clock], rfl⟩
  · unfold cache.Get
    rw [elapse_feeds, if_pos]
    exact ⟨_, hmem, by rw [Store_clock]; simp, rfl⟩

theorem ttl_zero_expires_at_once_witness :
    (cache.empty.Store "bbc" "uk" (feedOf 0 [itemAt 1])).Get "bbc" "uk"
        = some (feedOf 0 [itemAt 1]) ∧
      (cache.empty.Store "bbc" "uk" (feedOf 0 [itemAt 1])).timers
        = cache.empty.timers ++ [(cache.empty.clock, cache.hash "bbc" "uk")] ∧
      (cache.empty.Store "bbc" "uk" (feedOf 0 [itemAt 1])).due
        (cache.empty.clock, cache.hash "bbc" "uk") = true ∧
      (cache.empty.Store "bbc" "uk" (feedOf 0 [itemAt 1])).expire.Get "bbc" "uk" = none ∧
      ((cache.empty.Store "bbc" "uk" (feedOf 0 [itemAt 1])).elapse 0).Get "bbc" "uk" = none :=
  ttl_zero_expires_at_once cache.empty "bbc" "uk" (feedOf 0 [itemAt 1]) rfl

/-! ## Keys of hyphen-free providers -/

/-- Two lists split at the first occurrence of a separator have equal parts. -/
theorem append_cons_inj {α : Type} (a : α) :
    ∀ (l1 l2 r1 r2 : List α), a ∉ l1 → a ∉ l2 → l1 ++ a :: r1 = l2 ++ a :: r2 →
      l1 = l2 ∧ r1 = r2 := by
  intro l1
  induction l1 with
  | nil =>
    intro l2 r1 r2 _ h2 h
    cases l2 with
    | nil =>
      simp only [List.nil_append, List.cons.injEq, true_and] at h
      exact ⟨rfl, h⟩
    | cons b l2 =>
      simp only [List.nil_append, List.cons_append, List.cons.injEq] at h
      exact absurd (List.mem_cons.mpr (Or.inl h.1)) h2
  | cons b l1 ih =>
    intro l2 r1 r2 h1 h2 h
    cases l2 with
    | nil =>
      simp only [List.nil_append, List.cons_append, List.cons.injEq] at h
      exact absurd (List.mem_cons.mpr (Or.inl h.1.symm)) h1
    | cons b2 l2 =>
      simp only [List.cons_append, List.cons.injEq] at h
      obtain ⟨hb, hrest⟩ := h
      have h1' : a ∉ l1 := fun hm => h1 (List.mem_cons_of_mem _ hm)
      have h2' : a ∉ l2 := fun hm => h2 (List.mem_cons_of_mem _ hm)
      obtain ⟨hl, hr⟩ := ih l2 r1 r2 h1' h2' hrest
      exact ⟨by rw [hb, hl], hr⟩

/-- C28: the cache key is injective on hyphen-free providers.  For providers
`p1`, `p2` without a '-' character and any categories, equal keys come from
equal pairs. -/
theorem hash_injective_hyphen_free (p1 p2 : Provider) (c1 c2 : Category)
    (h1 : '-' ∉ p1.toList) (h2 : '-' ∉ p2.toList)
    (h : cache.hash p1 c1 = cache.hash p2 c2) : p1 = p2 ∧ c1 = c2 := by
  have hd := congrArg String.data h
  simp only [cache.hash, String.data_append] at hd
  rw [List.append_assoc, List.append_assoc] at hd
  obtain ⟨hp, hc⟩ := append_cons_inj '-' p1.data p2.data c1.data c2.data h1 h2 hd
  exact ⟨String.ext hp, String.ext hc⟩

theorem hash_injective_hyphen_free_witness :
    ('-' ∉ ProviderBBC.toList ∧ '-' ∉ ProviderSky.toList ∧ '-' ∉ ProviderAll.toList) ∧
      (ProviderBBC = "bbc" ∧ CategoryUK = "uk") :=
  ⟨by decide, hash_injective_hyphen_free ProviderBBC "bbc" CategoryUK "uk" (by decide)
    (by decide) rfl⟩

/-! ## Consecutive pages -/

/-- Without overflow the page is `limit` items (`math.MaxInt32` for 0) after
skipping `offset` items. -/
theorem paginate_eq_take_drop (items : List Item) (offset limit : Int)
    (h0 : 0 ≤ offset) (hl : 0 ≤ limit)
    (hov : min offset (items.length : Int) + service.effectiveLimit limit ≤ MaxInt) :
    service.paginate items offset limit =
      some ((items.drop offset.toNat).take (service.effectiveLimit limit).toNat) := by
  have hlim : 0 < service.effectiveLimit limit := by
    unfold service.effectiveLimit
    split
    · decide
    · omega
  have hmin : (if offset > (items.length : Int) then (items.length : Int) else offset)
      = min offset (items.length : Int) := by
    split <;> omega
  have hw : wrapInt (min offset (items.length : Int) + service.effectiveLimit limit)
      = min offset (items.length : Int) + service.effectiveLimit limit := by
    apply wrapInt_of_isInt
    unfold isInt MinInt
    constructor
    · omega
    · exact hov
  have hp : service.paginate items offset limit =
      sliceExpr items (min offset (items.length : Int))
        (if min offset (items.length : Int) + service.effectiveLimit limit >
            (items.length : Int) then (items.length : Int)
          else min offset (items.length : Int) + service.effectiveLimit limit) := by
    unfold service.paginate
    simp only [hmin]
    show sliceExpr items _ (if wrapInt (min offset (items.length : Int)
      + service.effectiveLimit limit) > _ then _ else wrapInt (min offset (items.length : Int)
        + service.effectiveLimit limit)) = _
    rw [hw]
  rw [hp, sliceExpr_of_bounds _ _ _ (by omega) (by split <;> omega) (by split <;> omega)]
  congr 1
  by_cases hoff : offset ≤ (items.length : Int)
  · have ho : min offset (items.length : Int) = offset := by omega
    rw [ho]
    by_cases hfit : offset + service.effectiveLimit limit ≤ (items.length : Int)
    · rw [if_neg (by omega)]
      congr 1
      omega
    · rw [if_pos (by omega)]
      rw [List.take_of_length_le, List.take_of_length_le]
      · rw [List.length_drop]
        omega
      · rw [List.length_drop]
        omega
  · have ho : min offset (items.length : Int) = (items.length : Int) := by omega
    rw [ho]
    have hd1 : items.drop (items.length : Int).toNat = [] := by
      apply List.drop_eq_nil_of_le
      omega
    have hd2 : items.drop offset.toNat = [] := by
      apply List.drop_eq_nil_of_le
      omega
    rw [hd1, hd2]
    simp

/-- C29 (as stated, refuted): for 2147483648 items, offset 0 and limit 1, the
first page followed by `paginate(items, 1, 0)` has 2147483648 items, and
`paginate(items, 0, 0)` has 2147483647. -/
theorem pages_do_not_tile_many_items :
    ∃ first rest whole,
      service.paginate manyItems 0 1 = some first ∧
      service.paginate manyItems (0 + 1) 0 = some rest ∧
      service.paginate manyItems 0 0 = some whole ∧
      first ++ rest ≠ whole := by
  have hN := manyItems_length
  have e1 : service.effectiveLimit 1 = 1 := rfl
  have e0 : service.effectiveLimit 0 = 2147483647 := rfl
  have h1 := paginate_eq_take_drop manyItems 0 1 (by decide) (by decide)
    (by rw [e1]; unfold MaxInt; omega)
  have h2 := paginate_eq_take_drop manyItems (0 + 1) 0 (by decide) (by decide)
    (by rw [e0]; unfold MaxInt; omega)
  have h3 := paginate_eq_take_drop manyItems 0 0 (by decide) (by decide)
    (by rw [e0]; unfold MaxInt; omega)
  refine ⟨_, _, _, h1, h2, h3, ?_⟩
  intro heq
  have hlen := congrArg List.length heq
  rw [e1, e0] at hlen
  simp only [List.length_append, List.length_take, List.length_drop] at hlen
  rw [hN] at hlen
  have t0 : (0 : Int).toNat = 0 := rfl
  have t1 : (0 + 1 : Int).toNat = 1 := rfl
  have t2 : (1 : Int).toNat = 1 := rfl
  have t3 : (2147483647 : Int).toNat = 2147483647 := rfl
  rw [t0, t1, t2, t3] at hlen
  omega

/-- C29 (amended): consecutive pages tile the result.  For `offset >= 0` and
`limit > 0` with `offset + limit` representable, at most `math.MaxInt32` items
after the offset and `N + math.MaxInt32` representable, the page at `offset`
followed by `paginate(items, offset + limit, 0)` is `paginate(items, offset, 0)`. -/
theorem pages_tile (items : List Item) (offset limit : Int)
    (h0 : 0 ≤ offset) (hl : 0 < limit) (hsum : offset + limit ≤ MaxInt)
    (hcap : (items.length : Int) - offset ≤ MaxInt32)
    (hN : (items.length : Int) + MaxInt32 ≤ MaxInt) :
    ∃ first rest,
      service.paginate items offset limit = some first ∧
      service.paginate items (offset + limit) 0 = some rest ∧
      service.paginate items offset 0 = some (first ++ rest) := by
  have e0 : service.effectiveLimit 0 = MaxInt32 := rfl
  have el : service.effectiveLimit limit = limit := by
    unfold service.effectiveLimit
    rw [if_neg (by omega)]
  have h1 := paginate_eq_take_drop items offset limit h0 (le_of_lt hl) (by rw [el]; omega)
  have h2 := paginate_eq_take_drop items (offset + limit) 0 (by omega) (le_refl 0)
    (by rw [e0]; omega)
  have h3 := paginate_eq_take_drop items offset 0 h0 (le_refl 0) (by rw [e0]; omega)
  refine ⟨_, _, h1, h2, ?_⟩
  rw [h3, el, e0]
  congr 1
  have hM : MaxInt32.toNat = 2147483647 := rfl
  have hsplit : (offset + limit).toNat = offset.toNat + limit.toNat := by omega
  rw [hsplit, ← List.drop_drop, hM]
  rw [List.take_of_length_le (l := List.drop offset.toNat items),
    List.take_of_length_le (l := List.drop limit.toNat (List.drop offset.toNat items))]
  · exact (List.take_append_drop _ _).symm
  · rw [List.length_drop, List.length_drop]
    unfold MaxInt32 at hcap
    omega
  · rw [List.length_drop]
    unfold MaxInt32 at hcap
    omega

theorem pages_tile_witness :
    ∃ first rest,
      service.paginate [itemAt 4, itemAt 3, itemAt 2, itemAt 1] 1 2 = some first ∧
      service.paginate [itemAt 4, itemAt 3, itemAt 2, itemAt 1] (1 + 2) 0 = some rest ∧
      service.paginate [itemAt 4, itemAt 3, itemAt 2, itemAt 1] 1 0 = some (first ++ rest) :=
  pages_tile [itemAt 4, itemAt 3, itemAt 2, itemAt 1] 1 2 (by decide) (by decide) (by decide)
    (by decide) (by decide)

/-! ## Provider stamping -/

theorem sky_toFeedLoop_eq (category : Category) :
    ∀ (upstream : List sky.Item) (items : List News.Item),
      sky.toFeedLoop category upstream items =
        items ++ upstream.map (fun i =>
          { Category := category, Provider := ProviderSky, Title := i.Title, Link := i.Link,
            Description := i.Description, Thumbnail := i.Thumbnail.URL,
            DateTime := i.PubDate }) := by
  intro upstream
  induction upstream with
  | nil =>
    intro items
    simp [sky.toFeedLoop]
  | cons i rest ih =>
    intro items
    simp only [sky.toFeedLoop, ih, List.map_cons, List.append_assoc, List.singleton_append]

theorem bbc_toFeedLoop_eq (r : bbc.Response) (category : Category) :
    ∀ (upstream : List bbc.Item) (items : List News.Item),
      bbc.toFeedLoop r category upstream items =
        items ++ upstream.map (fun i =>
          { Category := category, Provider := ProviderBBC, Title := i.Title, Link := i.Link,
            Description := i.Description, Thumbnail := r.Channel.Image.URL,
            DateTime := i.PubDate }) := by
  intro upstream
  induction upstream with
  | nil =>
    intro items
    simp [bbc.toFeedLoop]
  | cons i rest ih =>
    intro items
    simp only [bbc.toFeedLoop, ih, List.map_cons, List.append_assoc, List.singleton_append]

/-- C24: provider stamping.  `toFeed` of the sky and of the bbc adapter yields
one item per upstream item, in the same order, each with the requested category,
the adapter's provider identifier and the upstream item's title, link,
description and publish date; the feed's title, description, link, language,
copyright, build date and TTL are those of the upstream channel. -/
theorem toFeed_stamps_items (rs : sky.Response) (rb : bbc.Response) (category : Category) :
    ((rs.toFeed category).Items = rs.Channel.Items.map (fun i =>
          { Category := category, Provider := ProviderSky, Title := i.Title, Link := i.Link,
            Description := i.Description, Thumbnail := i.Thumbnail.URL,
            DateTime := i.PubDate }) ∧
        (rs.toFeed category).Items.length = rs.Channel.Items.length ∧
        (∀ x ∈ (rs.toFeed category).Items,
          x.Category = category ∧ x.Provider = ProviderSky) ∧
        (rs.toFeed category).Title = rs.Channel.Title ∧
        (rs.toFeed category).Description = rs.Channel.Description ∧
        (rs.toFeed category).Link = rs.Channel.Link ∧
        (rs.toFeed category).Language = rs.Channel.Language ∧
        (rs.toFeed category).Copyright = rs.Channel.Copyright ∧
        (rs.toFeed category).DateTime = rs.Channel.LastBuildDate ∧
        (rs.toFeed category).TTL = rs.Channel.TTL) ∧
      ((rb.toFeed category).Items = rb.Channel.Items.map (fun i =>
          { Category := category, Provider := ProviderBBC, Title := i.Title, Link := i.Link,
            Description := i.Description, Thumbnail := rb.Channel.Image.URL,
            DateTime := i.PubDate }) ∧
        (rb.toFeed category).Items.length = rb.Channel.Items.length ∧
        (∀ x ∈ (rb.toFeed category).Items,
          x.Category = category ∧ x.Provider = ProviderBBC) ∧
        (rb.toFeed category).Title = rb.Channel.Title ∧
        (rb.toFeed category).Description = rb.Channel.Description ∧
        (rb.toFeed category).Link = rb.Channel.Link ∧
        (rb.toFeed category).Language = rb.Channel.Language ∧
        (rb.toFeed category).Copyright = rb.Channel.Copyright ∧
        (rb.toFeed category).DateTime = rb.Channel.LastBuildDate ∧
        (rb.toFeed category).TTL = rb.Channel.TTL) := by
  have hs : (rs.toFeed category).Items = rs.Channel.Items.map (fun i =>
      { Category := category, Provider := ProviderSky, Title := i.Title, Link := i.Link,
        Description := i.Description, Thumbnail := i.Thumbnail.URL,
        DateTime := i.PubDate }) := by
    show sky.toFeedLoop category rs.Channel.Items [] = _
    rw [sky_toFeedLoop_eq, List.nil_append]
  have hb : (rb.toFeed category).Items = rb.Channel.Items.map (fun i =>
      { Category := category, Provider := ProviderBBC, Title := i.Title, Link := i.Link,
        Description := i.Description, Thumbnail := rb.Channel.Image.URL,
        DateTime := i.PubDate }) := by
    show bbc.toFeedLoop rb category rb.Channel.Items [] = _
    rw [bbc_toFeedLoop_eq, List.nil_append]
  refine ⟨⟨hs, ?_, ?_, rfl, rfl, rfl, rfl, rfl, rfl, rfl⟩,
    ⟨hb, ?_, ?_, rfl, rfl, rfl, rfl, rfl, rfl, rfl⟩⟩
  · rw [hs, List.length_map]
  · intro x hx
    rw [hs, List.mem_map] at hx
    obtain ⟨i, _, rfl⟩ := hx
    exact ⟨rfl, rfl⟩
  · rw [hb, List.length_map]
  · intro x hx
    rw [hb, List.mem_map] at hx
    obtain ⟨i, _, rfl⟩ := hx
    exact ⟨rfl, rfl⟩

/-! ## The HTTP handler -/

/-- The provider a handler passes on: the `provider` query parameter. -/
theorem handler_getFeed_of_params (h : handler) (encodes : Option FeedResponse → Bool)
    (r : Request) (limit offset : Int)
    (hl : handler.intParam r "limit" = .ok limit)
    (ho : handler.intParam r "offset" = .ok offset) :
    h.getFeed encodes r =
      match h.newsService.GetFeed
        (if r.queryGet "provider" = "" then ProviderAll else r.queryGet "provider")
        offset limit with
      | .panic => ⟨none, [.GetFeed
          (if r.queryGet "provider" = "" then ProviderAll else r.queryGet "provider")
          offset limit]⟩
      | .ok res => ⟨some (handler.sendResponse encodes res none), [.GetFeed
          (if r.queryGet "provider" = "" then ProviderAll else r.queryGet "provider")
          offset limit]⟩
      | .error err => ⟨some (handler.sendResponse encodes none (some err)), [.GetFeed
          (if r.queryGet "provider" = "" then ProviderAll else r.queryGet "provider")
          offset limit]⟩ := by
  unfold handler.getFeed
  simp only [hl, ho]

theorem handler_getFeedByCategory_of_params (h : handler)
    (encodes : Option FeedResponse → Bool) (r : Request) (category : Category)
    (limit offset : Int) (hc : r.category = some category)
    (hl : handler.intParam r "limit" = .ok limit)
    (ho : handler.intParam r "offset" = .ok offset) :
    h.getFeedByCategory encodes r =
      match h.newsService.GetFeedByCategory
        (if r.queryGet "provider" = "" then ProviderAll else r.queryGet "provider")
        category offset limit with
      | .panic => ⟨none, [.GetFeedByCategory
          (if r.queryGet "provider" = "" then ProviderAll else r.queryGet "provider")
          category offset limit]⟩
      | .ok res => ⟨some (handler.sendResponse encodes res none), [.GetFeedByCategory
          (if r.queryGet "provider" = "" then ProviderAll else r.queryGet "provider")
          category offset limit]⟩
      | .error err => ⟨some (handler.sendResponse encodes none (some err)),
          [.GetFeedByCategory
            (if r.queryGet "provider" = "" then ProviderAll else r.queryGet "provider")
            category offset limit]⟩ := by
  unfold handler.getFeedByCategory
  simp only [hc, hl, ho]

/-- C21: transport error classification.  For an error returned by the service,
`sendResponse` answers 404 with the error's own message when the error is or
wraps `ErrCategoryNotFound` or `ErrProviderNotFound`, and 500 with the message
"could not get news feed" otherwise; both handlers answer an error of the
service with `sendResponse`. -/
theorem error_classification (h : handler) (encodes : Option FeedResponse → Bool)
    (res : Option FeedResponse) (err : GoError) :
    ((errorsIs err .ErrCategoryNotFound = true ∨ errorsIs err .ErrProviderNotFound = true) →
      handler.sendResponse encodes res (some err)
        = { status := 404, body := .serverError err.Error }) ∧
    (¬ (errorsIs err .ErrCategoryNotFound = true ∨ errorsIs err .ErrProviderNotFound = true) →
      handler.sendResponse encodes res (some err)
        = { status := 500, body := .serverError "could not get news feed" }) ∧
    ((handler.sendResponse encodes res (some err)).status = 404 ↔
      (errorsIs err .ErrCategoryNotFound = true ∨ errorsIs err .ErrProviderNotFound = true)) ∧
    (∀ (r : Request) (limit offset : Int),
      handler.intParam r "limit" = .ok limit → handler.intParam r "offset" = .ok offset →
      h.newsService.GetFeed
        (if r.queryGet "provider" = "" then ProviderAll else r.queryGet "provider")
        offset limit = .error err →
      (h.getFeed encodes r).response
        = some (handler.sendResponse encodes none (some err))) ∧
    (∀ (r : Request) (category : Category) (limit offset : Int),
      r.category = some category →
      handler.intParam r "limit" = .ok limit → handler.intParam r "offset" = .ok offset →
      h.newsService.GetFeedByCategory
        (if r.queryGet "provider" = "" then ProviderAll else r.queryGet "provider")
        category offset limit = .error err →
      (h.getFeedByCategory encodes r).response
        = some (handler.sendResponse encodes none (some err))) := by
  refine ⟨?_, ?_, ?_, ?_, ?_⟩
  · intro hs
    unfold handler.sendResponse
    simp only [Bool.or_eq_true]
    rw [if_pos hs]
    rfl
  · intro hs
    unfold handler.sendResponse
    simp only [Bool.or_eq_true]
    rw [if_neg hs]
    rfl
  · unfold handler.sendResponse
    simp only [Bool.or_eq_true]
    by_cases hs : errorsIs err .ErrCategoryNotFound = true ∨
        errorsIs err .ErrProviderNotFound = true
    · rw [if_pos hs]
      simp [handler.errorResponse, hs]
    · rw [if_neg hs]
      simp [handler.errorResponse, hs]
  · intro r limit offset hl ho herr
    rw [handler_getFeed_of_params h encodes r limit offset hl ho]
    simp only [herr]
  · intro r category limit offset hc hl ho herr
    rw [handler_getFeedByCategory_of_params h encodes r category limit offset hc hl ho]
    simp only [herr]

theorem error_classification_witness :
    (demoHandler.getFeed (fun _ => true) ⟨none, [("provider", "itv")]⟩).response
        = some { status := 404, body := .serverError "provider not found" } ∧
      (demoHandler.getFeed (fun _ => true) ⟨none, []⟩).response
        = some { status := 500, body := .serverError "could not get news feed" } :=
  ⟨((error_classification demoHandler (fun _ => true) none .ErrProviderNotFound).2.2.2.1
      ⟨none, [("provider", "itv")]⟩ 0 0 rfl rfl rfl).trans
      (congrArg some ((error_classification demoHandler (fun _ => true) none
        .ErrProviderNotFound).1 (Or.inr rfl))),
    ((error_classification demoHandler (fun _ => true) none
      (errorfGetFeed "uk" "sky" (.upstream 0 "sky is down"))).2.2.2.1
      ⟨none, []⟩ 0 0 rfl rfl rfl).trans
      (congrArg some ((error_classification demoHandler (fun _ => true) none
        (errorfGetFeed "uk" "sky" (.upstream 0 "sky is down"))).2.1 (by decide)))⟩

/-- A sign `-` followed by digits of value at most 9223372036854775808 is read
by `Atoi` as the negative integer: `Atoi` refuses no negative value of `int`. -/
theorem Atoi_negative (ds : List Char) (hd : isDigits ds = true)
    (hr : digitsValue ds ≤ 9223372036854775808) :
    Atoi (String.mk ('-' :: ds)) = .ok (-(digitsValue ds : Int)) := by
  have hdec : isDecimalInteger (String.mk ('-' :: ds)) = true := by
    simp [isDecimalInteger, hd]
  have hval : decimalValue (String.mk ('-' :: ds)) = -(digitsValue ds : Int) := by
    simp [decimalValue]
  unfold Atoi
  rw [if_pos hdec, hval, if_pos]
  unfold MinInt MaxInt
  omega

/-- `intParam` reads a negative integer of the range of `int` as it stands. -/
theorem intParam_negative (r : Request) (key : String) (ds : List Char)
    (hq : r.queryGet key = String.mk ('-' :: ds)) (hd : isDigits ds = true)
    (hr : digitsValue ds ≤ 9223372036854775808) :
    handler.intParam r key = .ok (-(digitsValue ds : Int)) := by
  have hne : r.queryGet key ≠ "" := by
    rw [hq]
    intro h
    have := congrArg String.data h
    simp at this
  unfold handler.intParam
  simp only [if_neg hne]
  rw [hq, Atoi_negative ds hd hr]

/-- What `Atoi` reads is a value of `int`. -/
theorem Atoi_isInt (v : String) (n : Int) (h : Atoi v = .ok n) : isInt n := by
  unfold Atoi at h
  by_cases hdec : isDecimalInteger v = true
  · rw [if_pos hdec] at h
    by_cases hrange : MinInt ≤ decimalValue v ∧ decimalValue v ≤ MaxInt
    · rw [if_pos hrange] at h
      simp only [Except.ok.injEq] at h
      rw [← h]
      exact hrange
    · rw [if_neg hrange] at h
      cases h
  · rw [if_neg hdec] at h
    cases h

/-- What `intParam` reads is a value of `int`. -/
theorem intParam_isInt (r : Request) (key : String) (n : Int)
    (h : handler.intParam r key = .ok n) : isInt n := by
  unfold handler.intParam at h
  by_cases hq : r.queryGet key = ""
  · simp only [if_pos hq, Except.ok.injEq] at h
    rw [← h]
    decide
  · simp only [if_neg hq] at h
    cases ha : Atoi (r.queryGet key) with
    | error err =>
      rw [ha] at h
      cases h
    | ok m =>
      rw [ha] at h
      simp only [Except.ok.injEq] at h
      rw [← h]
      exact Atoi_isInt _ _ ha

/-- A negative offset or a negative limit makes the slice expression of
`paginate` panic, for every item sequence. -/
theorem paginate_negative_panics (items : List Item) (offset limit : Int)
    (ho : isInt offset) (hl : isInt limit) (hneg : offset < 0 ∨ limit < 0) :
    service.paginate items offset limit = none := by
  have hb : ¬ (0 ≤ (service.paginateBounds items offset limit).1 ∧
      (service.paginateBounds items offset limit).1 ≤
        (service.paginateBounds items offset limit).2 ∧
      (service.paginateBounds items offset limit).2 ≤ (items.length : Int)) := by
    unfold isInt MinInt MaxInt at ho hl
    have hlow : (if offset > (items.length : Int) then (items.length : Int) else offset)
        = min offset (items.length : Int) := by
      split <;> omega
    rintro ⟨h1, h2, _⟩
    simp only [service.paginateBounds, hlow] at h1 h2
    rcases hneg with hn | hn
    · omega
    · have hlim : (if limit = 0 then MaxInt32 else limit) = limit := if_neg (by omega)
      have hw : wrapInt (min offset (items.length : Int) + limit)
          = min offset (items.length : Int) + limit := by
        apply wrapInt_of_isInt
        unfold isInt MinInt MaxInt
        omega
      rw [hlim, hw] at h2
      split at h2 <;> omega
  rw [paginate_eq_sliceExpr_bounds]
  unfold sliceExpr
  rw [if_neg hb]

/-- The handlers call the service exactly once with the parameters as
`intParam` read them, whatever their sign. -/
theorem handler_forwards_read_parameters (h : handler)
    (encodes : Option FeedResponse → Bool) (r : Request) (limit offset : Int)
    (hl : handler.intParam r "limit" = .ok limit)
    (ho : handler.intParam r "offset" = .ok offset) :
    (h.getFeed encodes r).calls =
        [.GetFeed (if r.queryGet "provider" = "" then ProviderAll else r.queryGet "provider")
          offset limit] ∧
      ∀ category, r.category = some category →
        (h.getFeedByCategory encodes r).calls =
          [.GetFeedByCategory
            (if r.queryGet "provider" = "" then ProviderAll else r.queryGet "provider")
            category offset limit] := by
  constructor
  · rw [handler_getFeed_of_params h encodes r limit offset hl ho]
    split <;> rfl
  · intro category hc
    rw [handler_getFeedByCategory_of_params h encodes r category limit offset hc hl ho]
    split <;> rfl

/-- Behind the handler of `GetFeed`, a negative `limit` or `offset` that was
read, on a query whose fetches succeed, ends in a panic of the service: the
handler has called it and writes no answer. -/
theorem handler_negative_parameter_panics (S : SliceSorter) (s : service) (o : Ranges)
    (k : cache) (encodes : Option FeedResponse → Bool) (r : Request) (limit offset : Int)
    (items : List Item)
    (hl : handler.intParam r "limit" = .ok limit)
    (ho : handler.intParam r "offset" = .ok offset)
    (hneg : offset < 0 ∨ limit < 0)
    (hok : (service.GetFeed.loop s o
      (if r.queryGet "provider" = "" then ProviderAll else r.queryGet "provider")
      o.categories k []).ret = .ok items) :
    handler.getFeed ⟨service.asNewsService S s o k⟩ encodes r =
      ⟨none, [.GetFeed
        (if r.queryGet "provider" = "" then ProviderAll else r.queryGet "provider")
        offset limit]⟩ := by
  have hp := paginate_negative_panics (S.sort lessAfter items) offset limit
    (intParam_isInt r "offset" offset ho) (intParam_isInt r "limit" limit hl) hneg
  have hret : (service.asNewsService S s o k).GetFeed
      (if r.queryGet "provider" = "" then ProviderAll else r.queryGet "provider")
      offset limit = .panic := by
    show (service.GetFeed S s o k _ offset limit).ret.toHandler = .panic
    unfold service.GetFeed
    simp only [hok, hp]
    rfl
  rw [handler_getFeed_of_params _ encodes r limit offset hl ho]
  simp only [hret]

/-- C22 (code defect): the request `GET /?provider=bbc&limit=-1` is not answered
with a client error.  `intParam` reads the limit as -1, the handler calls
`GetFeed("bbc", 0, -1)`, and in the service of `demoService` the slice
expression of `paginate` panics, so no answer is written; likewise `offset=-1`
reaches `GetFeedByCategory`, which panics. -/
theorem negative_parameters_reach_the_service :
    handler.intParam ⟨none, [("provider", "bbc"), ("limit", "-1")]⟩ "limit" = .ok (-1) ∧
      demoHandler.getFeed (fun _ => true) ⟨none, [("provider", "bbc"), ("limit", "-1")]⟩
        = ⟨none, [.GetFeed "bbc" 0 (-1)]⟩ ∧
      service.paginate [itemAt 5, itemAt 1] 0 (-1) = none ∧
      handler.intParam ⟨some "uk", [("provider", "bbc"), ("offset", "-1")]⟩ "offset"
        = .ok (-1) ∧
      demoHandler.getFeedByCategory (fun _ => true)
          ⟨some "uk", [("provider", "bbc"), ("offset", "-1")]⟩
        = ⟨none, [.GetFeedByCategory "bbc" "uk" (-1) 0]⟩ ∧
      service.paginate [itemAt 5, itemAt 1] (-1) 0 = none := by
  refine ⟨rfl, ?_, ?_, rfl, ?_, ?_⟩ <;> decide

/-- A value that is not a decimal integer is refused by `Atoi`. -/
theorem Atoi_not_decimal (v : String) (h : isDecimalInteger v = false) :
    ∃ err, Atoi v = .error err := by
  unfold Atoi
  rw [if_neg (by simp [h])]
  exact ⟨_, rfl⟩

theorem intParam_error_of_not_decimal (r : Request) (key : String)
    (hne : r.queryGet key ≠ "") (h : isDecimalInteger (r.queryGet key) = false) :
    ∃ err, handler.intParam r key = .error err := by
  obtain ⟨err, herr⟩ := Atoi_not_decimal (r.queryGet key) h
  unfold handler.intParam
  simp only [if_neg hne, herr]
  exact ⟨_, rfl⟩

/-- C23: query-parameter validation.  An absent or empty `limit`/`offset` is
read as 0; a value that is not a decimal integer is refused; a refused `limit`
makes both handlers answer 400 "limit is invalid" without calling the service,
whatever the `offset`; a refused `offset` after an accepted `limit` makes them
answer 400 "offset is invalid" without calling the service. -/
theorem query_parameter_validation (h : handler) (encodes : Option FeedResponse → Bool)
    (r : Request) :
    (∀ key, r.query.lookup key = none → handler.intParam r key = .ok 0) ∧
    (∀ key, r.queryGet key = "" → handler.intParam r key = .ok 0) ∧
    (∀ key, r.queryGet key ≠ "" → isDecimalInteger (r.queryGet key) = false →
      ∃ err, handler.intParam r key = .error err) ∧
    ((∃ err, handler.intParam r "limit" = .error err) →
      h.getFeed encodes r =
          ⟨some { status := 400, body := .serverError "limit is invalid" }, []⟩ ∧
        ∀ category, r.category = some category →
          h.getFeedByCategory encodes r =
            ⟨some { status := 400, body := .serverError "limit is invalid" }, []⟩) ∧
    ((∃ limit, handler.intParam r "limit" = .ok limit) →
      (∃ err, handler.intParam r "offset" = .error err) →
      h.getFeed encodes r =
          ⟨some { status := 400, body := .serverError "offset is invalid" }, []⟩ ∧
        ∀ category, r.category = some category →
          h.getFeedByCategory encodes r =
            ⟨some { status := 400, body := .serverError "offset is invalid" }, []⟩) := by
  refine ⟨?_, ?_, ?_, ?_, ?_⟩
  · intro key hk
    unfold handler.intParam Request.queryGet
    simp [hk]
  · intro key hk
    unfold handler.intParam
    simp [hk]
  · intro key hne hnd
    exact intParam_error_of_not_decimal r key hne hnd
  · rintro ⟨err, herr⟩
    constructor
    · unfold handler.getFeed
      simp only [herr]
      rfl
    · intro category hc
      unfold handler.getFeedByCategory
      simp only [hc, herr]
      rfl
  · rintro ⟨limit, hl⟩ ⟨err, herr⟩
    constructor
    · unfold handler.getFeed
      simp only [hl, herr]
      rfl
    · intro category hc
      unfold handler.getFeedByCategory
      simp only [hc, hl, herr]
      rfl

theorem query_parameter_validation_witness :
    handler.intParam ⟨none, [("limit", "")]⟩ "offset" = .ok 0 ∧
      handler.intParam ⟨none, [("limit", "")]⟩ "limit" = .ok 0 ∧
      demoHandler.getFeed (fun _ => true) ⟨none, [("limit", "limit"), ("offset", "offset")]⟩
        = ⟨some { status := 400, body := .serverError "limit is invalid" }, []⟩ ∧
      demoHandler.getFeedByCategory (fun _ => true) ⟨some "uk", [("offset", "1.5")]⟩
        = ⟨some { status := 400, body := .serverError "offset is invalid" }, []⟩ :=
  ⟨(query_parameter_validation demoHandler (fun _ => true) ⟨none, [("limit", "")]⟩).1
      "offset" rfl,
    (query_parameter_validation demoHandler (fun _ => true) ⟨none, [("limit", "")]⟩).2.1
      "limit" rfl,
    ((query_parameter_validation demoHandler (fun _ => true)
      ⟨none, [("limit", "limit"), ("offset", "offset")]⟩).2.2.2.1
        ((query_parameter_validation demoHandler (fun _ => true)
          ⟨none, [("limit", "limit"), ("offset", "offset")]⟩).2.2.1 "limit"
            (by decide) (by decide))).1,
    ((query_parameter_validation demoHandler (fun _ => true)
      ⟨some "uk", [("offset", "1.5")]⟩).2.2.2.2 ⟨0, rfl⟩
        ((query_parameter_validation demoHandler (fun _ => true)
          ⟨some "uk", [("offset", "1.5")]⟩).2.2.1 "offset" (by decide) (by decide))).2
      "uk" rfl⟩

/-! ## Order of the fetches -/

/-- Sorting two permutations of items with distinct publish instants gives the
same sequence. -/
theorem sort_eq_of_perm (S : SliceSorter) (items1 items2 : List Item)
    (hperm : items1.Perm items2) (hnd : (items1.map Item.DateTime).Nodup) :
    S.sort lessAfter items1 = S.sort lessAfter items2 := by
  have hp1 := S.perm lessAfter items1
  have hp2 := S.perm lessAfter items2
  refine @List.Perm.eq_of_sorted Item (fun a b => b.DateTime ≤ a.DateTime) _ _ ?_ ?_ ?_ ?_
  · intro a b ha hb hab hba
    have ha1 : a ∈ items1 := hp1.subset ha
    have hb1 : b ∈ items1 := hperm.symm.subset (hp2.subset hb)
    exact List.inj_on_of_nodup_map hnd ha1 hb1 (le_antisymm hba hab)
  · exact sort_lessAfter_pairwise S items1
  · exact sort_lessAfter_pairwise S items2
  · exact hp1.trans (hperm.trans hp2.symm)

theorem resolvedFor_perm (o1 o2 : Ranges) (provider : Provider) (category : Category)
    (h : (o1.providers category).Perm (o2.providers category)) :
    (o1.resolvedFor provider category).Perm (o2.resolvedFor provider category) := by
  unfold Ranges.resolvedFor Ranges.pairsOf
  split
  · exact h.map _
  · exact List.Perm.refl _

theorem resolved_perm (o1 o2 : Ranges) (provider : Provider) (cs1 cs2 : List Category)
    (hc : cs1.Perm cs2) (hp : ∀ c, (o1.providers c).Perm (o2.providers c)) :
    (o1.resolved provider cs1).Perm (o2.resolved provider cs2) := by
  unfold Ranges.resolved
  exact (List.Perm.flatMap_right _ hc).trans
    (List.Perm.flatMap_left cs2 (fun c _ => resolvedFor_perm o1 o2 provider c (hp c)))

theorem valid_perm (s : service) (o1 o2 : Ranges) (hv1 : o1.valid s) (hv2 : o2.valid s) :
    o1.categories.Perm o2.categories ∧ ∀ c, (o1.providers c).Perm (o2.providers c) :=
  ⟨hv1.1.trans hv2.1.symm, fun c => (hv1.2 c).trans (hv2.2 c).symm⟩

/-- C25 (as stated, refuted): the two providers of `tieService` each return one
item, published at the same instant; visiting "bbc" first returns the bbc item
first, visiting "sky" first returns the sky item first. -/
theorem response_order_depends_on_visit_order :
    demoRanges.valid tieService ∧ demoRangesSkyFirst.valid tieService ∧
      (service.GetFeed insertionSorter tieService demoRanges cache.empty ProviderAll 0 0).ret
        = .ok { Category := "", Provider := ProviderAll,
                Items := [titledItem "from bbc" 7, titledItem "from sky" 7],
                Limit := 0, Offset := 0 } ∧
      (service.GetFeed insertionSorter tieService demoRangesSkyFirst cache.empty ProviderAll
          0 0).ret
        = .ok { Category := "", Provider := ProviderAll,
                Items := [titledItem "from sky" 7, titledItem "from bbc" 7],
                Limit := 0, Offset := 0 } ∧
      [titledItem "from bbc" 7, titledItem "from sky" 7]
        ≠ [titledItem "from sky" 7, titledItem "from bbc" 7] := by
  refine ⟨⟨List.Perm.refl _, fun _ => List.Perm.refl _⟩,
    ⟨List.Perm.refl _, fun _ => List.Perm.swap _ _ _⟩, rfl, rfl, by decide⟩

/-- C25 (amended): the response does not depend on the visit order when the
publish instants are distinct.  For two iteration orders of the same registry,
the same cache and provider results, resolved pairs with distinct cache keys
and resolved items with pairwise distinct publish instants, two calls of
`GetFeed` (or of `GetFeedByCategory`) that return a response return the same
items, for the same offset and limit. -/
theorem response_order_independent (S : SliceSorter) (s : service) (o1 o2 : Ranges) (k : cache)
    (provider : Provider) (category : Category) (offset limit : Int)
    (hv1 : o1.valid s) (hv2 : o2.valid s) :
    (∀ resp1 resp2,
      (service.GetFeed S s o1 k provider offset limit).ret = .ok resp1 →
      (service.GetFeed S s o2 k provider offset limit).ret = .ok resp2 →
      ((o1.resolved provider o1.categories).map hashPair).Nodup →
      (((o1.resolved provider o1.categories).flatMap (s.resolvedItems k)).map
        Item.DateTime).Nodup →
      resp1.Items = resp2.Items) ∧
    (∀ resp1 resp2,
      (service.GetFeedByCategory S s o1 k provider category offset limit).ret = .ok resp1 →
      (service.GetFeedByCategory S s o2 k provider category offset limit).ret = .ok resp2 →
      ((o1.resolvedFor provider category).map hashPair).Nodup →
      (((o1.resolvedFor provider category).flatMap (s.resolvedItems k)).map
        Item.DateTime).Nodup →
      resp1.Items = resp2.Items) := by
  obtain ⟨hcs, hps⟩ := valid_perm s o1 o2 hv1 hv2
  constructor
  · intro resp1 resp2 h1 h2 hkeys htimes
    obtain ⟨items1, page1, hloop1, hp1, rfl⟩ :=
      GetFeed_ok_inv S s o1 k provider offset limit resp1 h1
    obtain ⟨items2, page2, hloop2, hp2, rfl⟩ :=
      GetFeed_ok_inv S s o2 k provider offset limit resp2 h2
    have hres := resolved_perm o1 o2 provider o1.categories o2.categories hcs hps
    have hkeys2 : ((o2.resolved provider o2.categories).map hashPair).Nodup :=
      ((hres.map hashPair).nodup_iff).mp hkeys
    have hits1 := GetFeed_loop_resolved s o1 k provider o1.categories k [] items1
      (fun _ _ => rfl) hkeys hloop1
    have hits2 := GetFeed_loop_resolved s o2 k provider o2.categories k [] items2
      (fun _ _ => rfl) hkeys2 hloop2
    rw [List.nil_append] at hits1 hits2
    have hperm : items1.Perm items2 := by
      rw [hits1, hits2]
      exact List.Perm.flatMap_right _ hres
    rw [← hits1] at htimes
    rw [sort_eq_of_perm S items1 items2 hperm htimes, hp2] at hp1
    simp only [Option.some.injEq] at hp1
    exact hp1.symm
  · intro resp1 resp2 h1 h2 hkeys htimes
    obtain ⟨items1, page1, _, hget1, hp1, rfl⟩ :=
      GetFeedByCategory_ok_inv S s o1 k provider category offset limit resp1 h1
    obtain ⟨items2, page2, _, hget2, hp2, rfl⟩ :=
      GetFeedByCategory_ok_inv S s o2 k provider category offset limit resp2 h2
    have hres := resolvedFor_perm o1 o2 provider category (hps category)
    have hkeys2 : ((o2.resolvedFor provider category).map hashPair).Nodup :=
      ((hres.map hashPair).nodup_iff).mp hkeys
    have hits1 := (getFeeds_resolved s o1 k k provider category items1
      (fun _ _ => rfl) hkeys hget1).1
    have hits2 := (getFeeds_resolved s o2 k k provider category items2
      (fun _ _ => rfl) hkeys2 hget2).1
    have hperm : items1.Perm items2 := by
      rw [hits1, hits2]
      exact List.Perm.flatMap_right _ hres
    rw [← hits1] at htimes
    rw [sort_eq_of_perm S items1 items2 hperm htimes, hp2] at hp1
    simp only [Option.some.injEq] at hp1
    exact hp1.symm

theorem response_order_independent_witness :
    (service.GetFeed insertionSorter pairService demoRanges cache.empty ProviderAll 0 0).ret
        = .ok { Category := "", Provider := ProviderAll,
                Items := [itemAt 5, itemAt 3, itemAt 1], Limit := 0, Offset := 0 } ∧
      (service.GetFeed insertionSorter pairService demoRangesSkyFirst cache.empty ProviderAll
          0 0).ret
        = .ok { Category := "", Provider := ProviderAll,
                Items := [itemAt 5, itemAt 3, itemAt 1], Limit := 0, Offset := 0 } ∧
      ({ Category := "", Provider := ProviderAll, Items := [itemAt 5, itemAt 3, itemAt 1],
         Limit := 0, Offset := 0 } : FeedResponse).Items = [itemAt 5, itemAt 3, itemAt 1] :=
  ⟨rfl, rfl,
    (response_order_independent insertionSorter pairService demoRanges demoRangesSkyFirst
      cache.empty ProviderAll "uk" 0 0
      ⟨List.Perm.refl _, fun _ => List.Perm.refl _⟩
      ⟨List.Perm.refl _, fun _ => List.Perm.swap _ _ _⟩).1
      { Category := "", Provider := ProviderAll, Items := [itemAt 5, itemAt 3, itemAt 1],
        Limit := 0, Offset := 0 }
      { Category := "", Provider := ProviderAll, Items := [itemAt 5, itemAt 3, itemAt 1],
        Limit := 0, Offset := 0 }
      rfl rfl (by decide) (by decide)⟩

end News
